import Mathlib

/-!
# prevue-rproxy: host-based reverse proxy

A shallow embedding of `proxy/proxy.go` and `proxy/errors.go`, together with the parts of the
Go standard library they call (`strings`, `unicode/utf8`, `regexp`, `net/url`, `encoding/json`,
`net/http`), and the proofs of the properties of the routing logic.

Go strings are byte sequences, so a Go `string` is a `List UInt8` here; `regexp` and
`encoding/json` decode runes from the bytes the way `unicode/utf8` does. The definitions come
first, in the order of their dependencies; the theorems follow.
-/

namespace Prevue

/-! ## Go strings -/

/-- A Go `string`: an immutable sequence of bytes (not necessarily valid UTF-8). -/
abbrev GoString := List UInt8

/-- A Go string literal: the UTF-8 encoding of the source text. -/
def str (s : String) : GoString := s.data.flatMap String.utf8EncodeChar

/-! ## unicode/utf8 -/

/-- The rune `utf8.RuneError` (U+FFFD). -/
def RuneError : Nat := 0xFFFD

/-- The continuation bytes of a multi-byte sequence, as in `utf8.DecodeRuneInString` after the
first byte `b0` has selected the size `sz` and the accept range `lo..hi` of the second byte;
the later bytes must lie in `0x80..0xBF`. The masks `s0&mask2`, `s0&mask3`, `s0&mask4` and
`s&maskx` are remainders, the shifts are multiplications, and the shifted parts do not
overlap, so that `|` is `+`. -/
def decodeRest (b0 sz lo hi : Nat) (tl : GoString) : Nat × Nat :=
  match tl with
  | [] => (RuneError, 1)
  | s1 :: tl1 =>
    if s1.toNat < lo ∨ hi < s1.toNat then (RuneError, 1)
    else if sz ≤ 2 then ((b0 % 32) * 64 + s1.toNat % 64, 2)
    else
      match tl1 with
      | [] => (RuneError, 1)
      | s2 :: tl2 =>
        if s2.toNat < 0x80 ∨ 0xBF < s2.toNat then (RuneError, 1)
        else if sz ≤ 3 then ((b0 % 16) * 4096 + (s1.toNat % 64) * 64 + s2.toNat % 64, 3)
        else
          match tl2 with
          | [] => (RuneError, 1)
          | s3 :: _ =>
            if s3.toNat < 0x80 ∨ 0xBF < s3.toNat then (RuneError, 1)
            else ((b0 % 8) * 262144 + (s1.toNat % 64) * 4096 + (s2.toNat % 64) * 64
                    + s3.toNat % 64, 4)

/-- The function `utf8.DecodeRuneInString`: the first rune of `s` and its width in bytes;
`(RuneError, 0)` on the empty string and `(RuneError, 1)` on an invalid encoding. The table
`first` is spelled out: bytes below `0x80` are ASCII, `0x80..0xC1` and `0xF5..0xFF` are
invalid, `0xC2..0xDF` start a 2-byte, `0xE0..0xEF` a 3-byte and `0xF0..0xF4` a 4-byte
sequence; the accept range of the second byte is narrowed after `0xE0`, `0xED`, `0xF0`, `0xF4`. -/
def DecodeRune (s : GoString) : Nat × Nat :=
  match s with
  | [] => (RuneError, 0)
  | s0 :: tl =>
    let b0 := s0.toNat
    if b0 < 0x80 then (b0, 1)
    else if b0 < 0xC2 ∨ 0xF4 < b0 then (RuneError, 1)
    else
      let sz := if b0 < 0xE0 then 2 else if b0 < 0xF0 then 3 else 4
      let lo := if b0 = 0xE0 then 0xA0 else if b0 = 0xF0 then 0x90 else 0x80
      let hi := if b0 = 0xED then 0x9F else if b0 = 0xF4 then 0x8F else 0xBF
      if tl.length + 1 < sz then (RuneError, 1) else decodeRest b0 sz lo hi tl

/-- The loop of `utf8.ValidString`: no position of the string decodes to the error rune
of width 1. The fuel is the number of bytes left. -/
def validStringFrom : Nat → GoString → Bool
  | _, [] => true
  | 0, _ :: _ => false
  | fuel + 1, b :: tl =>
    if (DecodeRune (b :: tl)).1 = RuneError ∧ (DecodeRune (b :: tl)).2 = 1 then false
    else validStringFrom fuel ((b :: tl).drop (DecodeRune (b :: tl)).2)

/-- The function `utf8.ValidString`: whether the string is valid UTF-8. -/
def ValidString (s : GoString) : Bool :=
  validStringFrom s.length s

/-- The function `utf8.AppendRune` on the empty slice: the UTF-8 encoding of a rune, which is
that of U+FFFD for a surrogate and beyond U+10FFFF. -/
def EncodeRune (r : Nat) : GoString :=
  if r ≤ 0x7F then [UInt8.ofNat r]
  else if r ≤ 0x7FF then [UInt8.ofNat (0xC0 + r / 64), UInt8.ofNat (0x80 + r % 64)]
  else if 0x10FFFF < r ∨ (0xD800 ≤ r ∧ r ≤ 0xDFFF) then [0xEF, 0xBF, 0xBD]
  else if r ≤ 0xFFFF then
    [UInt8.ofNat (0xE0 + r / 4096), UInt8.ofNat (0x80 + r / 64 % 64), UInt8.ofNat (0x80 + r % 64)]
  else
    [UInt8.ofNat (0xF0 + r / 262144), UInt8.ofNat (0x80 + r / 4096 % 64),
      UInt8.ofNat (0x80 + r / 64 % 64), UInt8.ofNat (0x80 + r % 64)]

/-! ## strings -/

/-- The function `strings.Split(s, sep)` for a one-byte separator: the pieces of `s` between
the occurrences of `sep`; always at least one piece. -/
def Split : GoString → UInt8 → List GoString
  | [], _ => [[]]
  | b :: t, sep =>
    if b = sep then [] :: Split t sep
    else
      match Split t sep with
      | [] => [[b]]
      | p :: ps => (b :: p) :: ps

/-- The function `strings.TrimLeft(s, cutset)` for an ASCII cutset: `s` without its leading
bytes that occur in `cutset`. -/
def TrimLeft (s cutset : GoString) : GoString :=
  s.dropWhile (fun b => decide (b ∈ cutset))

/-! ## regexp -/

/-- Syntax tree of a regular expression (`regexp/syntax`), restricted to the operators
that occur in this program; runes are natural numbers. -/
inductive Regexp where
  | beginText
  | endText
  | literal (r : Nat)
  | charClass (p : Nat → Bool)
  | concat (a b : Regexp)
  | plus (a : Regexp)
  | quest (a : Regexp)
  | rep (n : Nat) (a : Regexp)
  | capture (i : Nat) (a : Regexp)

/-- A thread of the matcher: the byte offset reached, the input that remains from there, and
the capture registers (`cap (2*i)` and `cap (2*i+1)` delimit group `i`). -/
structure Thread where
  pos : Nat
  rest : GoString
  cap : Nat → Option Nat

/-- Consume one rune that satisfies `p`; no thread at the end of the text. -/
def stepRune (p : Nat → Bool) (t : Thread) : List Thread :=
  if (DecodeRune t.rest).2 ≠ 0 ∧ p (DecodeRune t.rest).1 = true then
    [{ t with pos := t.pos + (DecodeRune t.rest).2, rest := t.rest.drop (DecodeRune t.rest).2 }]
  else []

/-- Greedy `a+`: after each iteration, going round again is preferred to leaving the loop.
The fuel bounds the number of iterations. -/
def plusLoop (f : Thread → List Thread) : Nat → Thread → List Thread
  | 0, _ => []
  | n + 1, t => (f t).flatMap (fun t1 => plusLoop f n t1 ++ [t1])

/-- Counted repetition `a{n}`. -/
def repLoop (f : Thread → List Thread) : Nat → Thread → List Thread
  | 0, t => [t]
  | n + 1, t => (f t).flatMap (repLoop f n)

/-- All the ways `re` matches from thread `t`, in the order of preference of Go's
leftmost-first (Perl-like) semantics: the head of the list is the match Go reports. Flags are
those of `regexp.MustCompile`: `^` and `$` match only at the beginning and the end of the
text, a negated class matches a newline. The loop of `plus` gets one unit of fuel per
remaining byte (and one more), which is exact for a body that consumes input. -/
def Regexp.run : Regexp → Thread → List Thread
  | .beginText, t => if t.pos = 0 then [t] else []
  | .endText, t => if t.rest = [] then [t] else []
  | .literal r, t => stepRune (fun x => x == r) t
  | .charClass p, t => stepRune p t
  | .concat a b, t => (a.run t).flatMap b.run
  | .plus a, t => plusLoop a.run (t.rest.length + 1) t
  | .quest a, t => a.run t ++ [t]
  | .rep n a, t => repLoop a.run n t
  | .capture i a, t =>
    (a.run { t with cap := Function.update t.cap (2 * i) (some t.pos) }).map
      (fun t1 => { t1 with cap := Function.update t1.cap (2 * i + 1) (some t1.pos) })

/-- The number of capture groups: `(*Regexp).NumSubexp`. -/
def Regexp.NumSubexp : Regexp → Nat
  | .beginText | .endText | .literal _ | .charClass _ => 0
  | .concat a b => max a.NumSubexp b.NumSubexp
  | .plus a | .quest a | .rep _ a => a.NumSubexp
  | .capture i a => max i a.NumSubexp

/-- The leftmost match of `re` in `s`: the start offsets are tried from left to right and, at
the first one where the expression matches, the preferred thread is taken. Group 0 is the
whole match. -/
def Regexp.doExecute (re : Regexp) (s : GoString) : Option Thread :=
  (List.range (s.length + 1)).findSome? (fun i =>
    ((Regexp.capture 0 re).run ⟨i, s.drop i, fun _ => none⟩).head?)

/-- The method `(*Regexp).FindStringSubmatch`: `none` (Go's `nil`) when there is no match,
else the text of the whole match followed by the text of each group, the empty string for a
group that did not take part. -/
def Regexp.FindStringSubmatch (re : Regexp) (s : GoString) : Option (List GoString) :=
  (re.doExecute s).map (fun t =>
    (List.range (re.NumSubexp + 1)).map (fun k =>
      match t.cap (2 * k), t.cap (2 * k + 1) with
      | some a, some b => (s.drop a).take (b - a)
      | _, _ => []))

/-- The class `[^-]`: every rune but `-`. -/
def classNotDash (r : Nat) : Bool := r != 0x2D

/-- The Perl class `\d`, which in Go is the ASCII class `[0-9]`. -/
def classDigit (r : Nat) : Bool := 0x30 ≤ r && r ≤ 0x39

/-- The pattern `^([^-]+)(-\d{4})?$` of `subdomainRegex`. -/
def subdomainRegex : Regexp :=
  .concat .beginText
    (.concat (.capture 1 (.plus (.charClass classNotDash)))
      (.concat
        (.quest (.capture 2
          (.concat (.literal 0x2D) (.rep 4 (.charClass classDigit)))))
        .endText))

/-! ## errors.go -/

/-- The type `ErrorFields`, a Go `map[string]string`: the entries in no particular order, at
most one per key. -/
abbrev ErrorFields := List (GoString × GoString)

/-- The map assignment `m[key] = value`. -/
def mapSet (m : ErrorFields) (key value : GoString) : ErrorFields :=
  (key, value) :: m.filter (fun e => e.1 != key)

/-- The builtin `delete(m, key)`. -/
def mapDelete (m : ErrorFields) (key : GoString) : ErrorFields :=
  m.filter (fun e => e.1 != key)

/-- The map lookup `m[key]` with its presence flag. -/
def mapGet (m : ErrorFields) (key : GoString) : Option GoString :=
  (m.find? (fun e => e.1 == key)).map (fun e => e.2)

/-- The struct `ProxyError`; `Data = none` is the nil map. -/
structure ProxyError where
  Msg : GoString
  Status : Int
  Data : Option ErrorFields
  deriving DecidableEq

/-- The method `AddErrField`: the receiver after the call. -/
def ProxyError.AddErrField (err : ProxyError) (key value : GoString) : ProxyError :=
  let err1 : ProxyError :=
    if err.Data = none then { err with Data := some [] } else err
  { err1 with Data := err1.Data.map (fun m => mapSet m key value) }

/-- The method `RemoveErrField`: the receiver after the call; `delete` on a nil map is a
no-op. -/
def ProxyError.RemoveErrField (err : ProxyError) (key : GoString) : ProxyError :=
  { err with Data := err.Data.map (fun m => mapDelete m key) }

/-- The extra field `key` of an error, if it is set. -/
def ProxyError.field (err : ProxyError) (key : GoString) : Option GoString :=
  match err.Data with
  | none => none
  | some m => mapGet m key

/-- The constructor `Error(msg, status)`. -/
def Error (msg : GoString) (status : Int) : ProxyError :=
  { Msg := msg, Status := status, Data := none }

/-- The constant `http.StatusNotFound`. -/
def StatusNotFound : Int := 404

/-- The constant `http.StatusInternalServerError`. -/
def StatusInternalServerError : Int := 500

/-- The constant `http.StatusOK`. -/
def StatusOK : Int := 200

/-- The constructor `ErrorNotFound(reason)`. -/
def ErrorNotFound (reason : GoString) : ProxyError :=
  let err := Error (str "err: not found") StatusNotFound
  if reason ≠ [] then err.AddErrField (str "reason") reason else err

/-- The constructor `ErrorContainerUrlMalformed(rawUrl)`. -/
def ErrorContainerUrlMalformed (rawUrl : GoString) : ProxyError :=
  let err := Error (str "err: container url is malformed") StatusInternalServerError
  if rawUrl ≠ [] then err.AddErrField (str "containerRawUrl") rawUrl else err

/-! ## proxy.go: the host router -/

/-- The function `splitContainerNameAndPort`: the container name, the port and the error
(`none` is Go's `nil`). The indexing of `hostParts` and `matches` is within bounds on every
path, so the default of `getD` is never used. -/
def splitContainerNameAndPort (host : GoString) : GoString × GoString × Option ProxyError :=
  let hostParts := Split host 0x2E
  if hostParts.length > 1 then
    let subdomain := hostParts.getD 0 []
    match subdomainRegex.FindStringSubmatch subdomain with
    | none => ([], [], some (ErrorNotFound (str "proxy: invalid subdomain format")))
    | some matches0 =>
      let matches1 := matches0.drop 1
      (matches1.getD 0 [], TrimLeft (matches1.getD 1 []) (str "-"), none)
  else ([], [], some (ErrorNotFound (str "proxy: url without subdomain is not allowed")))

/-! ## strings, continued -/

/-- The function `strings.Cut(s, sep)` for a one-byte separator: the text before and after
the first `sep`, and whether `sep` occurs. -/
def Cut : GoString → UInt8 → GoString × GoString × Bool
  | [], _ => ([], [], false)
  | b :: t, sep =>
    if b = sep then ([], t, true)
    else
      match Cut t sep with
      | (before, after, found) => (b :: before, after, found)

/-- The function `strings.IndexByte`, also `strings.Index` for a one-byte substring; `none`
is Go's `-1`. -/
def IndexByte : GoString → UInt8 → Option Nat
  | [], _ => none
  | b :: t, c => if b = c then some 0 else (IndexByte t c).map (· + 1)

/-- The function `strings.LastIndexByte`, also `strings.LastIndex` for a one-byte substring;
`none` is Go's `-1`. -/
def LastIndexByte : GoString → UInt8 → Option Nat
  | [], _ => none
  | b :: t, c =>
    match LastIndexByte t c with
    | some i => some (i + 1)
    | none => if b = c then some 0 else none

/-- The function `strings.Index(s, substr)`; `none` is Go's `-1`. -/
def Index : GoString → GoString → Option Nat
  | [], substr => if substr = [] then some 0 else none
  | b :: t, substr =>
    if substr.isPrefixOf (b :: t) then some 0 else (Index t substr).map (· + 1)

/-- The function `strings.HasPrefix`. -/
def HasPrefix (s pre : GoString) : Bool := pre.isPrefixOf s

/-- The function `strings.HasSuffix`. -/
def HasSuffix (s suf : GoString) : Bool := suf.isSuffixOf s

/-- The function `strings.ToLower` on a string of ASCII bytes. -/
def ToLower (s : GoString) : GoString :=
  s.map (fun b => if 0x41 ≤ b.toNat ∧ b.toNat ≤ 0x5A then b + 0x20 else b)

/-! ## net/url -/

/-- The type `url.Userinfo`. -/
structure Userinfo where
  username : GoString
  password : GoString
  passwordSet : Bool
  deriving DecidableEq

/-- The struct `url.URL`. -/
structure URL where
  Scheme : GoString
  Opaque : GoString
  User : Option Userinfo
  Host : GoString
  Path : GoString
  RawPath : GoString
  OmitHost : Bool
  ForceQuery : Bool
  RawQuery : GoString
  Fragment : GoString
  RawFragment : GoString
  deriving DecidableEq

/-- The zero value `new(URL)`. -/
def URL.zero : URL :=
  { Scheme := [], Opaque := [], User := none, Host := [], Path := [], RawPath := [],
    OmitHost := false, ForceQuery := false, RawQuery := [], Fragment := [], RawFragment := [] }

/-- The errors of `url.Parse`, by kind; the texts are not observed by this program. -/
inductive ParseError where
  | invalidControlCharacter
  | missingProtocolScheme
  | firstPathSegmentColon
  | missingBracket
  | invalidPort (colonPort : GoString)
  | invalidUserinfo
  | escapeError (s : GoString)
  | invalidHostError (s : GoString)
  deriving DecidableEq

deriving instance DecidableEq for Except

/-- The escaping modes of `net/url`. -/
inductive encoding where
  | encodePath
  | encodePathSegment
  | encodeHost
  | encodeZone
  | encodeUserPassword
  | encodeQueryComponent
  | encodeFragment
  deriving DecidableEq

/-- The function `ishex`. -/
def ishex (c : UInt8) : Bool :=
  (0x30 ≤ c.toNat && c.toNat ≤ 0x39) || (0x61 ≤ c.toNat && c.toNat ≤ 0x66) ||
    (0x41 ≤ c.toNat && c.toNat ≤ 0x46)

/-- The function `unhex`. -/
def unhex (c : UInt8) : Nat :=
  if 0x30 ≤ c.toNat ∧ c.toNat ≤ 0x39 then c.toNat - 0x30
  else if 0x61 ≤ c.toNat ∧ c.toNat ≤ 0x66 then c.toNat - 0x61 + 10
  else if 0x41 ≤ c.toNat ∧ c.toNat ≤ 0x46 then c.toNat - 0x41 + 10
  else 0

/-- The function `shouldEscape`: whether byte `c` must be escaped in the part of a URL that
`mode` names. -/
def shouldEscape (c : UInt8) (mode : encoding) : Bool :=
  if (0x61 ≤ c.toNat ∧ c.toNat ≤ 0x7A) ∨ (0x41 ≤ c.toNat ∧ c.toNat ≤ 0x5A) ∨
      (0x30 ≤ c.toNat ∧ c.toNat ≤ 0x39) then false
  else if (mode = .encodeHost ∨ mode = .encodeZone) ∧ c ∈ str "!$&'()*+,;=:[]<>\"" then false
  else if c ∈ str "-_.~" then false
  else if c ∈ str "$&+,/:;=?@" then
    match mode with
    | .encodePath => c == 0x3F
    | .encodePathSegment => c == 0x2F || c == 0x3B || c == 0x2C || c == 0x3F
    | .encodeUserPassword => c == 0x40 || c == 0x2F || c == 0x3F || c == 0x3A
    | .encodeQueryComponent => true
    | .encodeFragment => false
    | _ => true
  else if mode = .encodeFragment ∧ c ∈ str "!()*" then false
  else true

/-- The first loop of `unescape`: every `%` must start a well-formed escape; in a host only
bytes outside ASCII (and `%25`) may be escaped, in a zone only bytes that a host could hold
unescaped, a space or `%25`; an ASCII byte of a host that `shouldEscape` is an error. -/
def unescapeCheck (mode : encoding) : GoString → Except ParseError Unit
  | [] => .ok ()
  | b :: tl =>
    if b = 0x25 then
      match tl with
      | h1 :: h2 :: tl2 =>
        if ¬ (ishex h1 ∧ ishex h2) then .error (.escapeError ((b :: tl).take 3))
        else if mode = .encodeHost ∧ unhex h1 < 8 ∧ [b, h1, h2] ≠ str "%25" then
          .error (.escapeError [b, h1, h2])
        else if mode = .encodeZone ∧ [b, h1, h2] ≠ str "%25" ∧
            unhex h1 * 16 + unhex h2 ≠ 0x20 ∧
            shouldEscape (UInt8.ofNat (unhex h1 * 16 + unhex h2)) .encodeHost then
          .error (.escapeError [b, h1, h2])
        else unescapeCheck mode tl2
      | _ => .error (.escapeError ((b :: tl).take 3))
    else if b = 0x2B then unescapeCheck mode tl
    else if (mode = .encodeHost ∨ mode = .encodeZone) ∧ b.toNat < 0x80 ∧
        shouldEscape b .encodeHost then
      .error (.invalidHostError [b])
    else unescapeCheck mode tl

/-- The second loop of `unescape`: the escapes replaced by the bytes they denote, and `+` by
a space in a query component. -/
def unescapeDecode (mode : encoding) : GoString → GoString
  | [] => []
  | b :: tl =>
    if b = 0x25 then
      match tl with
      | h1 :: h2 :: tl2 => UInt8.ofNat (unhex h1 * 16 + unhex h2) :: unescapeDecode mode tl2
      | _ => b :: tl
    else if b = 0x2B then
      (if mode = .encodeQueryComponent then 0x20 else 0x2B) :: unescapeDecode mode tl
    else b :: unescapeDecode mode tl

/-- The function `unescape`. -/
def unescape (s : GoString) (mode : encoding) : Except ParseError GoString :=
  match unescapeCheck mode s with
  | .error e => .error e
  | .ok _ => .ok (unescapeDecode mode s)

/-- The digits of `upperhex`. -/
def upperhex (n : Nat) : UInt8 :=
  if n < 10 then UInt8.ofNat (0x30 + n) else UInt8.ofNat (0x41 + (n - 10))

/-- The function `escape`. -/
def escape (s : GoString) (mode : encoding) : GoString :=
  s.flatMap (fun c =>
    if shouldEscape c mode then
      if c = 0x20 ∧ mode = .encodeQueryComponent then [0x2B]
      else [0x25, upperhex (c.toNat / 16), upperhex (c.toNat % 16)]
    else [c])

/-- The function `stringContainsCTLByte`. -/
def stringContainsCTLByte (s : GoString) : Bool :=
  s.any (fun b => b.toNat < 0x20 || b.toNat = 0x7F)

/-- The loop of `getScheme` from index `i`, with `s` the bytes still to be looked at. -/
def getSchemeFrom (rawURL : GoString) : GoString → Nat → Except ParseError (GoString × GoString)
  | [], _ => .ok ([], rawURL)
  | c :: tl, i =>
    if (0x61 ≤ c.toNat ∧ c.toNat ≤ 0x7A) ∨ (0x41 ≤ c.toNat ∧ c.toNat ≤ 0x5A) then
      getSchemeFrom rawURL tl (i + 1)
    else if (0x30 ≤ c.toNat ∧ c.toNat ≤ 0x39) ∨ c = 0x2B ∨ c = 0x2D ∨ c = 0x2E then
      if i = 0 then .ok ([], rawURL) else getSchemeFrom rawURL tl (i + 1)
    else if c = 0x3A then
      if i = 0 then .error .missingProtocolScheme else .ok (rawURL.take i, tl)
    else .ok ([], rawURL)

/-- The function `getScheme`: the scheme before the first `:` and the rest after it, or no
scheme and the whole text. -/
def getScheme (rawURL : GoString) : Except ParseError (GoString × GoString) :=
  getSchemeFrom rawURL rawURL 0

/-- The function `validOptionalPort`. -/
def validOptionalPort (port : GoString) : Bool :=
  match port with
  | [] => true
  | c :: tl => c == 0x3A && tl.all (fun b => 0x30 ≤ b.toNat && b.toNat ≤ 0x39)

/-- The function `validUserinfo`. -/
def validUserinfo (s : GoString) : Bool :=
  s.all (fun r =>
    (0x41 ≤ r.toNat && r.toNat ≤ 0x5A) || (0x61 ≤ r.toNat && r.toNat ≤ 0x7A) ||
      (0x30 ≤ r.toNat && r.toNat ≤ 0x39) || decide (r ∈ str "-._:~!$&'()*+,;=%@"))

/-- The function `parseHost` of `net/url`: a host with an optional port; an IP literal in
brackets may carry a zone after `%25`. The text between the brackets is not checked to be an
IP address, and a `[` is looked for at the start of the host only; the releases of Go differ
here, the later ones refusing a bracketed host that is no IPv6 address and a `[` behind the
first byte. -/
def parseHost (host : GoString) : Except ParseError GoString :=
  let plain : Except ParseError GoString := unescape host .encodeHost
  if HasPrefix host (str "[") then
    match LastIndexByte host 0x5D with
    | none => .error .missingBracket
    | some i =>
      let colonPort := host.drop (i + 1)
      if ¬ validOptionalPort colonPort then .error (.invalidPort colonPort)
      else
        match Index (host.take i) (str "%25") with
        | some zone =>
          match unescape (host.take zone) .encodeHost with
          | .error e => .error e
          | .ok host1 =>
            match unescape ((host.take i).drop zone) .encodeZone with
            | .error e => .error e
            | .ok host2 =>
              match unescape (host.drop i) .encodeHost with
              | .error e => .error e
              | .ok host3 => .ok (host1 ++ host2 ++ host3)
        | none => plain
  else
    match LastIndexByte host 0x3A with
    | some i =>
      let colonPort := host.drop i
      if ¬ validOptionalPort colonPort then .error (.invalidPort colonPort) else plain
    | none => plain

/-- The function `parseAuthority`: the user information before the last `@` and the host
after it. -/
def parseAuthority (authority : GoString) : Except ParseError (Option Userinfo × GoString) :=
  match LastIndexByte authority 0x40 with
  | none =>
    match parseHost authority with
    | .error e => .error e
    | .ok host => .ok (none, host)
  | some i =>
    match parseHost (authority.drop (i + 1)) with
    | .error e => .error e
    | .ok host =>
      let userinfo := authority.take i
      if ¬ validUserinfo userinfo then .error .invalidUserinfo
      else if 0x3A ∉ userinfo then
        match unescape userinfo .encodeUserPassword with
        | .error e => .error e
        | .ok u => .ok (some ⟨u, [], false⟩, host)
      else
        match Cut userinfo 0x3A with
        | (username, password, _) =>
          match unescape username .encodeUserPassword with
          | .error e => .error e
          | .ok u =>
            match unescape password .encodeUserPassword with
            | .error e => .error e
            | .ok p => .ok (some ⟨u, p, true⟩, host)

/-- The method `setPath`. -/
def URL.setPath (u : URL) (p : GoString) : Except ParseError URL :=
  match unescape p .encodePath with
  | .error e => .error e
  | .ok path =>
    .ok { u with Path := path, RawPath := if p = escape path .encodePath then [] else p }

/-- The method `setFragment`. -/
def URL.setFragment (u : URL) (f : GoString) : Except ParseError URL :=
  match unescape f .encodeFragment with
  | .error e => .error e
  | .ok frag =>
    .ok { u with Fragment := frag,
                 RawFragment := if f = escape frag .encodeFragment then [] else f }

/-- The function `parse(rawURL, viaRequest)` of `net/url` with `viaRequest = false`, the
way `url.Parse` calls it: a URL without its fragment. -/
def parse (rawURL : GoString) : Except ParseError URL :=
  if stringContainsCTLByte rawURL then .error .invalidControlCharacter
  else if rawURL = str "*" then .ok { URL.zero with Path := str "*" }
  else
    match getScheme rawURL with
    | .error e => .error e
    | .ok (scheme, rest0) =>
      let url0 : URL := { URL.zero with Scheme := ToLower scheme }
      let questionOnly : Bool := HasSuffix rest0 (str "?") && rest0.count 0x3F == 1
      let url1 : URL :=
        if questionOnly then { url0 with ForceQuery := true }
        else { url0 with RawQuery := (Cut rest0 0x3F).2.1 }
      let rest : GoString := if questionOnly then rest0.dropLast else (Cut rest0 0x3F).1
      if ¬ HasPrefix rest (str "/") ∧ url1.Scheme ≠ [] then .ok { url1 with Opaque := rest }
      else if ¬ HasPrefix rest (str "/") ∧ 0x3A ∈ (Cut rest 0x2F).1 then
        .error .firstPathSegmentColon
      else if (url1.Scheme ≠ [] ∨ ¬ HasPrefix rest (str "///")) ∧ HasPrefix rest (str "//") then
        let after := rest.drop 2
        let authority := match IndexByte after 0x2F with
          | some i => after.take i
          | none => after
        let rest1 := match IndexByte after 0x2F with
          | some i => after.drop i
          | none => []
        match parseAuthority authority with
        | .error e => .error e
        | .ok (user, host) => URL.setPath { url1 with User := user, Host := host } rest1
      else if url1.Scheme ≠ [] ∧ HasPrefix rest (str "/") then
        URL.setPath { url1 with OmitHost := true } rest
      else URL.setPath url1 rest

/-- The function `url.Parse`: the fragment after the first `#` is cut off and set after the
rest has been parsed. -/
def Parse (rawURL : GoString) : Except ParseError URL :=
  match Cut rawURL 0x23 with
  | (u, frag, _) =>
    match parse u with
    | .error e => .error e
    | .ok url => if frag = [] then .ok url else url.setFragment frag

/-! ## proxy.go: the backend URL -/

/-- The text `makeContainerAccessURL` hands to `url.Parse`:
`fmt.Sprintf("http://%s%s", containerName, applicationPort)` after a non-empty port has
become `fmt.Sprintf(":%s", applicationPort)`. -/
def rawContainerURL (containerName applicationPort : GoString) : GoString :=
  let applicationPort1 :=
    if applicationPort ≠ [] then str ":" ++ applicationPort else applicationPort
  str "http://" ++ containerName ++ applicationPort1

/-- The function `makeContainerAccessURL`: the URL and the error, one of them `none`. -/
def makeContainerAccessURL (containerName applicationPort : GoString) :
    Option URL × Option ProxyError :=
  match Parse (rawContainerURL containerName applicationPort) with
  | .error _ =>
    (none, some (ErrorContainerUrlMalformed (rawContainerURL containerName applicationPort)))
  | .ok containerUrl => (some containerUrl, none)

/-! ## fmt and encoding/json -/

/-- The verb `%d` of `fmt.Sprintf` on an `int`: the decimal digits, after `-` when negative. -/
def formatInt (i : Int) : GoString := str (toString i)

/-- The bytes of `hex` in `encoding/json`: a lower-case hexadecimal digit. -/
def hexDigit (n : Nat) : UInt8 :=
  if n < 10 then UInt8.ofNat (0x30 + n) else UInt8.ofNat (0x61 + (n - 10))

/-- The table `htmlSafeSet`: the ASCII bytes that a JSON string holds unescaped, which are
those from the space on except `"`, `\`, `<`, `>` and `&`. -/
def htmlSafe (b : UInt8) : Bool :=
  0x20 ≤ b.toNat && b.toNat < 0x80 && b != 0x22 && b != 0x5C && b != 0x3C && b != 0x3E && b != 0x26

/-- The escape sequence of an ASCII byte outside `htmlSafeSet`; `\b` and `\f` have their short
forms, as `encoding/json` writes them since Go 1.22 (before, `\u0008` and `\u000c`). -/
def jsonEscapeByte (b : UInt8) : GoString :=
  if b = 0x5C ∨ b = 0x22 then [0x5C, b]
  else if b = 0x08 then str "\\b"
  else if b = 0x0C then str "\\f"
  else if b = 0x0A then str "\\n"
  else if b = 0x0D then str "\\r"
  else if b = 0x09 then str "\\t"
  else str "\\u00" ++ [hexDigit (b.toNat / 16), hexDigit (b.toNat % 16)]

/-- The loop of `appendString` in `encoding/json` with HTML escaping on: the text between
the quotes. U+2028 and U+2029 are escaped. A byte that starts no valid UTF-8 sequence is
replaced by U+FFFD, written as its three bytes `EF BF BD`; the releases of Go differ here,
the older ones writing the six ASCII bytes of the escape `\ufffd` instead, which is another
spelling of the same JSON string. The fuel is the number of bytes left. -/
def jsonStringFrom : Nat → GoString → GoString
  | 0, _ => []
  | _ + 1, [] => []
  | fuel + 1, b :: tl =>
    if b.toNat < 0x80 then
      (if htmlSafe b then [b] else jsonEscapeByte b) ++ jsonStringFrom fuel tl
    else if (DecodeRune (b :: tl)).1 = RuneError ∧ (DecodeRune (b :: tl)).2 = 1 then
      [0xEF, 0xBF, 0xBD] ++ jsonStringFrom fuel tl
    else if (DecodeRune (b :: tl)).1 = 0x2028 ∨ (DecodeRune (b :: tl)).1 = 0x2029 then
      str "\\u202" ++ [hexDigit ((DecodeRune (b :: tl)).1 % 16)] ++
        jsonStringFrom fuel ((b :: tl).drop (DecodeRune (b :: tl)).2)
    else
      (b :: tl).take (DecodeRune (b :: tl)).2 ++
        jsonStringFrom fuel ((b :: tl).drop (DecodeRune (b :: tl)).2)

/-- A Go string as a JSON string. -/
def jsonString (s : GoString) : GoString :=
  [0x22] ++ jsonStringFrom s.length s ++ [0x22]

/-- The order of Go strings: bytewise lexicographic. -/
def stringLess : GoString → GoString → Bool
  | [], [] => false
  | [], _ :: _ => true
  | _ :: _, [] => false
  | a :: s, b :: t => a.toNat < b.toNat || (a = b && stringLess s t)

/-- Insertion of an entry into a list of entries sorted by key. -/
def insertByKey (e : GoString × GoString) : ErrorFields → ErrorFields
  | [] => [e]
  | x :: xs => if stringLess x.1 e.1 then x :: insertByKey e xs else e :: x :: xs

/-- The entries of a map sorted by key, the order in which `encoding/json` writes them. -/
def sortByKey (m : ErrorFields) : ErrorFields :=
  m.foldr insertByKey []

/-- The function `json.Marshal` on a non-nil `map[string]string`: an object with the keys
in sorted order. -/
def jsonMarshalMap (m : ErrorFields) : GoString :=
  [0x7B] ++ (sortByKey m).foldr
    (fun e acc => jsonString e.1 ++ [0x3A] ++ jsonString e.2 ++
      (if acc = [] then [] else [0x2C] ++ acc)) [] ++ [0x7D]

/-- The method `MarshalJSON`. The field names that reflection finds in the struct tags are
`message` and `status`; the extra fields are copied over them into the same map. -/
def ProxyError.MarshalJSON (err : ProxyError) : GoString :=
  let msgJsonName := str "message"
  let statusJsonName := str "status"
  let fieldMap0 : ErrorFields := []
  let fieldMap1 := mapSet fieldMap0 msgJsonName err.Msg
  let fieldMap2 := mapSet fieldMap1 statusJsonName (formatInt err.Status)
  let fieldMap3 := (err.Data.getD []).foldl (fun m e => mapSet m e.1 e.2) fieldMap2
  jsonMarshalMap fieldMap3

/-- The method `SerializeJSON`: `json.Marshal` calls `MarshalJSON` and compacts its output,
which is compact already; marshalling a map of strings does not fail. -/
def ProxyError.SerializeJSON (pxyErr : ProxyError) : GoString :=
  pxyErr.MarshalJSON

/-- A value of the interface `error`: a `*ProxyError` or an error of another type, of which
only the text of `Error()` matters. -/
inductive GoError where
  | proxy (e : ProxyError)
  | other (text : GoString)
  deriving DecidableEq

/-- The method `Error()` of an `error`; on a `*ProxyError` it is `SerializeJSON`. -/
def GoError.Error : GoError → GoString
  | .proxy e => e.SerializeJSON
  | .other text => text

/-! ## net/http -/

/-- The type `http.Header`, a `map[string][]string`. -/
abbrev Header := List (GoString × List GoString)

/-- The table `isTokenTable` behind `validHeaderFieldByte`: the bytes of an HTTP token. -/
def validHeaderFieldByte (b : UInt8) : Bool :=
  (0x30 ≤ b.toNat && b.toNat ≤ 0x39) || (0x41 ≤ b.toNat && b.toNat ≤ 0x5A) ||
    (0x61 ≤ b.toNat && b.toNat ≤ 0x7A) || decide (b ∈ str "!#$%&\x27*+-.^_\x60|~")

/-- The second loop of `canonicalMIMEHeaderKey`: upper case for the first letter and after
each `-`, lower case elsewhere. -/
def canonicalLoop : Bool → GoString → GoString
  | _, [] => []
  | upper, c :: tl =>
    let c1 : UInt8 :=
      if upper ∧ 0x61 ≤ c.toNat ∧ c.toNat ≤ 0x7A then c - 0x20
      else if ¬ upper ∧ 0x41 ≤ c.toNat ∧ c.toNat ≤ 0x5A then c + 0x20
      else c
    c1 :: canonicalLoop (c1 == 0x2D) tl

/-- The function `textproto.CanonicalMIMEHeaderKey`: a key with a byte that is not a token
byte is returned unchanged. -/
def CanonicalMIMEHeaderKey (s : GoString) : GoString :=
  if s.all validHeaderFieldByte then canonicalLoop true s else s

/-- The method `Header.Add`: the value is appended to the values of the canonical key. -/
def Header.Add (h : Header) (key value : GoString) : Header :=
  let k := CanonicalMIMEHeaderKey key
  match h.find? (fun e => e.1 == k) with
  | some e => (k, e.2 ++ [value]) :: h.filter (fun e => e.1 != k)
  | none => (k, [value]) :: h

/-- The method `Header.Get`: the first value of the canonical key, or the empty string. -/
def Header.Get (h : Header) (key : GoString) : GoString :=
  match h.find? (fun e => e.1 == CanonicalMIMEHeaderKey key) with
  | some e => e.2.headD []
  | none => []

/-- The state of the `http.ResponseWriter` of the server in `net/http` as a handler drives
it: the header map that `Header()` returns, whether the status line of the final response
has been written, the status code and the snapshot of the header map taken with it, and the
bytes accepted for the body. A declared `Content-Length`, a `HEAD` request and a hijacked
connection, none of which the handlers of this program bring about, are outside this
state. -/
structure ResponseWriter where
  header : Header
  wroteHeader : Bool
  status : Int
  sentHeader : Header
  body : GoString
  deriving DecidableEq

/-- A response writer at the start of a request. -/
def ResponseWriter.new : ResponseWriter :=
  { header := [], wroteHeader := false, status := 0, sentHeader := [], body := [] }

/-- The function `bodyAllowedForStatus`: no body goes with a status 1xx, 204 or 304. -/
def bodyAllowedForStatus (status : Int) : Bool :=
  if 100 ≤ status ∧ status ≤ 199 then false
  else if status = 204 then false
  else if status = 304 then false
  else true

/-- The method `WriteHeader`: ignored once a status has been written; a code outside
`100..999` panics (`checkWriteHeaderCode`), which is the `error` result here. A code 1xx
other than 101 goes out as an informational response and leaves the final response to be
written: the state stays as it is. -/
def ResponseWriter.WriteHeader (rw : ResponseWriter) (code : Int) :
    Except GoString ResponseWriter :=
  if rw.wroteHeader then .ok rw
  else if code < 100 ∨ code > 999 then .error (str "invalid WriteHeader code " ++ formatInt code)
  else if 100 ≤ code ∧ code ≤ 199 ∧ code ≠ 101 then .ok rw
  else .ok { rw with wroteHeader := true, status := code, sentHeader := rw.header }

/-- The method `Write`: status 200 is written first when no status has been written; no
bytes are taken when the data is empty, nor when the status allows no body
(`ErrBodyNotAllowed`, an error value that is returned, not a panic). -/
def ResponseWriter.Write (rw : ResponseWriter) (data : GoString) :
    Except GoString ResponseWriter :=
  match (if rw.wroteHeader then .ok rw else rw.WriteHeader StatusOK) with
  | .error p => .error p
  | .ok rw1 =>
    if data = [] then .ok rw1
    else if bodyAllowedForStatus rw1.status = false then .ok rw1
    else .ok { rw1 with body := rw1.body ++ data }

/-- The function `isWS` of `net/http/sniff.go`: a whitespace byte. -/
def isWS (b : UInt8) : Bool :=
  b == 0x09 || b == 0x0A || b == 0x0C || b == 0x0D || b == 0x20

/-- The function `isTT`: a tag-terminating byte. -/
def isTT (b : UInt8) : Bool :=
  b == 0x20 || b == 0x3E

/-- The signatures of `net/http/sniff.go`: `htmlSig`, `maskedSig`, `exactSig`, `mp4Sig` and
`textSig`. -/
inductive sniffSig where
  | html (h : GoString)
  | masked (mask pat : GoString) (skipWS : Bool) (ct : GoString)
  | exact (sig ct : GoString)
  | mp4
  | text

/-- The loop of the method `match` of `htmlSig` and the test of the byte after the tag: a
letter of the data is compared without its case bit. -/
def htmlSigLoop : GoString → GoString → Bool
  | [], [] => false
  | [], d :: _ => isTT d
  | _ :: _, [] => false
  | b :: h, db :: data =>
    (if 0x41 ≤ b.toNat ∧ b.toNat ≤ 0x5A then db &&& 0xDF else db) == b && htmlSigLoop h data

/-- The loop of the method `match` of `maskedSig`, over mask, pattern and data. -/
def maskedSigLoop : GoString → GoString → GoString → Bool
  | _, [], _ => true
  | m :: mask, p :: pat, d :: data => (d &&& m) == p && maskedSigLoop mask pat data
  | _, _ :: _, _ => false

/-- The loop of the method `match` of `mp4Sig` from the offset `st` on: a brand `mp4` at
an offset that is a multiple of four, the offset 12 apart. The fuel is the number of
offsets left. -/
def mp4SigLoop (data : GoString) (boxSize : Nat) : Nat → Nat → Bool
  | 0, _ => false
  | fuel + 1, st =>
    if st < boxSize then
      if st = 12 then mp4SigLoop data boxSize fuel (st + 4)
      else if (data.drop st).take 3 = str "mp4" then true
      else mp4SigLoop data boxSize fuel (st + 4)
    else false

/-- The method `match` of `mp4Sig`. -/
def mp4SigMatch (data : GoString) : Bool :=
  if data.length < 12 then false
  else
    let boxSize :=
      ((data.getD 0 0).toNat * 256 + (data.getD 1 0).toNat) * 65536 +
        (data.getD 2 0).toNat * 256 + (data.getD 3 0).toNat
    if data.length < boxSize ∨ boxSize % 4 ≠ 0 then false
    else if (data.drop 4).take 4 ≠ str "ftyp" then false
    else mp4SigLoop data boxSize boxSize 8

/-- The method `match` of `textSig`: no binary data byte from the first byte on that is not
whitespace. -/
def textSigMatch (data : GoString) : Bool :=
  data.all (fun b =>
    !(b.toNat ≤ 0x08 || b == 0x0B || (0x0E ≤ b.toNat && b.toNat ≤ 0x1A) ||
      (0x1C ≤ b.toNat && b.toNat ≤ 0x1F)))

/-- The method `match` of a signature on the data, of which `firstNonWS` is the index of the
first byte that is not whitespace: the content type, or the empty string. -/
def sniffSig.matchSig (sig : sniffSig) (data : GoString) (firstNonWS : Nat) : GoString :=
  match sig with
  | .html h =>
    if htmlSigLoop h (data.drop firstNonWS) then str "text/html; charset=utf-8" else []
  | .masked mask pat skipWS ct =>
    let data1 := if skipWS then data.drop firstNonWS else data
    if pat.length ≠ mask.length then []
    else if data1.length < pat.length then []
    else if maskedSigLoop mask pat data1 then ct else []
  | .exact sig ct => if HasPrefix data sig then ct else []
  | .mp4 => if mp4SigMatch data then str "video/mp4" else []
  | .text => if textSigMatch (data.drop firstNonWS) then str "text/plain; charset=utf-8" else []

/-- The table `sniffSignatures`, in its order. -/
def sniffSignatures : List sniffSig :=
  [ .html (str "<!DOCTYPE HTML"),
    .html (str "<HTML"),
    .html (str "<HEAD"),
    .html (str "<SCRIPT"),
    .html (str "<IFRAME"),
    .html (str "<H1"),
    .html (str "<DIV"),
    .html (str "<FONT"),
    .html (str "<TABLE"),
    .html (str "<A"),
    .html (str "<STYLE"),
    .html (str "<TITLE"),
    .html (str "<B"),
    .html (str "<BODY"),
    .html (str "<BR"),
    .html (str "<P"),
    .html (str "<!--"),
    .masked [0xFF, 0xFF, 0xFF, 0xFF, 0xFF] (str "<?xml") true (str "text/xml; charset=utf-8"),
    .exact (str "%PDF-") (str "application/pdf"),
    .exact (str "%!PS-Adobe-") (str "application/postscript"),
    .masked [0xFF, 0xFF, 0x00, 0x00] [0xFE, 0xFF, 0x00, 0x00] false
      (str "text/plain; charset=utf-16be"),
    .masked [0xFF, 0xFF, 0x00, 0x00] [0xFF, 0xFE, 0x00, 0x00] false
      (str "text/plain; charset=utf-16le"),
    .masked [0xFF, 0xFF, 0xFF, 0x00] [0xEF, 0xBB, 0xBF, 0x00] false
      (str "text/plain; charset=utf-8"),
    .exact [0x00, 0x00, 0x01, 0x00] (str "image/x-icon"),
    .exact [0x00, 0x00, 0x02, 0x00] (str "image/x-icon"),
    .exact (str "BM") (str "image/bmp"),
    .exact (str "GIF87a") (str "image/gif"),
    .exact (str "GIF89a") (str "image/gif"),
    .masked ([0xFF, 0xFF, 0xFF, 0xFF, 0x00, 0x00, 0x00, 0x00, 0xFF, 0xFF, 0xFF, 0xFF, 0xFF, 0xFF])
      (str "RIFF" ++ [0x00, 0x00, 0x00, 0x00] ++ str "WEBPVP") false (str "image/webp"),
    .exact ([0x89] ++ str "PNG" ++ [0x0D, 0x0A, 0x1A, 0x0A]) (str "image/png"),
    .exact [0xFF, 0xD8, 0xFF] (str "image/jpeg"),
    .masked ([0xFF, 0xFF, 0xFF, 0xFF, 0x00, 0x00, 0x00, 0x00, 0xFF, 0xFF, 0xFF, 0xFF])
      (str "FORM" ++ [0x00, 0x00, 0x00, 0x00] ++ str "AIFF") false (str "audio/aiff"),
    .masked [0xFF, 0xFF, 0xFF] (str "ID3") false (str "audio/mpeg"),
    .masked [0xFF, 0xFF, 0xFF, 0xFF, 0xFF] (str "OggS" ++ [0x00]) false (str "application/ogg"),
    .masked [0xFF, 0xFF, 0xFF, 0xFF, 0xFF, 0xFF, 0xFF, 0xFF]
      (str "MThd" ++ [0x00, 0x00, 0x00, 0x06]) false (str "audio/midi"),
    .masked ([0xFF, 0xFF, 0xFF, 0xFF, 0x00, 0x00, 0x00, 0x00, 0xFF, 0xFF, 0xFF, 0xFF])
      (str "RIFF" ++ [0x00, 0x00, 0x00, 0x00] ++ str "AVI ") false (str "video/avi"),
    .masked ([0xFF, 0xFF, 0xFF, 0xFF, 0x00, 0x00, 0x00, 0x00, 0xFF, 0xFF, 0xFF, 0xFF])
      (str "RIFF" ++ [0x00, 0x00, 0x00, 0x00] ++ str "WAVE") false (str "audio/wave"),
    .mp4,
    .exact [0x1A, 0x45, 0xDF, 0xA3] (str "video/webm"),
    .masked (List.replicate 34 0x00 ++ [0xFF, 0xFF]) (List.replicate 34 0x00 ++ str "LP") false
      (str "application/vnd.ms-fontobject"),
    .exact [0x00, 0x01, 0x00, 0x00] (str "font/ttf"),
    .exact (str "OTTO") (str "font/otf"),
    .exact (str "ttcf") (str "font/collection"),
    .exact (str "wOFF") (str "font/woff"),
    .exact (str "wOF2") (str "font/woff2"),
    .exact [0x1F, 0x8B, 0x08] (str "application/x-gzip"),
    .exact (str "PK" ++ [0x03, 0x04]) (str "application/zip"),
    .exact (str "Rar!" ++ [0x1A, 0x07, 0x00]) (str "application/x-rar-compressed"),
    .exact (str "Rar!" ++ [0x1A, 0x07, 0x01, 0x00]) (str "application/x-rar-compressed"),
    .exact [0x00, 0x61, 0x73, 0x6D] (str "application/wasm"),
    .text ]

/-- The constant `sniffLen`. -/
def sniffLen : Nat := 512

/-- The function `http.DetectContentType`: the content type of the first signature that
matches the first `sniffLen` bytes. -/
def DetectContentType (data : GoString) : GoString :=
  let data1 := data.take sniffLen
  let firstNonWS := (data1.takeWhile isWS).length
  match sniffSignatures.find? (fun sig => sig.matchSig data1 firstNonWS != []) with
  | some sig => sig.matchSig data1 firstNonWS
  | none => str "application/octet-stream"

/-- The values of `Content-Type` in the header of the response as the server sends it. The
server puts the header together at its first flush (`chunkWriter.writeHeader`), when the
handler has returned or the first 2048 bytes of the body have been written, from the
snapshot taken by `WriteHeader`: a status 304 drops the `Content-Type`; a body of a status
that allows one, with no `Content-Type` key, no `Content-Encoding` and no
`Transfer-Encoding` in the snapshot, gets the type that `DetectContentType` finds in its
first bytes. -/
def ResponseWriter.sentContentType (rw : ResponseWriter) : List GoString :=
  if bodyAllowedForStatus rw.status then
    match rw.sentHeader.find? (fun e => e.1 == str "Content-Type") with
    | some e => e.2
    | none =>
      if Header.Get rw.sentHeader (str "Content-Encoding") = [] ∧
          Header.Get rw.sentHeader (str "Transfer-Encoding") = [] ∧ rw.body ≠ [] then
        [DetectContentType rw.body]
      else []
  else if rw.status = 304 then []
  else
    match rw.sentHeader.find? (fun e => e.1 == str "Content-Type") with
    | some e => e.2
    | none => []

/-- The struct `http.Request`, with the fields a handler and a client look at; `Body` is
the bytes the body reader yields. -/
structure Request where
  Method : GoString
  URL : URL
  Header : Header
  Body : GoString
  Host : GoString
  RequestURI : GoString
  deriving DecidableEq

/-- The struct `http.Response`; `Body` is the bytes the body reader yields. -/
structure Response where
  StatusCode : Int
  Header : Header
  Body : GoString
  deriving DecidableEq

/-! ## errors.go: the error response -/

/-- The function `SendErrorResponse`. -/
def SendErrorResponse (rw : ResponseWriter) (err : GoError) : Except GoString ResponseWriter :=
  let step : Except GoString ResponseWriter :=
    match err with
    | .proxy proxyErr =>
      ResponseWriter.WriteHeader
        { rw with header := rw.header.Add (str "content-type") (str "application/json") }
        proxyErr.Status
    | .other _ =>
      ResponseWriter.WriteHeader
        { rw with header := rw.header.Add (str "content-type") (str "text/plain") }
        StatusInternalServerError
  match step with
  | .error p => .error p
  | .ok rw1 => rw1.Write err.Error

/-! ## proxy.go: the request forwarder -/

/-- The request as `proxyRequestHandler` retargets it before the dispatch: `req.Host`,
`req.URL.Host` and `req.URL.Scheme` are taken from the backend URL and `req.RequestURI` is
cleared; every other field stays. -/
def outboundRequest (req : Request) (containerURL : URL) : Request :=
  { req with
    Host := containerURL.Host
    URL := { req.URL with Host := containerURL.Host, Scheme := containerURL.Scheme }
    RequestURI := [] }

/-- The function `proxyRequestHandler`. The HTTP client `http.DefaultClient.Do` is the
parameter `Do`: it answers a request with a response or with a transport error, of which the
text matters. The result is the response writer after the call together with the requests
handed to the client, or the panic that ended the call. -/
def proxyRequestHandler (Do : Request → Except GoString Response) (rw : ResponseWriter)
    (req : Request) : Except GoString (ResponseWriter × List Request) :=
  match splitContainerNameAndPort req.Host with
  | (_, _, some err) =>
    match SendErrorResponse rw (.proxy err) with
    | .error p => .error p
    | .ok rw1 => .ok (rw1, [])
  | (containerName, port, none) =>
    match makeContainerAccessURL containerName port with
    | (_, some err) =>
      match SendErrorResponse rw (.proxy err) with
      | .error p => .error p
      | .ok rw1 => .ok (rw1, [])
    | (none, none) => .error (str "invalid memory address or nil pointer dereference")
    | (some containerURL, none) =>
      let req1 : Request := outboundRequest req containerURL
      match Do req1 with
      | .error err =>
        match rw.WriteHeader StatusInternalServerError with
        | .error p => .error p
        | .ok rw1 =>
          match rw1.Write err with
          | .error p => .error p
          | .ok rw2 => .ok (rw2, [req1])
      | .ok containerResponse =>
        match rw.WriteHeader StatusOK with
        | .error p => .error p
        | .ok rw1 =>
          match rw1.Write containerResponse.Body with
          | .error p => .error p
          | .ok rw2 => .ok (rw2, [req1])

/-! ## Notions used in the statements and proofs -/

/-- Exactly four ASCII decimal digits. -/
def IsFourDigits (d : GoString) : Prop :=
  d.length = 4 ∧ ∀ b ∈ d, 0x30 ≤ b.toNat ∧ b.toNat ≤ 0x39

instance (d : GoString) : Decidable (IsFourDigits d) := by
  unfold IsFourDigits; infer_instance

/-- The tail `(-\d{4})?$` of the pattern. -/
def portTail : Regexp :=
  .concat
    (.quest (.capture 2 (.concat (.literal 0x2D) (.rep 4 (.charClass classDigit)))))
    .endText

/-- The thread of a match of `subdomainRegex` without port: group 1 spans the first `n`
bytes, group 2 is unset. -/
def matchNoPort (c : Nat → Option Nat) (n : Nat) : Thread :=
  ⟨n, [], Function.update (Function.update (Function.update (Function.update c
    0 (some 0)) 2 (some 0)) 3 (some n)) 1 (some n)⟩

/-- The thread of a match of `subdomainRegex` with a port: group 1 spans the first `n` bytes,
group 2 the five bytes after them. -/
def matchPort (c : Nat → Option Nat) (n : Nat) : Thread :=
  ⟨n + 5, [], Function.update (Function.update (Function.update (Function.update
    (Function.update (Function.update c 0 (some 0)) 2 (some 0)) 3 (some n)) 4 (some n))
    5 (some (n + 5))) 1 (some (n + 5))⟩

/-- The bytes that may stand unescaped in the host of a URL and do not delimit its port or
an IP literal: the bytes outside ASCII, the ASCII letters and digits, and
`! " $ & ' ( ) * + , ; < = > ] _ ~` (also `-` and `.`). -/
def hostNameByte (b : UInt8) : Bool :=
  (0x80 ≤ b.toNat || !shouldEscape b .encodeHost) && b != 0x3A && b != 0x5B

/-- The map `fieldMap` that `MarshalJSON` fills and hands to `json.Marshal`: the message and
the status under their JSON names, then every extra field. -/
def ProxyError.fieldMap (err : ProxyError) : ErrorFields :=
  (err.Data.getD []).foldl (fun m e => mapSet m e.1 e.2)
    (mapSet (mapSet [] (str "message") err.Msg) (str "status") (formatInt err.Status))

/-- The invariant of the representation of a Go map: one entry per key. -/
def ProxyError.keysUnique (err : ProxyError) : Prop :=
  ((err.Data.getD []).map Prod.fst).Nodup

instance (err : ProxyError) : Decidable err.keysUnique := by
  unfold ProxyError.keysUnique; infer_instance

/-- The members of a JSON object as `json.Marshal` writes them for a list of entries: each
`"key":"value"`, with a comma between two. -/
def jsonMembers (l : ErrorFields) : GoString :=
  l.foldr (fun e acc => jsonString e.1 ++ [0x3A] ++ jsonString e.2 ++
    (if acc = [] then [] else [0x2C] ++ acc)) []

/-- The loop behind `coerceUTF8`. The fuel is the number of bytes left. -/
def coerceUTF8From : Nat → GoString → GoString
  | 0, _ => []
  | _ + 1, [] => []
  | fuel + 1, b :: tl =>
    if (DecodeRune (b :: tl)).1 = RuneError ∧ (DecodeRune (b :: tl)).2 = 1 then
      [0xEF, 0xBF, 0xBD] ++ coerceUTF8From fuel tl
    else
      (b :: tl).take (DecodeRune (b :: tl)).2 ++
        coerceUTF8From fuel ((b :: tl).drop (DecodeRune (b :: tl)).2)

/-- The string that a Go string becomes when `encoding/json` writes it: every byte that
starts no valid UTF-8 sequence is replaced by U+FFFD, so that a valid UTF-8 string is kept
as it is. -/
def coerceUTF8 (s : GoString) : GoString :=
  coerceUTF8From s.length s

/-- The code unit of an escape `\uXXXX` at the head of a text, if one stands there. -/
def getu4 (s : GoString) : Option Nat :=
  match s with
  | c :: u :: h1 :: h2 :: h3 :: h4 :: _ =>
    if c = 0x5C ∧ u = 0x75 ∧ ishex h1 ∧ ishex h2 ∧ ishex h3 ∧ ishex h4 then
      some (((unhex h1 * 16 + unhex h2) * 16 + unhex h3) * 16 + unhex h4)
    else none
  | _ => none

/-- The character that the byte after a backslash stands for in a JSON string, the escape
`\u` apart. -/
def jsonSimpleEscape (e : UInt8) : Option UInt8 :=
  if e = 0x22 ∨ e = 0x5C ∨ e = 0x2F then some e
  else if e = 0x62 then some 0x08
  else if e = 0x66 then some 0x0C
  else if e = 0x6E then some 0x0A
  else if e = 0x72 then some 0x0D
  else if e = 0x74 then some 0x09
  else none

/-- The string that a JSON string denotes (RFC 8259, section 7), read from behind its
opening quote: the bytes up to the closing quote with every escape replaced by the UTF-8
encoding of the character it stands for, a surrogate pair of escapes by that of the one
character; together with the text behind the closing quote. There is no reading when the
text ends before the quote, holds a control character, or has a malformed escape or a
surrogate without its partner. The fuel is the number of bytes left. -/
def jsonUnquoteFrom : Nat → GoString → Option (GoString × GoString)
  | 0, _ => none
  | _ + 1, [] => none
  | fuel + 1, c :: tl =>
    if c = 0x22 then some ([], tl)
    else if c = 0x5C then
      match tl with
      | [] => none
      | e :: tl1 =>
        if e = 0x75 then
          match getu4 (c :: tl) with
          | none => none
          | some rr =>
            if 0xD800 ≤ rr ∧ rr ≤ 0xDFFF then
              match getu4 (tl1.drop 4) with
              | none => none
              | some rr1 =>
                if rr ≤ 0xDBFF ∧ 0xDC00 ≤ rr1 ∧ rr1 ≤ 0xDFFF then
                  (jsonUnquoteFrom fuel (tl1.drop 10)).map (fun r =>
                    (EncodeRune ((rr - 0xD800) * 1024 + (rr1 - 0xDC00) + 0x10000) ++ r.1, r.2))
                else none
            else
              (jsonUnquoteFrom fuel (tl1.drop 4)).map (fun r => (EncodeRune rr ++ r.1, r.2))
        else
          match jsonSimpleEscape e with
          | none => none
          | some x => (jsonUnquoteFrom fuel tl1).map (fun r => (x :: r.1, r.2))
    else if c.toNat < 0x20 then none
    else (jsonUnquoteFrom fuel tl).map (fun r => (c :: r.1, r.2))

/-- The string that the JSON string at the head of a text denotes, and the text behind it. -/
def jsonUnquote (t : GoString) : Option (GoString × GoString) :=
  match t with
  | [] => none
  | q :: t1 => if q = 0x22 then jsonUnquoteFrom t1.length t1 else none

/-- The members of a JSON object read from behind its opening brace, in the order of the
text: each a string, a colon and a string, with a comma between two members and the closing
brace at the end of the text. The fuel is the number of bytes left. -/
def jsonMembersFrom : Nat → GoString → Option ErrorFields
  | 0, _ => none
  | fuel + 1, t =>
    match jsonUnquote t with
    | none => none
    | some (k, t1) =>
      match t1 with
      | [] => none
      | colon :: t2 =>
        if colon = 0x3A then
          match jsonUnquote t2 with
          | none => none
          | some (v, t3) =>
            match t3 with
            | [] => none
            | sep :: t4 =>
              if sep = 0x7D ∧ t4 = [] then some [(k, v)]
              else if sep = 0x2C then (jsonMembersFrom fuel t4).map (fun ms => (k, v) :: ms)
              else none
        else none

/-- The JSON object that a text denotes (RFC 8259), for an object whose values are strings
and a text without white space between its tokens, as `json.Marshal` writes it: the member
names with their values, in the order of the text. -/
def jsonObject (t : GoString) : Option ErrorFields :=
  match t with
  | [] => none
  | brace :: t1 =>
    if brace = 0x7B then
      if t1 = [0x7D] then some [] else jsonMembersFrom t1.length t1
    else none

/-- The keys and the values of the extra fields of an error are valid UTF-8. -/
def ProxyError.fieldsValidUTF8 (err : ProxyError) : Prop :=
  ∀ x ∈ err.Data.getD [], ValidString x.1 = true ∧ ValidString x.2 = true

instance (err : ProxyError) : Decidable err.fieldsValidUTF8 := by
  unfold ProxyError.fieldsValidUTF8; infer_instance

/-! # Theorems -/

/-! ## The library models on known inputs -/

theorem DecodeRune_examples :
    DecodeRune (str "é") = (0xE9, 2) ∧ DecodeRune (str "世") = (0x4E16, 3) ∧
      DecodeRune (str "😀") = (0x1F600, 4) ∧ DecodeRune [0xC3, 0x2D] = (RuneError, 1) ∧
      DecodeRune [0xED, 0xA0, 0x80] = (RuneError, 1) ∧ DecodeRune [] = (RuneError, 0) := by
  decide

theorem FindStringSubmatch_examples :
    subdomainRegex.FindStringSubmatch (str "web-3000") =
        some [str "web-3000", str "web", str "-3000"] ∧
      subdomainRegex.FindStringSubmatch (str "web") = some [str "web", str "web", str ""] ∧
      subdomainRegex.FindStringSubmatch (str "wéb\n") =
        some [str "wéb\n", str "wéb\n", str ""] ∧
      subdomainRegex.FindStringSubmatch (str "web-300") = none ∧
      subdomainRegex.FindStringSubmatch (str "web-30000") = none ∧
      subdomainRegex.FindStringSubmatch (str "a-b-3000") = none ∧
      subdomainRegex.FindStringSubmatch (str "-3000") = none ∧
      subdomainRegex.FindStringSubmatch (str "") = none := by
  decide

theorem Split_examples :
    Split (str "a.b.c") 0x2E = [str "a", str "b", str "c"] ∧
      Split (str "abc") 0x2E = [str "abc"] ∧ Split (str ".") 0x2E = [str "", str ""] ∧
      Split (str "") 0x2E = [str ""] := by
  decide

set_option maxRecDepth 10000 in
theorem Parse_examples :
    Parse (str "http://hello.%e4%b8%96%e7%95%8c.com/foo") =
        .ok { URL.zero with Scheme := str "http", Host := str "hello.世界.com",
                            Path := str "/foo" } ∧
      Parse (str "http://[fe80::1%25en0]:8080/") =
        .ok { URL.zero with Scheme := str "http", Host := str "[fe80::1%en0]:8080",
                            Path := str "/" } ∧
      Parse (str "http://www.google.com/a%20b?q=c+d#f%26") =
        .ok { URL.zero with Scheme := str "http", Host := str "www.google.com",
                            Path := str "/a b", RawQuery := str "q=c+d",
                            Fragment := str "f&", RawFragment := str "f%26" } ∧
      Parse (str "mailto:webmaster@golang.org") =
        .ok { URL.zero with Scheme := str "mailto", Opaque := str "webmaster@golang.org" } ∧
      Parse (str "http://%41:8080/") = .error (.escapeError (str "%41")) ∧
      Parse (str "http://a b.com/") = .error (.invalidHostError (str " ")) ∧
      Parse (str "http://[::1]:namedport") = .error (.invalidPort (str ":namedport")) ∧
      Parse (str "cache_object:foo/bar") = .error .firstPathSegmentColon ∧
      Parse (str ":foo") = .error .missingProtocolScheme := by
  decide

theorem ValidString_examples :
    ValidString (str "bad format") = true ∧ ValidString (str "é 世") = true ∧
      ValidString [] = true ∧ ValidString [0xFF] = false ∧ ValidString [0xC3] = false ∧
      ValidString [0xED, 0xA0, 0x80] = false ∧ ValidString [0xEF, 0xBF, 0xBD] = true ∧
      coerceUTF8 (str "a" ++ [0xFF, 0xC3] ++ str "é") =
        str "a" ++ [0xEF, 0xBF, 0xBD, 0xEF, 0xBF, 0xBD] ++ str "é" ∧
      EncodeRune 0x2028 = [0xE2, 0x80, 0xA8] ∧ EncodeRune 0xE9 = str "é" := by
  decide

theorem jsonObject_examples :
    jsonObject (str "\x7b\x7d") = some [] ∧
      jsonObject (str "\x7b\"a\":\"b\"\x7d") = some [(str "a", str "b")] ∧
      jsonObject (str "\x7b\"a\":\"b\",\"c\":\"\\u00e9\\n\\u003c\\ud83d\\ude00\"\x7d") =
        some [(str "a", str "b"), (str "c", str "é\n<😀")] ∧
      jsonObject (str "\x7b\"a\":\"b\"") = none ∧
      jsonObject (str "\x7b\"a\":\"b\",\x7d") = none ∧
      jsonObject (str "\x7b\"a\":\"\\ud83d\"\x7d") = none ∧
      jsonObject (jsonMarshalMap [(str "k", str "a<b>&\"\\\n\x01é\u2028")]) =
        some [(str "k", str "a<b>&\"\\\n\x01é\u2028")] :=
  ⟨by decide, by decide, by decide, by decide, by decide, by decide, by decide⟩

theorem DetectContentType_examples :
    DetectContentType (str "connection refused") = str "text/plain; charset=utf-8" ∧
      DetectContentType [] = str "text/plain; charset=utf-8" ∧
      DetectContentType (str "\x7b\"message\":\"err: not found\",\"status\":\"404\"\x7d") =
        str "text/plain; charset=utf-8" ∧
      DetectContentType (str "  <html><body>") = str "text/html; charset=utf-8" ∧
      DetectContentType (str "<?xml version=\"1.0\"?>") = str "text/xml; charset=utf-8" ∧
      DetectContentType (str "%PDF-1.4") = str "application/pdf" ∧
      DetectContentType (str "GIF89a") = str "image/gif" ∧
      DetectContentType ([0x89] ++ str "PNG" ++ [0x0D, 0x0A, 0x1A, 0x0A]) = str "image/png" ∧
      DetectContentType ([0, 0, 0, 0x18] ++ str "ftypmp42" ++ [0, 0, 0, 0] ++ str "mp42isom") =
        str "video/mp4" ∧
      DetectContentType [0x01, 0x02, 0x03] = str "application/octet-stream" := by
  decide

theorem SerializeJSON_examples :
    (ErrorNotFound (str "bad format")).SerializeJSON =
        str "\x7b\"message\":\"err: not found\",\"reason\":\"bad format\",\"status\":\"404\"\x7d" ∧
      (ErrorNotFound (str "")).SerializeJSON =
        str "\x7b\"message\":\"err: not found\",\"status\":\"404\"\x7d" ∧
      jsonString (str "a<b>&\"\\\n\x01é") =
        str "\"a\\u003cb\\u003e\\u0026\\\"\\\\\\n\\u0001é\"" ∧
      CanonicalMIMEHeaderKey (str "content-type") = str "Content-Type" := by
  decide

/-! ## Facts about the decoder -/

theorem toNat_ne_of_ne {b c : UInt8} (h : b ≠ c) : b.toNat ≠ c.toNat :=
  fun e => h (UInt8.ext e)

theorem DecodeRune_nil : DecodeRune [] = (RuneError, 0) := rfl

theorem DecodeRune_ascii (s0 : UInt8) (tl : GoString) (h : s0.toNat < 128) :
    DecodeRune (s0 :: tl) = (s0.toNat, 1) := by
  simp [DecodeRune, h]

theorem decodeRest_spec (b0 sz lo hi : Nat) (tl : GoString)
    (hlo : 128 ≤ lo) (hhi : hi ≤ 191) (hsz : 2 ≤ sz)
    (h2 : sz = 2 → 2 ≤ b0 % 32)
    (h3 : sz = 3 → 1 ≤ b0 % 16 ∨ 160 ≤ lo)
    (h4 : 4 ≤ sz → 1 ≤ b0 % 8 ∨ 144 ≤ lo) :
    128 ≤ (decodeRest b0 sz lo hi tl).1 ∧ 1 ≤ (decodeRest b0 sz lo hi tl).2 ∧
      (decodeRest b0 sz lo hi tl).2 ≤ tl.length + 1 ∧
      ∀ b ∈ tl.take ((decodeRest b0 sz lo hi tl).2 - 1), 128 ≤ b.toNat := by
  rcases tl with _ | ⟨s1, tl1⟩
  · simp [decodeRest, RuneError]
  · by_cases c1 : s1.toNat < lo ∨ hi < s1.toNat
    · simp [decodeRest, c1, RuneError]
    · by_cases c2 : sz ≤ 2
      · simp only [decodeRest, c1, c2, if_true, if_false]
        have := h2 (by omega)
        refine ⟨by omega, by simp, by simp, ?_⟩
        intro b hb
        simp at hb
        subst hb
        omega
      · rcases tl1 with _ | ⟨s2, tl2⟩
        · simp [decodeRest, c1, c2, RuneError]
        · by_cases c3 : s2.toNat < 0x80 ∨ 0xBF < s2.toNat
          · simp [decodeRest, c1, c2, c3, RuneError]
          · by_cases c4 : sz ≤ 3
            · simp only [decodeRest, c1, c2, c3, c4, if_true, if_false]
              have := h3 (by omega)
              refine ⟨by omega, by simp, by simp, ?_⟩
              intro b hb
              simp at hb
              rcases hb with hb | hb <;> subst hb <;> omega
            · rcases tl2 with _ | ⟨s3, tl3⟩
              · simp [decodeRest, c1, c2, c3, c4, RuneError]
              · by_cases c5 : s3.toNat < 0x80 ∨ 0xBF < s3.toNat
                · simp [decodeRest, c1, c2, c3, c4, c5, RuneError]
                · simp only [decodeRest, c1, c2, c3, c4, c5, if_true, if_false]
                  have := h4 (by omega)
                  refine ⟨by omega, by simp, by simp, ?_⟩
                  intro b hb
                  simp at hb
                  rcases hb with hb | hb | hb <;> subst hb <;> omega

/-- A first byte outside ASCII never decodes to an ASCII rune, and the bytes the rune covers
are all outside ASCII. -/
theorem DecodeRune_high (s0 : UInt8) (tl : GoString) (h : 128 ≤ s0.toNat) :
    128 ≤ (DecodeRune (s0 :: tl)).1 ∧ 1 ≤ (DecodeRune (s0 :: tl)).2 ∧
      (DecodeRune (s0 :: tl)).2 ≤ tl.length + 1 ∧
      ∀ b ∈ tl.take ((DecodeRune (s0 :: tl)).2 - 1), 128 ≤ b.toNat := by
  have hb := s0.toNat_lt
  by_cases c0 : s0.toNat < 0xC2 ∨ 0xF4 < s0.toNat
  · have : DecodeRune (s0 :: tl) = (RuneError, 1) := by
      simp only [DecodeRune]
      rw [if_neg (by omega), if_pos c0]
    rw [this]; simp [RuneError]
  · by_cases c1 : tl.length + 1 <
        (if s0.toNat < 0xE0 then 2 else if s0.toNat < 0xF0 then 3 else 4)
    · have : DecodeRune (s0 :: tl) = (RuneError, 1) := by
        simp only [DecodeRune]
        rw [if_neg (by omega), if_neg c0, if_pos c1]
      rw [this]; simp [RuneError]
    · have : DecodeRune (s0 :: tl) = decodeRest s0.toNat
          (if s0.toNat < 0xE0 then 2 else if s0.toNat < 0xF0 then 3 else 4)
          (if s0.toNat = 0xE0 then 0xA0 else if s0.toNat = 0xF0 then 0x90 else 0x80)
          (if s0.toNat = 0xED then 0x9F else if s0.toNat = 0xF4 then 0x8F else 0xBF) tl := by
        simp only [DecodeRune]
        rw [if_neg (by omega), if_neg c0, if_neg c1]
      rw [this]
      apply decodeRest_spec
      · split_ifs <;> omega
      · split_ifs <;> omega
      · split_ifs <;> omega
      · split_ifs <;> omega
      · split_ifs <;> omega
      · split_ifs <;> omega

/-- The width and the covered bytes of the rune at the head of a non-empty string. -/
theorem DecodeRune_cons (s0 : UInt8) (tl : GoString) :
    1 ≤ (DecodeRune (s0 :: tl)).2 ∧ (DecodeRune (s0 :: tl)).2 ≤ tl.length + 1 ∧
      (∀ b ∈ tl.take ((DecodeRune (s0 :: tl)).2 - 1), 128 ≤ b.toNat) ∧
      (s0.toNat < 128 → DecodeRune (s0 :: tl) = (s0.toNat, 1)) ∧
      (128 ≤ s0.toNat → 128 ≤ (DecodeRune (s0 :: tl)).1) := by
  by_cases h : s0.toNat < 128
  · rw [DecodeRune_ascii s0 tl h]
    simp
  · obtain ⟨h1, h2, h3, h4⟩ := DecodeRune_high s0 tl (by omega)
    exact ⟨h2, h3, h4, fun h' => absurd h' h, fun _ => h1⟩

/-! ## Facts about the matcher -/

/-- A class of ASCII runes reads exactly one byte. -/
theorem stepRune_ascii (p : Nat → Bool) (hp : ∀ r, p r = true → r < 128)
    (pos : Nat) (rest : GoString) (c : Nat → Option Nat) :
    stepRune p ⟨pos, rest, c⟩ =
      match rest with
      | [] => []
      | b :: tl => if p b.toNat = true then [⟨pos + 1, tl, c⟩] else [] := by
  rcases rest with _ | ⟨b, tl⟩
  · simp [stepRune, DecodeRune_nil]
  · by_cases h : b.toNat < 128
    · simp [stepRune, DecodeRune_ascii b tl h]
    · obtain ⟨h1, -⟩ := DecodeRune_high b tl (by omega)
      have hf : p (DecodeRune (b :: tl)).1 ≠ true := fun e => by
        have := hp _ e; omega
      have hf2 : p b.toNat ≠ true := fun e => by
        have := hp _ e; omega
      simp [stepRune, hf, hf2]

theorem stepRune_nil (p : Nat → Bool) (pos : Nat) (c : Nat → Option Nat) :
    stepRune p ⟨pos, [], c⟩ = [] := by
  simp [stepRune, DecodeRune_nil]

theorem stepRune_notDash_dash (pos : Nat) (tl : GoString) (c : Nat → Option Nat) :
    stepRune classNotDash ⟨pos, 0x2D :: tl, c⟩ = [] := by
  have h : DecodeRune ((0x2D : UInt8) :: tl) = (0x2D, 1) :=
    DecodeRune_ascii 0x2D tl (by decide)
  simp [stepRune, h, classNotDash]

/-- On a byte other than `-` the class `[^-]` reads one rune; the bytes of the rune after
the first lie outside ASCII. -/
theorem stepRune_notDash_cons (pos : Nat) (b : UInt8) (tl : GoString) (c : Nat → Option Nat)
    (hb : b ≠ 0x2D) :
    ∃ w, 1 ≤ w ∧ w ≤ tl.length + 1 ∧ (∀ x ∈ tl.take (w - 1), 128 ≤ x.toNat) ∧
      stepRune classNotDash ⟨pos, b :: tl, c⟩ = [⟨pos + w, (b :: tl).drop w, c⟩] := by
  obtain ⟨h1, h2, h3, h4, h5⟩ := DecodeRune_cons b tl
  refine ⟨(DecodeRune (b :: tl)).2, h1, h2, h3, ?_⟩
  have hne : b.toNat ≠ 45 := toNat_ne_of_ne hb
  have hcls : classNotDash (DecodeRune (b :: tl)).1 = true := by
    by_cases h : b.toNat < 128
    · rw [h4 h]; simpa [classNotDash] using hne
    · have := h5 (by omega)
      simp [classNotDash]; omega
  have hw : (DecodeRune (b :: tl)).2 ≠ 0 := by omega
  simp [stepRune, hcls, hw]

theorem not_mem_of_high {l : GoString} (h : ∀ x ∈ l, 128 ≤ x.toNat) : (0x2D : UInt8) ∉ l := by
  intro hm
  have := h _ hm
  revert this
  decide

/-- Every thread that leaves the loop `[^-]+` has read a non-empty prefix without `-`. -/
theorem plusLoop_notDash_sound (n : Nat) :
    ∀ (pos : Nat) (rest : GoString) (c : Nat → Option Nat) (t1 : Thread),
      t1 ∈ plusLoop (stepRune classNotDash) n ⟨pos, rest, c⟩ →
      ∃ pre post, pre ≠ [] ∧ rest = pre ++ post ∧ (0x2D : UInt8) ∉ pre ∧
        t1 = ⟨pos + pre.length, post, c⟩ := by
  induction n with
  | zero => intro pos rest c t1 h; simp [plusLoop] at h
  | succ n ih =>
    intro pos rest c t1 h
    rcases rest with _ | ⟨b, tl⟩
    · simp [plusLoop, stepRune_nil] at h
    · by_cases hb : b = 0x2D
      · subst hb
        simp [plusLoop, stepRune_notDash_dash] at h
      · obtain ⟨w, hw1, hw2, hw3, hstep⟩ := stepRune_notDash_cons pos b tl c hb
        simp only [plusLoop, hstep, List.flatMap_cons, List.flatMap_nil, List.append_nil,
          List.mem_append, List.mem_singleton] at h
        have hpre : (0x2D : UInt8) ∉ (b :: tl).take w := by
          obtain ⟨v, rfl⟩ : ∃ v, w = v + 1 := ⟨w - 1, by omega⟩
          simp only [List.take_succ_cons, List.mem_cons, not_or]
          exact ⟨fun e => hb e.symm, not_mem_of_high hw3⟩
        have hlen : ((b :: tl).take w).length = w := by
          simp [List.length_take]; omega
        rcases h with h | h
        · obtain ⟨pre, post, h1, h2, h3, h4⟩ := ih _ _ _ _ h
          refine ⟨(b :: tl).take w ++ pre, post, by simp [h1], ?_, ?_, ?_⟩
          · rw [List.append_assoc, ← h2, List.take_append_drop]
          · simp only [List.mem_append, not_or]; exact ⟨hpre, h3⟩
          · rw [h4, List.length_append, hlen, Nat.add_assoc]
        · refine ⟨(b :: tl).take w, (b :: tl).drop w, ?_, ?_, hpre, ?_⟩
          · intro e; rw [e] at hlen; simp at hlen; omega
          · rw [List.take_append_drop]
          · rw [h, hlen]

/-- The loop `[^-]+` can stop at the end of a non-empty prefix without `-` that is followed by
`-` or by the end of the text. -/
theorem plusLoop_notDash_complete (n : Nat) :
    ∀ (pos : Nat) (pre post : GoString) (c : Nat → Option Nat),
      pre ≠ [] → (0x2D : UInt8) ∉ pre → pre.length ≤ n →
      (post = [] ∨ ∃ tl, post = 0x2D :: tl) →
      (⟨pos + pre.length, post, c⟩ : Thread) ∈
        plusLoop (stepRune classNotDash) n ⟨pos, pre ++ post, c⟩ := by
  induction n with
  | zero =>
    intro pos pre post c hne _ hlen _
    cases pre with
    | nil => exact absurd rfl hne
    | cons b tl => simp at hlen
  | succ n ih =>
    intro pos pre post c hne hdash hlen hpost
    rcases pre with _ | ⟨b, pre1⟩
    · exact absurd rfl hne
    · have hb : b ≠ 0x2D := fun e => hdash (by simp [e])
      obtain ⟨w, hw1, hw2, hw3, hstep⟩ := stepRune_notDash_cons pos b (pre1 ++ post) c hb
      have hstep1 : stepRune classNotDash ⟨pos, b :: pre1 ++ post, c⟩ =
          [⟨pos + w, (b :: (pre1 ++ post)).drop w, c⟩] := hstep
      have hwle : w ≤ pre1.length + 1 := by
        by_contra hgt
        rcases hpost with hp | ⟨tl, hp⟩
        · subst hp; simp at hw2; omega
        · subst hp
          have hmem : (0x2D : UInt8) ∈ (pre1 ++ 0x2D :: tl).take (w - 1) := by
            rw [List.take_append_eq_append_take]
            apply List.mem_append_right
            obtain ⟨v, hv⟩ : ∃ v, w - 1 - pre1.length = v + 1 :=
              ⟨w - 1 - pre1.length - 1, by omega⟩
            rw [hv]; simp
          have := hw3 _ hmem
          revert this; decide
      simp only [plusLoop, hstep1, List.flatMap_cons, List.flatMap_nil, List.append_nil,
        List.mem_append, List.mem_singleton]
      obtain ⟨v, rfl⟩ : ∃ v, w = v + 1 := ⟨w - 1, by omega⟩
      by_cases hv : v = pre1.length
      · right
        subst hv
        simp [Nat.add_assoc]
      · left
        have hv' : v < pre1.length := by omega
        have hdrop : (b :: (pre1 ++ post)).drop (v + 1) = pre1.drop v ++ post := by
          simp [List.drop_append_eq_append_drop]
          have : v - pre1.length = 0 := by omega
          simp [this]
        rw [hdrop]
        have hne2 : pre1.drop v ≠ [] := by
          intro e
          have := congrArg List.length e
          simp at this; omega
        have hdash2 : (0x2D : UInt8) ∉ pre1.drop v := fun hm =>
          hdash (List.mem_cons_of_mem _ (List.mem_of_mem_drop hm))
        have := ih (pos + (v + 1)) (pre1.drop v) post c hne2 hdash2
          (by simp at hlen ⊢; omega) hpost
        have hpos : pos + (v + 1) + (pre1.drop v).length = pos + (b :: pre1).length := by
          simp; omega
        rw [hpos] at this
        exact this

theorem classDigit_ascii (r : Nat) (h : classDigit r = true) : r < 128 := by
  simp [classDigit] at h; omega

/-- The threads of `\d{n}` are those that have read `n` digits. -/
theorem repLoop_digit_mem (n : Nat) :
    ∀ (pos : Nat) (rest : GoString) (c : Nat → Option Nat) (t1 : Thread),
      t1 ∈ repLoop (stepRune classDigit) n ⟨pos, rest, c⟩ ↔
      ∃ d tl, rest = d ++ tl ∧ d.length = n ∧ (∀ b ∈ d, 0x30 ≤ b.toNat ∧ b.toNat ≤ 0x39) ∧
        t1 = ⟨pos + n, tl, c⟩ := by
  induction n with
  | zero =>
    intro pos rest c t1
    simp only [repLoop, List.mem_singleton, List.length_eq_zero]
    constructor
    · intro h; exact ⟨[], rest, by simp, rfl, by simp, by simpa using h⟩
    · rintro ⟨d, tl, h1, h2, -, h4⟩
      subst h2; simp at h1; subst h1; simpa using h4
  | succ n ih =>
    intro pos rest c t1
    rw [repLoop, stepRune_ascii classDigit classDigit_ascii]
    rcases rest with _ | ⟨b, tl⟩
    · simp only [List.flatMap_nil, List.not_mem_nil, false_iff]
      rintro ⟨d, tl, h1, h2, -, -⟩
      have := congrArg List.length h1
      simp at this; omega
    · by_cases hb : classDigit b.toNat = true
      · simp only [hb, if_true, List.flatMap_cons, List.flatMap_nil, List.append_nil, ih]
        have hb' : 0x30 ≤ b.toNat ∧ b.toNat ≤ 0x39 := by simpa [classDigit] using hb
        constructor
        · rintro ⟨d, tl1, h1, h2, h3, h4⟩
          refine ⟨b :: d, tl1, by simp [h1], by simp [h2], ?_, by rw [h4]; congr 1; omega⟩
          intro x hx
          rcases List.mem_cons.1 hx with e | e
          · rw [e]; exact hb'
          · exact h3 x e
        · rintro ⟨d, tl1, h1, h2, h3, h4⟩
          rcases d with _ | ⟨b1, d1⟩
          · simp at h2
          · simp only [List.cons_append, List.cons.injEq] at h1
            refine ⟨d1, tl1, h1.2, by simpa using h2, fun x hx => h3 x (List.mem_cons_of_mem _ hx),
              by rw [h4]; congr 1; omega⟩
      · simp only [hb, if_false, List.flatMap_nil, List.not_mem_nil, false_iff, Bool.false_eq_true]
        rintro ⟨d, tl1, h1, h2, h3, -⟩
        rcases d with _ | ⟨b1, d1⟩
        · simp at h2
        · simp only [List.cons_append, List.cons.injEq] at h1
          apply hb
          have := h3 b1 (List.mem_cons_self _ _)
          rw [h1.1]
          simpa [classDigit] using this

/-- The tail `(-\d{4})?$` matches the empty rest, leaving group 2 unset, or a rest that is
`-` and four digits, which becomes group 2. -/
theorem portTail_mem (pos : Nat) (post : GoString) (c : Nat → Option Nat) (t2 : Thread) :
    t2 ∈ portTail.run ⟨pos, post, c⟩ ↔
      (post = [] ∧ t2 = ⟨pos, [], c⟩) ∨
      (∃ d, post = 0x2D :: d ∧ IsFourDigits d ∧
        t2 = ⟨pos + 5, [],
          Function.update (Function.update c 4 (some pos)) 5 (some (pos + 5))⟩) := by
  have hlit : ∀ r : Nat, (fun x => x == 0x2D) r = true → r < 128 := by
    intro r h; simp at h; omega
  simp only [portTail, Regexp.run, List.mem_flatMap, List.mem_append, List.mem_map,
    List.mem_singleton, stepRune_ascii _ hlit]
  constructor
  · rintro ⟨t1, h1, h2⟩
    split_ifs at h2 with he
    · simp only [List.mem_singleton] at h2
      subst h2
      rcases h1 with ⟨t0, ⟨t00, h3, h4⟩, h5⟩ | h1
      · right
        rw [repLoop_digit_mem] at h4
        obtain ⟨d, tl, e1, e2, e3, e4⟩ := h4
        rcases post with _ | ⟨b, ptl⟩
        · simp at h3
        · simp only at h3
          split_ifs at h3 with hb
          · simp only [List.mem_singleton] at h3
            subst h3
            simp only at e1 e4
            subst e4
            subst h5
            simp only at he
            subst he
            simp only [List.append_nil] at e1
            subst e1
            have hb' : b = 0x2D := by
              apply UInt8.ext
              simpa using hb
            subst hb'
            refine ⟨ptl, rfl, ⟨e2, e3⟩, ?_⟩
            simp [Nat.add_assoc]
          · simp at h3
      · left
        subst h1
        exact ⟨he, by simp at he; simp [he]⟩
    · simp at h2
  · rintro (⟨h1, h2⟩ | ⟨d, h1, ⟨h2, h3⟩, h4⟩)
    · subst h1; subst h2
      exact ⟨_, Or.inr rfl, by simp⟩
    · subst h1; subst h4
      refine ⟨_, Or.inl ⟨⟨pos + 1 + 4, [], Function.update c (2 * 2) (some pos)⟩, ⟨⟨pos + 1, d,
        Function.update c (2 * 2) (some pos)⟩, by simp, ?_⟩, rfl⟩, by simp⟩
      rw [repLoop_digit_mem]
      exact ⟨d, [], by simp, h2, h3, rfl⟩

theorem subdomainRegex_eq : subdomainRegex =
    .concat .beginText (.concat (.capture 1 (.plus (.charClass classNotDash))) portTail) := rfl

theorem mem_run_concat (a b : Regexp) (t t1 : Thread) :
    t1 ∈ (Regexp.concat a b).run t ↔ ∃ t0 ∈ a.run t, t1 ∈ b.run t0 := by
  simp only [Regexp.run, List.mem_flatMap]

theorem mem_run_capture (i : Nat) (a : Regexp) (t t1 : Thread) :
    t1 ∈ (Regexp.capture i a).run t ↔
      ∃ t0 ∈ a.run ⟨t.pos, t.rest, Function.update t.cap (2 * i) (some t.pos)⟩,
        t1 = ⟨t0.pos, t0.rest, Function.update t0.cap (2 * i + 1) (some t0.pos)⟩ := by
  simp only [Regexp.run, List.mem_map]
  constructor
  · rintro ⟨t0, h, e⟩; exact ⟨t0, h, e.symm⟩
  · rintro ⟨t0, h, e⟩; exact ⟨t0, h, e.symm⟩

theorem mem_run_beginText (t t1 : Thread) :
    t1 ∈ Regexp.beginText.run t ↔ t.pos = 0 ∧ t1 = t := by
  simp only [Regexp.run]
  split_ifs with h <;> simp [h]

theorem run_plus_charClass (p : Nat → Bool) (t : Thread) :
    (Regexp.plus (.charClass p)).run t = plusLoop (stepRune p) (t.rest.length + 1) t := rfl

/-- The matches of the whole pattern: only from offset 0, and only on a non-empty name
without `-` followed by nothing or by `-` and four digits. -/
theorem run_subdomainRegex_mem (i : Nat) (rest : GoString) (c : Nat → Option Nat) (t : Thread) :
    t ∈ (Regexp.capture 0 subdomainRegex).run ⟨i, rest, c⟩ ↔
      i = 0 ∧ ∃ name g2, rest = name ++ g2 ∧ name ≠ [] ∧ (0x2D : UInt8) ∉ name ∧
        ((g2 = [] ∧ t = matchNoPort c name.length) ∨
          (∃ d, g2 = 0x2D :: d ∧ IsFourDigits d ∧ t = matchPort c name.length)) := by
  rw [subdomainRegex_eq, mem_run_capture]
  simp only [mem_run_concat, mem_run_beginText, mem_run_capture, run_plus_charClass]
  constructor
  · rintro ⟨t3, ⟨t0, ⟨hi, h0⟩, t1, ⟨t1', hp, e1⟩, h2⟩, e3⟩
    subst h0
    subst hi
    refine ⟨rfl, ?_⟩
    obtain ⟨pre, post, hne, hrest, hdash, ht1'⟩ := plusLoop_notDash_sound _ _ _ _ _ hp
    subst ht1'
    subst e1
    rw [portTail_mem] at h2
    refine ⟨pre, post, hrest, hne, hdash, ?_⟩
    rcases h2 with ⟨hpost, ht3⟩ | ⟨d, hpost, hd, ht3⟩
    · left; subst ht3; subst e3
      exact ⟨hpost, by simp [matchNoPort]⟩
    · right; subst ht3; subst e3
      exact ⟨d, hpost, hd, by simp [matchPort]⟩
  · rintro ⟨rfl, name, g2, hrest, hne, hdash, h⟩
    have hp := plusLoop_notDash_complete (rest.length + 1) 0 name g2
      (Function.update (Function.update c (2 * 0) (some 0)) (2 * 1) (some 0)) hne hdash
      (by rw [hrest]; simp; omega)
      (by rcases h with ⟨h, -⟩ | ⟨d, h, -⟩
          · exact Or.inl h
          · exact Or.inr ⟨d, h⟩)
    rw [← hrest] at hp
    rcases h with ⟨hg, ht⟩ | ⟨d, hg, hd, ht⟩
    · refine ⟨_, ⟨_, ⟨rfl, rfl⟩, _, ⟨_, hp, rfl⟩,
        (portTail_mem _ _ _ _).2 (Or.inl ⟨hg, rfl⟩)⟩, ?_⟩
      rw [ht]; simp [matchNoPort]
    · refine ⟨_, ⟨_, ⟨rfl, rfl⟩, _, ⟨_, hp, rfl⟩,
        (portTail_mem _ _ _ _).2 (Or.inr ⟨d, hg, hd, rfl⟩)⟩, ?_⟩
      rw [ht]; simp [matchPort]

/-- A name without `-` that is followed by nothing or by `-` is the longest prefix
without `-`. -/
theorem takeWhile_notDash (name g2 : GoString) (hdash : (0x2D : UInt8) ∉ name)
    (hg : g2 = [] ∨ ∃ tl, g2 = 0x2D :: tl) :
    (name ++ g2).takeWhile (fun b => b != 0x2D) = name := by
  induction name with
  | nil =>
    rcases hg with h | ⟨tl, h⟩ <;> subst h <;> simp
  | cons b tl ih =>
    have hb : b ≠ 0x2D := fun e => hdash (by simp [e])
    have := ih (fun hm => hdash (List.mem_cons_of_mem _ hm))
    have hb1 : (b != 0x2D) = true := by simpa using hb
    simp [List.takeWhile_cons, hb1, this]

theorem decomposition_unique (name g2 name1 g3 : GoString) (h : name ++ g2 = name1 ++ g3)
    (hdash : (0x2D : UInt8) ∉ name) (hdash1 : (0x2D : UInt8) ∉ name1)
    (hg : g2 = [] ∨ ∃ tl, g2 = 0x2D :: tl) (hg1 : g3 = [] ∨ ∃ tl, g3 = 0x2D :: tl) :
    name1 = name := by
  rw [← takeWhile_notDash name g2 hdash hg, ← takeWhile_notDash name1 g3 hdash1 hg1, h]

theorem head?_of_unique {α : Type} (l : List α) (a : α) (hm : a ∈ l) (hu : ∀ x ∈ l, x = a) :
    l.head? = some a := by
  cases l with
  | nil => simp at hm
  | cons x tl => simp [hu x (List.mem_cons_self _ _)]

/-- The matcher on a subdomain of the accepted form. -/
theorem doExecute_subdomain (name g2 : GoString) (hne : name ≠ [])
    (hdash : (0x2D : UInt8) ∉ name) (hg : g2 = [] ∨ ∃ d, g2 = 0x2D :: d ∧ IsFourDigits d) :
    subdomainRegex.doExecute (name ++ g2) =
      some (if g2 = [] then matchNoPort (fun _ => none) name.length
        else matchPort (fun _ => none) name.length) := by
  have hg' : g2 = [] ∨ ∃ tl, g2 = 0x2D :: tl := by
    rcases hg with h | ⟨d, h, -⟩
    · exact Or.inl h
    · exact Or.inr ⟨d, h⟩
  unfold Regexp.doExecute
  rw [List.range_succ_eq_map, List.findSome?_cons]
  have hhead : ((Regexp.capture 0 subdomainRegex).run
      ⟨0, (name ++ g2).drop 0, fun _ => none⟩).head? =
      some (if g2 = [] then matchNoPort (fun _ => none) name.length
        else matchPort (fun _ => none) name.length) := by
    apply head?_of_unique
    · rw [run_subdomainRegex_mem]
      refine ⟨rfl, name, g2, rfl, hne, hdash, ?_⟩
      rcases hg with h | ⟨d, h, hd⟩
      · left; exact ⟨h, by simp [h]⟩
      · right; exact ⟨d, h, hd, by simp [h]⟩
    · intro x hx
      rw [run_subdomainRegex_mem] at hx
      obtain ⟨-, name1, g3, h1, -, hdash1, h⟩ := hx
      have hg3 : g3 = [] ∨ ∃ tl, g3 = 0x2D :: tl := by
        rcases h with ⟨h, -⟩ | ⟨d, h, -⟩
        · exact Or.inl h
        · exact Or.inr ⟨d, h⟩
      simp only [List.drop_zero] at h1
      have hname := decomposition_unique name g2 name1 g3 h1 hdash hdash1 hg' hg3
      subst hname
      have hg23 := List.append_cancel_left h1
      subst hg23
      rcases h with ⟨h, ht⟩ | ⟨d, h, -, ht⟩
      · rw [ht]; simp [h]
      · rw [ht]; simp [h]
  rw [hhead]

/-- The matcher on a subdomain that is not of the accepted form. -/
theorem doExecute_subdomain_none (s : GoString)
    (h : ¬ ∃ name g2, s = name ++ g2 ∧ name ≠ [] ∧ (0x2D : UInt8) ∉ name ∧
        (g2 = [] ∨ ∃ d, g2 = 0x2D :: d ∧ IsFourDigits d)) :
    subdomainRegex.doExecute s = none := by
  unfold Regexp.doExecute
  rw [List.findSome?_eq_none_iff]
  intro i _
  rw [List.head?_eq_none_iff, List.eq_nil_iff_forall_not_mem]
  intro t ht
  rw [run_subdomainRegex_mem] at ht
  obtain ⟨rfl, name, g2, h1, h2, h3, h4⟩ := ht
  apply h
  refine ⟨name, g2, by simpa using h1, h2, h3, ?_⟩
  rcases h4 with ⟨h4, -⟩ | ⟨d, h4, hd, -⟩
  · exact Or.inl h4
  · exact Or.inr ⟨d, h4, hd⟩

/-- On a subdomain of the accepted form `FindStringSubmatch` returns the whole subdomain,
the name and the port group. -/
theorem FindStringSubmatch_subdomain (name g2 : GoString) (hne : name ≠ [])
    (hdash : (0x2D : UInt8) ∉ name) (hg : g2 = [] ∨ ∃ d, g2 = 0x2D :: d ∧ IsFourDigits d) :
    subdomainRegex.FindStringSubmatch (name ++ g2) = some [name ++ g2, name, g2] := by
  unfold Regexp.FindStringSubmatch
  rw [doExecute_subdomain name g2 hne hdash hg]
  have hn : subdomainRegex.NumSubexp = 2 := by decide
  rw [hn]
  rcases hg with h | ⟨d, h, hd⟩
  · subst h
    simp [matchNoPort, List.range_succ, Function.update]
  · subst h
    have hlen : d.length = 4 := hd.1
    simp [matchPort, List.range_succ, Function.update]
    omega

theorem FindStringSubmatch_subdomain_none (s : GoString)
    (h : ¬ ∃ name g2, s = name ++ g2 ∧ name ≠ [] ∧ (0x2D : UInt8) ∉ name ∧
        (g2 = [] ∨ ∃ d, g2 = 0x2D :: d ∧ IsFourDigits d)) :
    subdomainRegex.FindStringSubmatch s = none := by
  unfold Regexp.FindStringSubmatch
  rw [doExecute_subdomain_none s h]
  rfl

/-! ## Facts about `Split` and the host router -/

theorem Split_ne_nil (s : GoString) (sep : UInt8) : Split s sep ≠ [] := by
  induction s with
  | nil => simp [Split]
  | cons b t ih =>
    unfold Split
    split_ifs
    · simp
    · split <;> simp

theorem Split_of_not_mem (s : GoString) (sep : UInt8) (h : sep ∉ s) : Split s sep = [s] := by
  induction s with
  | nil => simp [Split]
  | cons b t ih =>
    have hb : b ≠ sep := fun e => h (by simp [e])
    have := ih (fun hm => h (List.mem_cons_of_mem _ hm))
    simp [Split, hb, this]

theorem Split_append (label rest : GoString) (sep : UInt8) (h : sep ∉ label) :
    Split (label ++ sep :: rest) sep = label :: Split rest sep := by
  induction label with
  | nil => simp [Split]
  | cons b t ih =>
    have hb : b ≠ sep := fun e => h (by simp [e])
    have := ih (fun hm => h (List.mem_cons_of_mem _ hm))
    simp [Split, hb, this]

theorem str_dot : str "." = [0x2E] := by decide

theorem str_dash : str "-" = [0x2D] := by decide

/-- A host without `.` is refused. -/
theorem split_of_no_dot (host : GoString) (h : (0x2E : UInt8) ∉ host) :
    splitContainerNameAndPort host =
      ([], [], some (ErrorNotFound (str "proxy: url without subdomain is not allowed"))) := by
  simp [splitContainerNameAndPort, Split_of_not_mem host _ h]

/-- On a host with a `.` the outcome is decided by the matcher on the first label. -/
theorem split_of_label (label rest : GoString) (h : (0x2E : UInt8) ∉ label) :
    splitContainerNameAndPort (label ++ 0x2E :: rest) =
      match subdomainRegex.FindStringSubmatch label with
      | none => ([], [], some (ErrorNotFound (str "proxy: invalid subdomain format")))
      | some matches0 =>
        ((matches0.drop 1).getD 0 [], TrimLeft ((matches0.drop 1).getD 1 []) (str "-"), none) := by
  have hlen : (Split (label ++ 0x2E :: rest) 0x2E).length > 1 := by
    rw [Split_append label rest _ h]
    have := Split_ne_nil rest 0x2E
    cases hs : Split rest 0x2E with
    | nil => exact absurd hs this
    | cons a l => simp
  simp only [splitContainerNameAndPort, hlen, if_true]
  rw [Split_append label rest _ h]
  rfl

theorem digit_ne_dash {d : GoString} (h : ∀ b ∈ d, 0x30 ≤ b.toNat ∧ b.toNat ≤ 0x39) :
    (0x2D : UInt8) ∉ d := by
  intro hm
  have := h _ hm
  revert this
  decide

theorem TrimLeft_port (d : GoString) (hd : IsFourDigits d) :
    TrimLeft (0x2D :: d) (str "-") = d := by
  rcases d with _ | ⟨b, tl⟩
  · simp [TrimLeft, str_dash]
  · have hb : b ≠ 0x2D := fun e => digit_ne_dash hd.2 (by simp [e])
    simp [TrimLeft, str_dash, List.dropWhile, hb]

/-- A host whose first label has the accepted form is routed to the name and the port. -/
theorem split_of_valid (name g2 rest : GoString) (hdot : (0x2E : UInt8) ∉ name ++ g2)
    (hne : name ≠ []) (hdash : (0x2D : UInt8) ∉ name)
    (hg : g2 = [] ∨ ∃ d, g2 = 0x2D :: d ∧ IsFourDigits d) :
    splitContainerNameAndPort (name ++ g2 ++ 0x2E :: rest) =
      (name, TrimLeft g2 (str "-"), none) := by
  rw [split_of_label _ _ hdot, FindStringSubmatch_subdomain name g2 hne hdash hg]
  simp

/-- A host whose first label has not the accepted form is refused. -/
theorem split_of_invalid (label rest : GoString) (hdot : (0x2E : UInt8) ∉ label)
    (h : ¬ ∃ name g2, label = name ++ g2 ∧ name ≠ [] ∧ (0x2D : UInt8) ∉ name ∧
        (g2 = [] ∨ ∃ d, g2 = 0x2D :: d ∧ IsFourDigits d)) :
    splitContainerNameAndPort (label ++ 0x2E :: rest) =
      ([], [], some (ErrorNotFound (str "proxy: invalid subdomain format"))) := by
  rw [split_of_label _ _ hdot, FindStringSubmatch_subdomain_none label h]

/-- The first `.` of a host that has one. -/
theorem exists_first_label (host : GoString) (h : (0x2E : UInt8) ∈ host) :
    ∃ label rest, host = label ++ 0x2E :: rest ∧ (0x2E : UInt8) ∉ label := by
  induction host with
  | nil => simp at h
  | cons b t ih =>
    by_cases hb : b = 0x2E
    · exact ⟨[], t, by simp [hb], by simp⟩
    · have ht : (0x2E : UInt8) ∈ t := by
        rcases List.mem_cons.1 h with e | e
        · exact absurd e.symm hb
        · exact e
      obtain ⟨label, rest, h1, h2⟩ := ih ht
      refine ⟨b :: label, rest, by simp [h1], ?_⟩
      simp only [List.mem_cons, not_or]
      exact ⟨fun e => hb e.symm, h2⟩

/-- C1: for every host `name ++ "." ++ domain` whose `name` is non-empty and contains neither
`.` nor `-`, `splitContainerNameAndPort` succeeds and returns exactly `(name, "")`. -/
theorem splitContainerNameAndPort_name_only (name domain : GoString) (hne : name ≠ [])
    (hdot : (0x2E : UInt8) ∉ name) (hdash : (0x2D : UInt8) ∉ name) :
    splitContainerNameAndPort (name ++ str "." ++ domain) = (name, [], none) := by
  have h := split_of_valid name [] domain (by simpa using hdot) hne hdash (Or.inl rfl)
  simpa [str_dot, TrimLeft] using h

theorem splitContainerNameAndPort_name_only_witness :
    (str "name" ≠ [] ∧ (0x2E : UInt8) ∉ str "name" ∧ (0x2D : UInt8) ∉ str "name") ∧
      splitContainerNameAndPort (str "name" ++ str "." ++ str "domain") =
        (str "name", [], none) :=
  ⟨by decide, splitContainerNameAndPort_name_only (str "name") (str "domain")
    (by decide) (by decide) (by decide)⟩

/-- C2: for every host `name ++ "-" ++ dddd ++ "." ++ domain` whose `name` is non-empty and
contains neither `.` nor `-` and whose `dddd` is exactly four ASCII decimal digits,
`splitContainerNameAndPort` succeeds and returns exactly `(name, dddd)`: the port comes
without its `-` separator. -/
theorem splitContainerNameAndPort_name_port (name dddd domain : GoString) (hne : name ≠ [])
    (hdot : (0x2E : UInt8) ∉ name) (hdash : (0x2D : UInt8) ∉ name) (hd : IsFourDigits dddd) :
    splitContainerNameAndPort (name ++ str "-" ++ dddd ++ str "." ++ domain) =
      (name, dddd, none) := by
  have hdd : (0x2E : UInt8) ∉ dddd := by
    intro hm
    have := hd.2 _ hm
    revert this
    decide
  have h := split_of_valid name (0x2D :: dddd) domain
    (by simp only [List.mem_append, List.mem_cons, not_or]
        exact ⟨hdot, by decide, hdd⟩)
    hne hdash (Or.inr ⟨dddd, rfl, hd⟩)
  rw [TrimLeft_port dddd hd] at h
  simpa [str_dot, str_dash] using h

theorem splitContainerNameAndPort_name_port_witness :
    (str "name" ≠ [] ∧ (0x2E : UInt8) ∉ str "name" ∧ (0x2D : UInt8) ∉ str "name" ∧
        IsFourDigits (str "1234")) ∧
      splitContainerNameAndPort (str "name" ++ str "-" ++ str "1234" ++ str "." ++ str "domain") =
        (str "name", str "1234", none) :=
  ⟨by decide, splitContainerNameAndPort_name_port (str "name") (str "1234") (str "domain")
    (by decide) (by decide) (by decide) (by decide)⟩

/-- C3: for every host that contains no `.`, `splitContainerNameAndPort` fails: it returns
the empty name and port together with a NotFound error of status 404, message
`err: not found` and a `reason` field `proxy: url without subdomain is not allowed`. -/
theorem splitContainerNameAndPort_no_subdomain (host : GoString) (h : (0x2E : UInt8) ∉ host) :
    ∃ e : ProxyError, splitContainerNameAndPort host = ([], [], some e) ∧
      e.Status = 404 ∧ e.Msg = str "err: not found" ∧
      e.field (str "reason") = some (str "proxy: url without subdomain is not allowed") :=
  ⟨ErrorNotFound (str "proxy: url without subdomain is not allowed"),
    split_of_no_dot host h, by decide, by decide, by decide⟩

theorem splitContainerNameAndPort_no_subdomain_witness :
    (0x2E : UInt8) ∉ str "localhost" ∧
      ∃ e : ProxyError, splitContainerNameAndPort (str "localhost") = ([], [], some e) ∧
        e.Status = 404 ∧ e.Msg = str "err: not found" ∧
        e.field (str "reason") = some (str "proxy: url without subdomain is not allowed") :=
  ⟨by decide, splitContainerNameAndPort_no_subdomain (str "localhost") (by decide)⟩

/-- C4: for every host with a `.` whose first label contains more than one `-`, or contains
a `-` that has an empty name before it or is not followed by exactly four decimal digits up
to the end of the label, `splitContainerNameAndPort` fails with a NotFound error of status
404 whose `reason` is `proxy: invalid subdomain format`. -/
theorem splitContainerNameAndPort_invalid_format (label rest : GoString)
    (hdot : (0x2E : UInt8) ∉ label)
    (hbad : 2 ≤ label.count 0x2D ∨
      ∃ pre suf, label = pre ++ 0x2D :: suf ∧ (pre = [] ∨ ¬ IsFourDigits suf)) :
    ∃ e : ProxyError, splitContainerNameAndPort (label ++ str "." ++ rest) = ([], [], some e) ∧
      e.Status = 404 ∧ e.Msg = str "err: not found" ∧
      e.field (str "reason") = some (str "proxy: invalid subdomain format") := by
  refine ⟨ErrorNotFound (str "proxy: invalid subdomain format"), ?_, by decide, by decide,
    by decide⟩
  have h := split_of_invalid label rest hdot ?_
  · simpa [str_dot] using h
  · rintro ⟨name, g2, hlabel, hne, hdash, hg⟩
    rcases hg with hg | ⟨d, hg, hd⟩
    · subst hg
      simp only [List.append_nil] at hlabel
      subst hlabel
      rcases hbad with hc | ⟨pre, suf, hl, -⟩
      · rw [List.count_eq_zero_of_not_mem hdash] at hc; omega
      · exact hdash (by rw [hl]; simp)
    · subst hg
      have hdd : (0x2D : UInt8) ∉ d := digit_ne_dash hd.2
      have hcount : label.count 0x2D = 1 := by
        rw [hlabel, List.count_append, List.count_cons_self,
          List.count_eq_zero_of_not_mem hdash, List.count_eq_zero_of_not_mem hdd]
      rcases hbad with hc | ⟨pre, suf, hl, hps⟩
      · omega
      · have hpre : (0x2D : UInt8) ∉ pre := by
          intro hm
          have h1 : 0 < pre.count 0x2D := List.count_pos_iff.2 hm
          rw [hl, List.count_append, List.count_cons_self] at hcount
          omega
        have hpn : name = pre := by
          rw [hlabel] at hl
          exact decomposition_unique pre (0x2D :: suf) name (0x2D :: d) hl.symm hpre hdash
            (Or.inr ⟨suf, rfl⟩) (Or.inr ⟨d, rfl⟩)
        subst hpn
        rw [hlabel] at hl
        have hsd := List.append_cancel_left hl
        simp only [List.cons.injEq, true_and] at hsd
        subst hsd
        rcases hps with hp | hp
        · exact hne hp
        · exact hp hd

theorem splitContainerNameAndPort_invalid_format_witness :
    ((0x2E : UInt8) ∉ str "a-b-1234" ∧
      (2 ≤ (str "a-b-1234").count 0x2D ∨
        ∃ pre suf, str "a-b-1234" = pre ++ 0x2D :: suf ∧ (pre = [] ∨ ¬ IsFourDigits suf))) ∧
      ∃ e : ProxyError,
        splitContainerNameAndPort (str "a-b-1234" ++ str "." ++ str "example.com") =
          ([], [], some e) ∧
        e.Status = 404 ∧ e.Msg = str "err: not found" ∧
        e.field (str "reason") = some (str "proxy: invalid subdomain format") :=
  ⟨⟨by decide, Or.inl (by decide)⟩,
    splitContainerNameAndPort_invalid_format (str "a-b-1234") (str "example.com")
      (by decide) (Or.inl (by decide))⟩

/-- The shape of a successful result of the host router. -/
theorem split_success_shape (host name port : GoString)
    (h : splitContainerNameAndPort host = (name, port, none)) :
    name ≠ [] ∧ (0x2D : UInt8) ∉ name ∧ (port = [] ∨ IsFourDigits port) := by
  by_cases hdot : (0x2E : UInt8) ∈ host
  · obtain ⟨label, rest, hhost, hl⟩ := exists_first_label host hdot
    subst hhost
    by_cases hv : ∃ name g2, label = name ++ g2 ∧ name ≠ [] ∧ (0x2D : UInt8) ∉ name ∧
        (g2 = [] ∨ ∃ d, g2 = 0x2D :: d ∧ IsFourDigits d)
    · obtain ⟨name1, g2, hlabel, hne, hdash, hg⟩ := hv
      subst hlabel
      rw [split_of_valid name1 g2 rest hl hne hdash hg] at h
      simp only [Prod.mk.injEq, and_true] at h
      obtain ⟨h1, h2⟩ := h
      subst h1
      rcases hg with hg | ⟨d, hg, hd⟩
      · subst hg
        have : port = [] := by rw [← h2]; simp [TrimLeft]
        subst this
        exact ⟨hne, hdash, Or.inl rfl⟩
      · subst hg
        rw [TrimLeft_port d hd] at h2
        subst h2
        exact ⟨hne, hdash, Or.inr hd⟩
    · rw [split_of_invalid label rest hl hv] at h
      simp at h
  · rw [split_of_no_dot host hdot] at h
    simp at h

/-- C5: whenever `splitContainerNameAndPort` succeeds with `(name, port)`, the name is
non-empty and contains no `-`, and the port is empty or exactly four decimal digits, with no
`-` left in it. -/
theorem splitContainerNameAndPort_route_identity (host name port : GoString)
    (h : splitContainerNameAndPort host = (name, port, none)) :
    name ≠ [] ∧ (0x2D : UInt8) ∉ name ∧ (port = [] ∨ IsFourDigits port) ∧
      (0x2D : UInt8) ∉ port := by
  obtain ⟨h1, h2, h3⟩ := split_success_shape host name port h
  refine ⟨h1, h2, h3, ?_⟩
  rcases h3 with h3 | h3
  · rw [h3]; simp
  · exact digit_ne_dash h3.2

theorem splitContainerNameAndPort_route_identity_witness :
    splitContainerNameAndPort (str "web-3000.example.com") = (str "web", str "3000", none) ∧
      (str "web" ≠ [] ∧ (0x2D : UInt8) ∉ str "web" ∧
        (str "3000" = [] ∨ IsFourDigits (str "3000")) ∧ (0x2D : UInt8) ∉ str "3000") :=
  ⟨by decide, splitContainerNameAndPort_route_identity (str "web-3000.example.com")
    (str "web") (str "3000") (by decide)⟩

/-! ## Facts about `net/url` -/

theorem str_http : str "http://" = [0x68, 0x74, 0x74, 0x70, 0x3A, 0x2F, 0x2F] := by decide

theorem str_colon : str ":" = [0x3A] := by decide

theorem str_pct25 : str "%25" = [0x25, 0x32, 0x35] := by decide

theorem Cut_of_not_mem (s : GoString) (sep : UInt8) (h : sep ∉ s) :
    Cut s sep = (s, [], false) := by
  induction s with
  | nil => rfl
  | cons b t ih =>
    have hb : b ≠ sep := fun e => h (by simp [e])
    have := ih (fun hm => h (List.mem_cons_of_mem _ hm))
    simp [Cut, hb, this]

theorem IndexByte_of_not_mem (s : GoString) (c : UInt8) (h : c ∉ s) : IndexByte s c = none := by
  induction s with
  | nil => rfl
  | cons b t ih =>
    have hb : b ≠ c := fun e => h (by simp [e])
    have := ih (fun hm => h (List.mem_cons_of_mem _ hm))
    simp [IndexByte, hb, this]

theorem LastIndexByte_of_not_mem (s : GoString) (c : UInt8) (h : c ∉ s) :
    LastIndexByte s c = none := by
  induction s with
  | nil => rfl
  | cons b t ih =>
    have hb : b ≠ c := fun e => h (by simp [e])
    have := ih (fun hm => h (List.mem_cons_of_mem _ hm))
    simp [LastIndexByte, hb, this]

theorem LastIndexByte_append (s t : GoString) (c : UInt8) (h : c ∉ t) :
    LastIndexByte (s ++ c :: t) c = some s.length := by
  induction s with
  | nil => simp [LastIndexByte, LastIndexByte_of_not_mem t c h]
  | cons b s1 ih => simp [LastIndexByte, ih]

theorem Index_of_head_not_mem (s : GoString) (c : UInt8) (tl : GoString) (h : c ∉ s) :
    Index s (c :: tl) = none := by
  induction s with
  | nil => simp [Index]
  | cons b t ih =>
    have hb : c ≠ b := fun e => h (by simp [e])
    have := ih (fun hm => h (List.mem_cons_of_mem _ hm))
    simp [Index, List.isPrefixOf, hb, this]

/-- Without `%` the second loop of `unescape` leaves a host as it is. -/
theorem unescapeDecode_of_no_percent (s : GoString) (h : (0x25 : UInt8) ∉ s) :
    unescapeDecode .encodeHost s = s := by
  induction s with
  | nil => rfl
  | cons b t ih =>
    have hb : b ≠ 0x25 := fun e => h (by simp [e])
    have := ih (fun hm => h (List.mem_cons_of_mem _ hm))
    unfold unescapeDecode
    rw [if_neg hb, this]
    split_ifs <;> simp_all

theorem unescape_host_of_no_percent (s h1 : GoString) (h : (0x25 : UInt8) ∉ s)
    (hok : unescape s .encodeHost = .ok h1) : h1 = s := by
  unfold unescape at hok
  split at hok
  · simp at hok
  · rw [unescapeDecode_of_no_percent s h] at hok
    simp only [Except.ok.injEq] at hok
    exact hok.symm

/-- Without `%` a host that `parseHost` accepts is returned unchanged. -/
theorem parseHost_of_no_percent (host h1 : GoString) (h : (0x25 : UInt8) ∉ host)
    (hok : parseHost host = .ok h1) : h1 = host := by
  unfold parseHost at hok
  simp only at hok
  split_ifs at hok with hb
  · split at hok
    · simp at hok
    · split_ifs at hok
      rw [str_pct25, Index_of_head_not_mem _ _ _
        (fun hm => h (List.mem_of_mem_take hm))] at hok
      exact unescape_host_of_no_percent host h1 h hok
  · split at hok
    · split_ifs at hok
      exact unescape_host_of_no_percent host h1 h hok
    · exact unescape_host_of_no_percent host h1 h hok

theorem getSchemeFrom_letter (rawURL tl : GoString) (c : UInt8) (i : Nat)
    (h : (0x61 ≤ c.toNat ∧ c.toNat ≤ 0x7A) ∨ (0x41 ≤ c.toNat ∧ c.toNat ≤ 0x5A)) :
    getSchemeFrom rawURL (c :: tl) i = getSchemeFrom rawURL tl (i + 1) := by
  rw [getSchemeFrom, if_pos h]

theorem getSchemeFrom_colon (rawURL tl : GoString) (i : Nat) :
    getSchemeFrom rawURL (0x3A :: tl) (i + 1) = .ok (rawURL.take (i + 1), tl) := by
  rw [getSchemeFrom, if_neg (by decide), if_neg (by decide), if_pos rfl, if_neg (by omega)]

theorem getScheme_http (a : GoString) :
    getScheme (str "http://" ++ a) = .ok (str "http", str "//" ++ a) := by
  have hss : str "//" = [0x2F, 0x2F] := by decide
  have hh : str "http" = [0x68, 0x74, 0x74, 0x70] := by decide
  rw [str_http, hss, hh]
  unfold getScheme
  simp only [List.cons_append, List.nil_append]
  rw [getSchemeFrom_letter _ _ _ _ (by decide), getSchemeFrom_letter _ _ _ _ (by decide),
    getSchemeFrom_letter _ _ _ _ (by decide), getSchemeFrom_letter _ _ _ _ (by decide),
    getSchemeFrom_colon]
  rfl

theorem stringContainsCTLByte_http (a : GoString) :
    stringContainsCTLByte (str "http://" ++ a) = stringContainsCTLByte a := by
  have h : stringContainsCTLByte (str "http://") = false := by decide
  unfold stringContainsCTLByte at h ⊢
  rw [List.any_append, h, Bool.false_or]

/-- The function `parse` on `http://` followed by an authority only. -/
theorem parse_http (a : GoString) (hq : (0x3F : UInt8) ∉ a) (hs : (0x2F : UInt8) ∉ a)
    (hat : (0x40 : UInt8) ∉ a) :
    parse (str "http://" ++ a) =
      if stringContainsCTLByte a then .error .invalidControlCharacter
      else
        match parseHost a with
        | .error e => .error e
        | .ok h => .ok { URL.zero with Scheme := str "http", Host := h } := by
  have hss : str "//" = [0x2F, 0x2F] := by decide
  have hsl : str "/" = [0x2F] := by decide
  have hstar : str "http://" ++ a ≠ str "*" := by
    rw [str_http]; intro e
    have := congrArg List.length e
    have h1 : (str "*").length = 1 := by decide
    rw [h1] at this
    simp at this
  have hlow : ToLower (str "http") = str "http" := by decide
  have hq2 : (0x3F : UInt8) ∉ str "//" ++ a := by
    rw [hss]
    simp only [List.cons_append, List.nil_append, List.mem_cons, not_or]
    exact ⟨by decide, by decide, hq⟩
  have hcount : ((str "//" ++ a).count 0x3F == 1) = false := by
    rw [List.count_eq_zero_of_not_mem hq2]; rfl
  have hcut : Cut (str "//" ++ a) 0x3F = (str "//" ++ a, [], false) :=
    Cut_of_not_mem _ _ hq2
  have hpre1 : HasPrefix (str "//" ++ a) (str "/") = true := by
    rw [hss, hsl]; simp [HasPrefix, List.isPrefixOf]
  have hpre2 : HasPrefix (str "//" ++ a) (str "//") = true := by
    rw [hss]; simp [HasPrefix, List.isPrefixOf]
  have hnz : str "http" ≠ [] := by decide
  have hdrop : (str "//" ++ a).drop 2 = a := by rw [hss]; rfl
  have hauth : parseAuthority a =
      match parseHost a with
      | .error e => .error e
      | .ok host => .ok (none, host) := by
    unfold parseAuthority
    rw [LastIndexByte_of_not_mem a _ hat]
  have hset : ∀ u : URL, u.setPath [] = .ok { u with Path := [], RawPath := [] } := by
    intro u; rfl
  unfold parse
  rw [stringContainsCTLByte_http]
  by_cases hctl : stringContainsCTLByte a = true
  · rw [if_pos hctl, if_pos hctl]
  · rw [if_neg hctl, if_neg hctl, if_neg hstar, getScheme_http]
    simp only [hlow, hcount, hcut, Bool.and_false, Bool.false_eq_true, if_false, hpre1, hpre2,
      hnz, hdrop, IndexByte_of_not_mem a _ hs, hauth, hset, not_true_eq_false, false_and,
      ne_eq, not_false_eq_true, true_and, true_or, if_true]
    cases parseHost a <;> rfl

theorem ofNat_toNat (b : UInt8) : UInt8.ofNat b.toNat = b := by
  apply UInt8.ext
  show (UInt8.ofNat b.toNat).toNat = b.toNat
  have := b.toNat_lt
  simp [UInt8.ofNat, UInt8.toNat]

set_option maxRecDepth 100000 in
theorem hostNameByte_table : ∀ n, n < 256 → hostNameByte (UInt8.ofNat n) = true →
    (UInt8.ofNat n ∉ str "#%/?@:[" ∧ ¬ (n < 0x20 ∨ n = 0x7F) ∧
      ¬ (n < 0x80 ∧ shouldEscape (UInt8.ofNat n) .encodeHost = true)) := by
  decide

theorem hostNameByte_spec (b : UInt8) (h : hostNameByte b = true) :
    b ∉ str "#%/?@:[" ∧ ¬ (b.toNat < 0x20 ∨ b.toNat = 0x7F) ∧
      ¬ (b.toNat < 0x80 ∧ shouldEscape b .encodeHost = true) := by
  have := hostNameByte_table b.toNat b.toNat_lt
  rw [ofNat_toNat] at this
  exact this h

theorem not_mem_http (c : UInt8) (a : GoString) (hc : c ∉ str "http://") (h : c ∉ a) :
    c ∉ str "http://" ++ a := by
  simp only [List.mem_append, not_or]
  exact ⟨hc, h⟩

/-- The function `url.Parse` on `http://` followed by an authority only. -/
theorem Parse_http (a : GoString) (hf : (0x23 : UInt8) ∉ a) (hq : (0x3F : UInt8) ∉ a)
    (hs : (0x2F : UInt8) ∉ a) (hat : (0x40 : UInt8) ∉ a) :
    Parse (str "http://" ++ a) =
      if stringContainsCTLByte a then .error .invalidControlCharacter
      else
        match parseHost a with
        | .error e => .error e
        | .ok h => .ok { URL.zero with Scheme := str "http", Host := h } := by
  unfold Parse
  rw [Cut_of_not_mem _ _ (not_mem_http _ a (by decide) hf)]
  simp only [if_true]
  rw [parse_http a hq hs hat]
  split_ifs
  · rfl
  · cases parseHost a <;> rfl

/-- The text that `makeContainerAccessURL` parses. -/
theorem rawContainerURL_eq (name port : GoString) :
    rawContainerURL name port =
      str "http://" ++ (if port = [] then name else name ++ str ":" ++ port) := by
  unfold rawContainerURL
  by_cases h : port = []
  · simp [h]
  · simp [h]

/-- The first loop of `unescape` accepts a host whose bytes need no escaping. -/
theorem unescapeCheck_host_ok (s : GoString)
    (h : ∀ b ∈ s, b ≠ 0x25 ∧ ¬ (b.toNat < 0x80 ∧ shouldEscape b .encodeHost = true)) :
    unescapeCheck .encodeHost s = .ok () := by
  induction s with
  | nil => rfl
  | cons b t ih =>
    have hb := h b (List.mem_cons_self _ _)
    have := ih (fun x hx => h x (List.mem_cons_of_mem _ hx))
    unfold unescapeCheck
    rw [if_neg hb.1, this]
    split_ifs with h1 h2
    · rfl
    · exact absurd h2.2 hb.2
    · rfl

theorem unescape_host_ok (s : GoString)
    (h : ∀ b ∈ s, b ≠ 0x25 ∧ ¬ (b.toNat < 0x80 ∧ shouldEscape b .encodeHost = true)) :
    unescape s .encodeHost = .ok s := by
  unfold unescape
  rw [unescapeCheck_host_ok s h,
    unescapeDecode_of_no_percent s (fun hm => (h _ hm).1 rfl)]

theorem hostNameByte_ne (b c : UInt8) (h : hostNameByte b = true) (hc : c ∈ str "#%/?@:[") :
    b ≠ c := by
  intro e
  subst e
  exact (hostNameByte_spec b h).1 hc

theorem hostNameByte_unescape (b : UInt8) (h : hostNameByte b = true) :
    b ≠ 0x25 ∧ ¬ (b.toNat < 0x80 ∧ shouldEscape b .encodeHost = true) :=
  ⟨hostNameByte_ne b _ h (by decide), (hostNameByte_spec b h).2.2⟩

theorem digit_unescape (b : UInt8) (h : 0x30 ≤ b.toNat ∧ b.toNat ≤ 0x39) :
    b ≠ 0x25 ∧ ¬ (b.toNat < 0x80 ∧ shouldEscape b .encodeHost = true) := by
  constructor
  · intro e; subst e; revert h; decide
  · intro h1
    have : shouldEscape b .encodeHost = false := by
      unfold shouldEscape
      rw [if_pos (Or.inr (Or.inr h))]
    rw [this] at h1
    exact absurd h1.2 (by decide)

/-- The host `name` alone or `name:port` with a port of digits, for a name of bytes that
need no escaping, is accepted by `parseHost` as it is. -/
theorem parseHost_name_port (name port : GoString)
    (hname : ∀ b ∈ name, hostNameByte b = true)
    (hport : ∀ b ∈ port, 0x30 ≤ b.toNat ∧ b.toNat ≤ 0x39) :
    parseHost (if port = [] then name else name ++ str ":" ++ port) =
      .ok (if port = [] then name else name ++ str ":" ++ port) := by
  have hbr : str "[" = [0x5B] := by decide
  have hcolon_name : (0x3A : UInt8) ∉ name := fun hm =>
    hostNameByte_ne _ 0x3A (hname _ hm) (by decide) rfl
  have hcolon_port : (0x3A : UInt8) ∉ port := fun hm => by
    have := hport _ hm; revert this; decide
  by_cases hp : port = []
  · simp only [hp, if_true]
    have hpre : HasPrefix name (str "[") = false := by
      rw [hbr]
      rcases name with _ | ⟨b, tl⟩
      · rfl
      · have : (0x5B : UInt8) ≠ b :=
          (hostNameByte_ne b _ (hname b (List.mem_cons_self _ _)) (by decide)).symm
        simp [HasPrefix, List.isPrefixOf, this]
    unfold parseHost
    simp only [hpre, LastIndexByte_of_not_mem name _ hcolon_name, Bool.false_eq_true, if_false]
    exact unescape_host_ok name (fun b hb => hostNameByte_unescape b (hname b hb))
  · simp only [hp, if_false, str_colon, List.append_assoc, List.singleton_append]
    have hpre : HasPrefix (name ++ 0x3A :: port) (str "[") = false := by
      rw [hbr]
      rcases name with _ | ⟨b, tl⟩
      · simp [HasPrefix, List.isPrefixOf]
      · have : (0x5B : UInt8) ≠ b :=
          (hostNameByte_ne b _ (hname b (List.mem_cons_self _ _)) (by decide)).symm
        simp [HasPrefix, List.isPrefixOf, this]
    have hvalid : validOptionalPort ((name ++ 0x3A :: port).drop name.length) = true := by
      rw [List.drop_left]
      simp only [validOptionalPort, beq_self_eq_true, Bool.true_and, List.all_eq_true]
      intro b hb
      have := hport b hb
      simp [this.1, this.2]
    unfold parseHost
    simp only [hpre, LastIndexByte_append name port _ hcolon_port, hvalid, Bool.false_eq_true,
      if_false, not_true_eq_false]
    apply unescape_host_ok
    intro b hb
    rcases List.mem_append.1 hb with h1 | h1
    · exact hostNameByte_unescape b (hname b h1)
    · rcases List.mem_cons.1 h1 with h2 | h2
      · subst h2; decide
      · exact digit_unescape b (hport b h2)

theorem Cut_append_of_not_mem (pre a : GoString) (sep : UInt8) (h : sep ∉ pre) :
    Cut (pre ++ a) sep = (pre ++ (Cut a sep).1, (Cut a sep).2.1, (Cut a sep).2.2) := by
  induction pre with
  | nil => rfl
  | cons b t ih =>
    have hb : b ≠ sep := fun e => h (by simp [e])
    have := ih (fun hm => h (List.mem_cons_of_mem _ hm))
    simp [Cut, hb, this]

theorem setPath_scheme (u v : URL) (p : GoString) (h : u.setPath p = .ok v) :
    v.Scheme = u.Scheme := by
  unfold URL.setPath at h
  split at h
  · simp at h
  · simp only [Except.ok.injEq] at h
    subst h; rfl

theorem setFragment_scheme (u v : URL) (f : GoString) (h : u.setFragment f = .ok v) :
    v.Scheme = u.Scheme := by
  unfold URL.setFragment at h
  split at h
  · simp at h
  · simp only [Except.ok.injEq] at h
    subst h; rfl

/-- Whatever follows `http://`, a URL that `parse` returns has the scheme `http`. -/
theorem parse_http_scheme (a : GoString) (v : URL) (h : parse (str "http://" ++ a) = .ok v) :
    v.Scheme = str "http" := by
  have hlow : ToLower (str "http") = str "http" := by decide
  have hstar : str "http://" ++ a ≠ str "*" := by
    rw [str_http]; intro e
    have := congrArg List.length e
    have h1 : (str "*").length = 1 := by decide
    rw [h1] at this
    simp at this
  unfold parse at h
  rw [getScheme_http] at h
  simp only [hlow, hstar, if_false] at h
  split_ifs at h
  all_goals first
    | (simp only [Except.ok.injEq, reduceCtorEq] at h; subst h; rfl)
    | rw [setPath_scheme _ _ _ h]
    | (split at h
       · simp at h
       · rw [setPath_scheme _ _ _ h])

/-- Whatever follows `http://`, a URL that `url.Parse` returns has the scheme `http`. -/
theorem Parse_http_scheme (a : GoString) (v : URL) (h : Parse (str "http://" ++ a) = .ok v) :
    v.Scheme = str "http" := by
  unfold Parse at h
  rw [Cut_append_of_not_mem _ a _ (by decide)] at h
  simp only at h
  split at h
  · simp at h
  · rename_i url hp
    have hs := parse_http_scheme _ _ hp
    split_ifs at h
    · simp only [Except.ok.injEq] at h
      subst h; exact hs
    · rw [setFragment_scheme _ _ _ h, hs]

/-! ## The backend URL -/

/-- The bytes that end the authority of a URL or are rewritten in its host:
`#`, `%`, `/`, `?` and `@`. -/
theorem str_delims : str "#%/?@" = [0x23, 0x25, 0x2F, 0x3F, 0x40] := by decide

/-- When the authority holds none of `#`, `%`, `/`, `?`, `@`, a URL that `url.Parse` returns
for `http://authority` has the authority as its host. -/
theorem Parse_http_host (a : GoString) (u : URL) (ha : ∀ c ∈ str "#%/?@", c ∉ a)
    (h : Parse (str "http://" ++ a) = .ok u) : u.Host = a := by
  rw [str_delims] at ha
  rw [Parse_http a (ha _ (by simp)) (ha _ (by simp)) (ha _ (by simp)) (ha _ (by simp))] at h
  split_ifs at h
  split at h
  · simp at h
  · rename_i h1 hp
    simp only [Except.ok.injEq] at h
    subst h
    exact parseHost_of_no_percent a h1 (ha _ (by simp)) hp

theorem makeContainerAccessURL_eq (name port : GoString) :
    makeContainerAccessURL name port =
      match Parse (str "http://" ++ (if port = [] then name else name ++ str ":" ++ port)) with
      | .error _ =>
        (none, some (ErrorContainerUrlMalformed
          (str "http://" ++ (if port = [] then name else name ++ str ":" ++ port))))
      | .ok u => (some u, none) := by
  unfold makeContainerAccessURL
  rw [rawContainerURL_eq]

theorem authority_no_delims (name port : GoString) (hname : ∀ c ∈ str "#%/?@", c ∉ name)
    (hport : ∀ c ∈ str "#%/?@", c ∉ port) :
    ∀ c ∈ str "#%/?@", c ∉ (if port = [] then name else name ++ str ":" ++ port) := by
  intro c hc
  split_ifs
  · exact hname c hc
  · simp only [List.mem_append, not_or, str_colon, List.mem_singleton]
    refine ⟨⟨hname c hc, ?_⟩, hport c hc⟩
    rw [str_delims] at hc
    intro e; subst e
    revert hc; decide

/-- The scheme and the host of the URL that `makeContainerAccessURL` returns. -/
theorem makeContainerAccessURL_some (name port : GoString) (u : URL)
    (h : (makeContainerAccessURL name port).1 = some u) :
    u.Scheme = str "http" ∧
      ((∀ c ∈ str "#%/?@", c ∉ name) → (∀ c ∈ str "#%/?@", c ∉ port) →
        u.Host = if port = [] then name else name ++ str ":" ++ port) := by
  rw [makeContainerAccessURL_eq] at h
  split at h
  · simp at h
  · rename_i u1 hp
    simp only [Option.some.injEq] at h
    subst h
    exact ⟨Parse_http_scheme _ _ hp, fun hn hpt =>
      Parse_http_host _ _ (authority_no_delims name port hn hpt) hp⟩

/-- C6 (amended): for every name and port, the text that `makeContainerAccessURL` parses is
`http://name` when the port is empty and `http://name:port` otherwise, and on success the
URL has the scheme `http`; when moreover name and port hold none of the bytes `#`, `%`, `/`,
`?`, `@`, its host is `name`, respectively `name:port`. -/
theorem makeContainerAccessURL_backend (name port : GoString) :
    makeContainerAccessURL name port =
        (match Parse (str "http://" ++ (if port = [] then name else name ++ str ":" ++ port)) with
        | .error _ =>
          (none, some (ErrorContainerUrlMalformed
            (str "http://" ++ (if port = [] then name else name ++ str ":" ++ port))))
        | .ok u => (some u, none)) ∧
      ∀ u, (makeContainerAccessURL name port).1 = some u →
        u.Scheme = str "http" ∧
          ((∀ c ∈ str "#%/?@", c ∉ name) → (∀ c ∈ str "#%/?@", c ∉ port) →
            u.Host = (if port = [] then name else name ++ str ":" ++ port)) :=
  ⟨makeContainerAccessURL_eq name port, fun u hu => makeContainerAccessURL_some name port u hu⟩

theorem makeContainerAccessURL_backend_witness :
    ((∀ c ∈ str "#%/?@", c ∉ str "app") ∧ (∀ c ∈ str "#%/?@", c ∉ str "9090") ∧
        (∀ c ∈ str "#%/?@", c ∉ str "")) ∧
      ((makeContainerAccessURL (str "app") (str "9090")).1 =
          some { URL.zero with Scheme := str "http", Host := str "app:9090" } ∧
        ({ URL.zero with Scheme := str "http", Host := str "app:9090" } : URL).Scheme =
          str "http" ∧
        ({ URL.zero with Scheme := str "http", Host := str "app:9090" } : URL).Host =
          (if str "9090" = [] then str "app" else str "app" ++ str ":" ++ str "9090")) ∧
      ((makeContainerAccessURL (str "app") (str "")).1 =
          some { URL.zero with Scheme := str "http", Host := str "app" } ∧
        ({ URL.zero with Scheme := str "http", Host := str "app" } : URL).Scheme =
          str "http" ∧
        ({ URL.zero with Scheme := str "http", Host := str "app" } : URL).Host =
          (if str "" = [] then str "app" else str "app" ++ str ":" ++ str "")) ∧
      ((makeContainerAccessURL (str "%e4%b8%96") (str "")).1 =
          some { URL.zero with Scheme := str "http", Host := [0xE4, 0xB8, 0x96] } ∧
        ({ URL.zero with Scheme := str "http", Host := [0xE4, 0xB8, 0x96] } : URL).Scheme =
          str "http") :=
  ⟨⟨by decide, by decide, by decide⟩,
    ⟨by decide,
      ((makeContainerAccessURL_backend (str "app") (str "9090")).2 _ (by decide)).1,
      ((makeContainerAccessURL_backend (str "app") (str "9090")).2 _ (by decide)).2
        (by decide) (by decide)⟩,
    ⟨by decide,
      ((makeContainerAccessURL_backend (str "app") (str "")).2 _ (by decide)).1,
      ((makeContainerAccessURL_backend (str "app") (str "")).2 _ (by decide)).2
        (by decide) (by decide)⟩,
    ⟨by decide,
      ((makeContainerAccessURL_backend (str "%e4%b8%96") (str "")).2 _ (by decide)).1⟩⟩

/-- C6 (counterexample): for the name `%e4%b8%96` the call succeeds and the host of the
URL is the decoded text, three bytes, not the name. -/
theorem makeContainerAccessURL_backend_counterexample :
    makeContainerAccessURL (str "%e4%b8%96") (str "") =
        (some { URL.zero with Scheme := str "http", Host := [0xE4, 0xB8, 0x96] }, none) ∧
      ([0xE4, 0xB8, 0x96] : GoString) ≠ str "%e4%b8%96" := by
  decide

theorem stringContainsCTLByte_false (a : GoString)
    (h : ∀ b ∈ a, ¬ (b.toNat < 0x20 ∨ b.toNat = 0x7F)) : stringContainsCTLByte a = false := by
  unfold stringContainsCTLByte
  rw [List.any_eq_false]
  intro b hb
  have := h b hb
  simp only [Bool.or_eq_true, decide_eq_true_eq]
  exact this

/-- The authority `name` or `name:port` of a host name of bytes that need no escaping and a
port of digits: what the name and the port guarantee about its bytes. -/
theorem authority_bytes (name port : GoString)
    (hname : ∀ b ∈ name, hostNameByte b = true)
    (hport : ∀ b ∈ port, 0x30 ≤ b.toNat ∧ b.toNat ≤ 0x39) :
    ∀ b ∈ (if port = [] then name else name ++ str ":" ++ port),
      b ∉ str "#/?@" ∧ ¬ (b.toNat < 0x20 ∨ b.toNat = 0x7F) := by
  have hn : ∀ b ∈ name, b ∉ str "#/?@" ∧ ¬ (b.toNat < 0x20 ∨ b.toNat = 0x7F) := by
    intro b hb
    have hs := hostNameByte_spec b (hname b hb)
    refine ⟨fun hm => hs.1 ?_, hs.2.1⟩
    have hsub : ∀ c ∈ str "#/?@", c ∈ str "#%/?@:[" := by decide
    exact hsub b hm
  have hd : ∀ b : UInt8, 0x30 ≤ b.toNat ∧ b.toNat ≤ 0x39 →
      b ∉ str "#/?@" ∧ ¬ (b.toNat < 0x20 ∨ b.toNat = 0x7F) := by
    intro b hb
    refine ⟨fun hm => ?_, by omega⟩
    have hall : ∀ c ∈ str "#/?@", ¬ (0x30 ≤ c.toNat ∧ c.toNat ≤ 0x39) := by decide
    exact hall b hm hb
  intro b hb
  split_ifs at hb
  · exact hn b hb
  · simp only [List.mem_append, str_colon, List.mem_singleton] at hb
    rcases hb with (hb | hb) | hb
    · exact hn b hb
    · subst hb; decide
    · exact hd b (hport b hb)

/-- A name of bytes that need no escaping and a port that is empty or of digits give a URL. -/
theorem makeContainerAccessURL_of_hostName (name port : GoString)
    (hname : ∀ b ∈ name, hostNameByte b = true)
    (hport : ∀ b ∈ port, 0x30 ≤ b.toNat ∧ b.toNat ≤ 0x39) :
    makeContainerAccessURL name port =
      (some { URL.zero with Scheme := str "http",
                            Host := if port = [] then name else name ++ str ":" ++ port },
        none) := by
  have hb := authority_bytes name port hname hport
  have hs4 : str "#/?@" = [0x23, 0x2F, 0x3F, 0x40] := by decide
  rw [hs4] at hb
  have hnot : ∀ c ∈ ([0x23, 0x2F, 0x3F, 0x40] : GoString),
      c ∉ (if port = [] then name else name ++ str ":" ++ port) := by
    intro c hc hm
    exact (hb c hm).1 hc
  rw [makeContainerAccessURL_eq,
    Parse_http _ (hnot _ (by simp)) (hnot _ (by simp)) (hnot _ (by simp)) (hnot _ (by simp)),
    stringContainsCTLByte_false _ (fun b hm => (hb b hm).2),
    parseHost_name_port name port hname hport]
  rfl

/-- C7 (amended): for every host on which `splitContainerNameAndPort` succeeds with
`(name, port)` and whose name consists of bytes that may stand unescaped in a URL host
(bytes outside ASCII, ASCII letters and digits, and `! " $ & ' ( ) * + , ; < = > ] _ ~`),
`makeContainerAccessURL name port` succeeds: it returns a URL and no error. -/
theorem makeContainerAccessURL_after_split (host name port : GoString)
    (h : splitContainerNameAndPort host = (name, port, none))
    (hname : ∀ b ∈ name, hostNameByte b = true) :
    ∃ u, makeContainerAccessURL name port = (some u, none) := by
  obtain ⟨-, -, hp⟩ := split_success_shape host name port h
  have hport : ∀ b ∈ port, 0x30 ≤ b.toNat ∧ b.toNat ≤ 0x39 := by
    rcases hp with hp | hp
    · rw [hp]; simp
    · exact hp.2
  exact ⟨_, makeContainerAccessURL_of_hostName name port hname hport⟩

theorem makeContainerAccessURL_after_split_witness :
    (splitContainerNameAndPort (str "web-3000.example.com") = (str "web", str "3000", none) ∧
        ∀ b ∈ str "web", hostNameByte b = true) ∧
      ∃ u, makeContainerAccessURL (str "web") (str "3000") = (some u, none) :=
  ⟨⟨by decide, by decide⟩,
    makeContainerAccessURL_after_split (str "web-3000.example.com") (str "web") (str "3000")
      (by decide) (by decide)⟩

/-- C7 (counterexample): the host `%.example.com` passes the host router with the name `%`,
and `makeContainerAccessURL` answers the container-url-malformed error. -/
theorem makeContainerAccessURL_after_split_counterexample :
    splitContainerNameAndPort (str "%.example.com") = (str "%", str "", none) ∧
      makeContainerAccessURL (str "%") (str "") =
        (none, some (ErrorContainerUrlMalformed (str "http://%"))) := by
  decide

/-! ## The request forwarder -/

/-- The status codes with which the writer takes both the status and a body: `200..999`
other than 204 and 304. -/
theorem bodyAllowedForStatus_of_final (code : Int)
    (h : 200 ≤ code ∧ code ≤ 999 ∧ code ≠ 204 ∧ code ≠ 304) :
    bodyAllowedForStatus code = true := by
  unfold bodyAllowedForStatus
  rw [if_neg (by omega), if_neg (by omega), if_neg (by omega)]

theorem WriteHeader_fresh (rw : ResponseWriter) (code : Int) (hrw : rw.wroteHeader = false)
    (h1 : 200 ≤ code ∧ code ≤ 999) :
    rw.WriteHeader code =
      .ok { rw with wroteHeader := true, status := code, sentHeader := rw.header } := by
  unfold ResponseWriter.WriteHeader
  rw [if_neg (by simp [hrw]), if_neg (by omega), if_neg (by omega)]

theorem Write_after_header (rw : ResponseWriter) (data : GoString) (hrw : rw.wroteHeader = true)
    (hb : bodyAllowedForStatus rw.status = true) :
    rw.Write data = .ok { rw with body := rw.body ++ data } := by
  unfold ResponseWriter.Write
  rw [if_pos hrw]
  simp only []
  by_cases hd : data = []
  · rw [if_pos hd, hd, List.append_nil]
  · rw [if_neg hd, if_neg (by simp [hb])]

/-- The error response for a structured error with a status code with which the writer takes
the status and a body. -/
theorem SendErrorResponse_proxy (rw : ResponseWriter) (e : ProxyError)
    (hrw : rw.wroteHeader = false)
    (h1 : 200 ≤ e.Status ∧ e.Status ≤ 999 ∧ e.Status ≠ 204 ∧ e.Status ≠ 304) :
    SendErrorResponse rw (.proxy e) =
      .ok { header := rw.header.Add (str "content-type") (str "application/json"),
            wroteHeader := true, status := e.Status,
            sentHeader := rw.header.Add (str "content-type") (str "application/json"),
            body := rw.body ++ e.SerializeJSON } := by
  unfold SendErrorResponse
  simp only []
  rw [WriteHeader_fresh
    { rw with header := rw.header.Add (str "content-type") (str "application/json") }
    e.Status hrw ⟨h1.1, h1.2.1⟩]
  simp only []
  rw [Write_after_header _ _ rfl (bodyAllowedForStatus_of_final _ h1)]
  rfl

/-- The handler on a host that the host router refuses. -/
theorem proxyRequestHandler_of_split_error (Do : Request → Except GoString Response)
    (rw : ResponseWriter) (req : Request) (name port : GoString) (e : ProxyError)
    (h : splitContainerNameAndPort req.Host = (name, port, some e)) :
    proxyRequestHandler Do rw req =
      match SendErrorResponse rw (.proxy e) with
      | .error p => .error p
      | .ok rw1 => .ok (rw1, []) := by
  unfold proxyRequestHandler
  rw [h]

/-- The handler on a host that is routed to the backend URL `u`. -/
theorem proxyRequestHandler_of_dispatch (Do : Request → Except GoString Response)
    (rw : ResponseWriter) (req : Request) (name port : GoString) (u : URL)
    (hsplit : splitContainerNameAndPort req.Host = (name, port, none))
    (hmake : makeContainerAccessURL name port = (some u, none)) :
    proxyRequestHandler Do rw req =
      match Do (outboundRequest req u) with
      | .error err =>
        match rw.WriteHeader StatusInternalServerError with
        | .error p => .error p
        | .ok rw1 =>
          match rw1.Write err with
          | .error p => .error p
          | .ok rw2 => .ok (rw2, [outboundRequest req u])
      | .ok containerResponse =>
        match rw.WriteHeader StatusOK with
        | .error p => .error p
        | .ok rw1 =>
          match rw1.Write containerResponse.Body with
          | .error p => .error p
          | .ok rw2 => .ok (rw2, [outboundRequest req u]) := by
  unfold proxyRequestHandler
  rw [hsplit]
  simp only []
  rw [hmake]

theorem notFound_no_subdomain_json :
    (ErrorNotFound (str "proxy: url without subdomain is not allowed")).SerializeJSON =
      str "\x7b\"message\":\"err: not found\"," ++
        (str "\"reason\":\"proxy: url without subdomain is not allowed\"" ++
          str ",\"status\":\"404\"\x7d") := by
  decide

/-- C8 (amended): an inbound request whose Host has no `.` (for instance `localhost`) is
not forwarded: `proxyRequestHandler` answers it with status 404 and a JSON body that
contains `"reason":"proxy: url without subdomain is not allowed"`. The response writer is
one on which no status has been written, as the server hands it to a handler. -/
theorem proxyRequestHandler_no_subdomain (Do : Request → Except GoString Response)
    (rw : ResponseWriter) (req : Request) (hrw : rw.wroteHeader = false)
    (hhost : (0x2E : UInt8) ∉ req.Host) :
    ∃ rw1, proxyRequestHandler Do rw req = .ok (rw1, []) ∧ rw1.status = 404 ∧
      rw1.body = rw.body ++
        (ErrorNotFound (str "proxy: url without subdomain is not allowed")).SerializeJSON ∧
      str "\"reason\":\"proxy: url without subdomain is not allowed\"" <:+: rw1.body := by
  rw [proxyRequestHandler_of_split_error Do rw req _ _ _ (split_of_no_dot req.Host hhost),
    SendErrorResponse_proxy rw _ hrw (by decide)]
  refine ⟨_, rfl, rfl, rfl, ?_⟩
  rw [notFound_no_subdomain_json]
  exact ⟨rw.body ++ str "\x7b\"message\":\"err: not found\",", str ",\"status\":\"404\"\x7d",
    by simp only [List.append_assoc]⟩

set_option maxRecDepth 10000 in
theorem proxyRequestHandler_no_subdomain_witness :
    (ResponseWriter.new.wroteHeader = false ∧
        (0x2E : UInt8) ∉
          (⟨str "GET", URL.zero, [], [], str "localhost", str "/"⟩ : Request).Host) ∧
      ∃ rw1, proxyRequestHandler (fun _ => .ok ⟨200, [], str "ok"⟩) ResponseWriter.new
          ⟨str "GET", URL.zero, [], [], str "localhost", str "/"⟩ = .ok (rw1, []) ∧
        rw1.status = 404 ∧
        rw1.body = ResponseWriter.new.body ++
          (ErrorNotFound (str "proxy: url without subdomain is not allowed")).SerializeJSON ∧
        str "\"reason\":\"proxy: url without subdomain is not allowed\"" <:+: rw1.body :=
  ⟨⟨by decide, by decide⟩,
    proxyRequestHandler_no_subdomain (fun _ => .ok ⟨200, [], str "ok"⟩) ResponseWriter.new
      ⟨str "GET", URL.zero, [], [], str "localhost", str "/"⟩ (by decide) (by decide)⟩

set_option maxRecDepth 10000 in
/-- C8 (counterexample): the host `example.com` has a `.`, so the host router takes
`example` for the container name: the request is handed to the client with the target
`http://example`, and the caller gets the status 200 of a relayed response, or 500 when the
client fails, not 404. -/
theorem proxyRequestHandler_example_com_counterexample :
    proxyRequestHandler (fun _ => .ok ⟨200, [], str "ok"⟩) ResponseWriter.new
        ⟨str "GET", URL.zero, [], [], str "example.com", str "/"⟩ =
      .ok (⟨[], true, 200, [], str "ok"⟩,
        [⟨str "GET", { URL.zero with Scheme := str "http", Host := str "example" }, [], [],
          str "example", []⟩]) ∧
    proxyRequestHandler (fun _ => .error (str "connection refused")) ResponseWriter.new
        ⟨str "GET", URL.zero, [], [], str "example.com", str "/"⟩ =
      .ok (⟨[], true, 500, [], str "connection refused"⟩,
        [⟨str "GET", { URL.zero with Scheme := str "http", Host := str "example" }, [], [],
          str "example", []⟩]) := by
  decide

theorem Write_ok (rw : ResponseWriter) (data : GoString) : ∃ rw1, rw.Write data = .ok rw1 := by
  unfold ResponseWriter.Write ResponseWriter.WriteHeader
  by_cases hrw : rw.wroteHeader = true
  · rw [if_pos hrw]
    simp only []
    split_ifs <;> exact ⟨_, rfl⟩
  · rw [if_neg hrw, if_neg hrw, if_neg (by decide), if_neg (by decide)]
    simp only []
    split_ifs <;> exact ⟨_, rfl⟩

theorem WriteHeader_then_Write (rw : ResponseWriter) (code : Int) (data : GoString)
    (h1 : ¬ (code < 100 ∨ code > 999)) :
    ∃ rw1 rw2, rw.WriteHeader code = .ok rw1 ∧ rw1.Write data = .ok rw2 := by
  have h : ∃ rw1, rw.WriteHeader code = .ok rw1 := by
    unfold ResponseWriter.WriteHeader
    split_ifs <;> exact ⟨_, rfl⟩
  obtain ⟨rw1, h⟩ := h
  obtain ⟨rw2, h2⟩ := Write_ok rw1 data
  exact ⟨rw1, rw2, h, h2⟩

/-- C9 (amended): for every inbound request whose host parses to `(name, port)` and whose
backend URL `u` builds, the request handed to the HTTP client has Host and URL.Host equal to
the host of `u`, URL.Scheme equal to `http` and an empty RequestURI, while method, headers,
body and URL path and query are those of the inbound request; the host of `u` is `name`, or
`name:port` when the port is non-empty, provided the name holds none of `#`, `%`, `/`, `?`,
`@`. -/
theorem proxyRequestHandler_rewrites (Do : Request → Except GoString Response)
    (rw : ResponseWriter) (req : Request) (name port : GoString) (u : URL)
    (hsplit : splitContainerNameAndPort req.Host = (name, port, none))
    (hmake : makeContainerAccessURL name port = (some u, none)) :
    ∃ rw1 req1, proxyRequestHandler Do rw req = .ok (rw1, [req1]) ∧
      req1.Host = u.Host ∧ req1.URL.Host = u.Host ∧ req1.URL.Scheme = str "http" ∧
      req1.RequestURI = [] ∧
      req1.Method = req.Method ∧ req1.Header = req.Header ∧ req1.Body = req.Body ∧
      req1.URL.Path = req.URL.Path ∧ req1.URL.RawPath = req.URL.RawPath ∧
      req1.URL.RawQuery = req.URL.RawQuery ∧ req1.URL.ForceQuery = req.URL.ForceQuery ∧
      ((∀ c ∈ str "#%/?@", c ∉ name) →
        u.Host = if port = [] then name else name ++ str ":" ++ port) := by
  have hu : (makeContainerAccessURL name port).1 = some u := by rw [hmake]
  obtain ⟨hscheme, hhost⟩ := makeContainerAccessURL_some name port u hu
  have hport : ∀ c ∈ str "#%/?@", c ∉ port := by
    obtain ⟨-, -, hp⟩ := split_success_shape req.Host name port hsplit
    intro c hc hm
    rcases hp with hp | hp
    · rw [hp] at hm; simp at hm
    · have hd := hp.2 c hm
      have hall : ∀ c ∈ str "#%/?@", ¬ (0x30 ≤ c.toNat ∧ c.toNat ≤ 0x39) := by decide
      exact hall c hc hd
  have hreq : ∃ rw1, proxyRequestHandler Do rw req = .ok (rw1, [outboundRequest req u]) := by
    rw [proxyRequestHandler_of_dispatch Do rw req name port u hsplit hmake]
    cases Do (outboundRequest req u) with
    | error err =>
      obtain ⟨rw1, rw2, h1, h2⟩ :=
        WriteHeader_then_Write rw StatusInternalServerError err (by decide)
      simp only [h1, h2]
      exact ⟨_, rfl⟩
    | ok resp =>
      obtain ⟨rw1, rw2, h1, h2⟩ := WriteHeader_then_Write rw StatusOK resp.Body (by decide)
      simp only [h1, h2]
      exact ⟨_, rfl⟩
  obtain ⟨rw1, h1⟩ := hreq
  exact ⟨rw1, outboundRequest req u, h1, rfl, rfl, hscheme, rfl, rfl, rfl, rfl, rfl, rfl, rfl,
    rfl, fun hn => hhost hn hport⟩

set_option maxRecDepth 10000 in
theorem proxyRequestHandler_rewrites_witness :
    (splitContainerNameAndPort
          (⟨str "POST", { URL.zero with Path := str "/api", RawQuery := str "q=1" },
            [(str "Accept", [str "*/*"])], str "payload", str "web-3000.example.com",
            str "/api?q=1"⟩ : Request).Host = (str "web", str "3000", none) ∧
        makeContainerAccessURL (str "web") (str "3000") =
          (some { URL.zero with Scheme := str "http", Host := str "web:3000" }, none)) ∧
      ∃ rw1 req1, proxyRequestHandler (fun _ => .ok ⟨200, [], str "ok"⟩) ResponseWriter.new
          ⟨str "POST", { URL.zero with Path := str "/api", RawQuery := str "q=1" },
            [(str "Accept", [str "*/*"])], str "payload", str "web-3000.example.com",
            str "/api?q=1"⟩ = .ok (rw1, [req1]) ∧
        req1.Host = str "web:3000" ∧ req1.URL.Host = str "web:3000" ∧
        req1.URL.Scheme = str "http" ∧ req1.RequestURI = [] ∧
        req1.Method = str "POST" ∧ req1.Header = [(str "Accept", [str "*/*"])] ∧
        req1.Body = str "payload" ∧
        req1.URL.Path = str "/api" ∧ req1.URL.RawPath = [] ∧
        req1.URL.RawQuery = str "q=1" ∧ req1.URL.ForceQuery = false ∧
        ((∀ c ∈ str "#%/?@", c ∉ str "web") →
          str "web:3000" = if str "3000" = [] then str "web" else str "web" ++ str ":" ++ str "3000") :=
  ⟨⟨by decide, by decide⟩,
    proxyRequestHandler_rewrites (fun _ => .ok ⟨200, [], str "ok"⟩) ResponseWriter.new
      ⟨str "POST", { URL.zero with Path := str "/api", RawQuery := str "q=1" },
        [(str "Accept", [str "*/*"])], str "payload", str "web-3000.example.com",
        str "/api?q=1"⟩ (str "web") (str "3000")
      { URL.zero with Scheme := str "http", Host := str "web:3000" } (by decide) (by decide)⟩

set_option maxRecDepth 10000 in
/-- C9 (counterexample): for the host `%e4%b8%96.example.com` the name is `%e4%b8%96`, the
backend URL builds, and the request handed to the client has the three decoded bytes as its
Host, not the name. -/
theorem proxyRequestHandler_rewrites_counterexample :
    splitContainerNameAndPort (str "%e4%b8%96.example.com") = (str "%e4%b8%96", str "", none) ∧
      proxyRequestHandler (fun _ => .ok ⟨200, [], str "ok"⟩) ResponseWriter.new
          ⟨str "GET", URL.zero, [], [], str "%e4%b8%96.example.com", str "/"⟩ =
        .ok (⟨[], true, 200, [], str "ok"⟩,
          [⟨str "GET", { URL.zero with Scheme := str "http", Host := [0xE4, 0xB8, 0x96] }, [], [],
            [0xE4, 0xB8, 0x96], []⟩]) ∧
      ([0xE4, 0xB8, 0x96] : GoString) ≠ str "%e4%b8%96" := by
  decide

/-- C10: for every inbound request that is dispatched and every response the client returns
without a transport error, the response written to the caller has status 200 whatever the
status code of the backend is, a body equal to the body of the backend response, and the
headers it had before the call, none of them taken from the backend response. The response
writer is one on which no status has been written, as the server hands it to a handler. -/
theorem proxyRequestHandler_relays (Do : Request → Except GoString Response)
    (rw : ResponseWriter) (req : Request) (name port : GoString) (u : URL) (resp : Response)
    (hrw : rw.wroteHeader = false)
    (hsplit : splitContainerNameAndPort req.Host = (name, port, none))
    (hmake : makeContainerAccessURL name port = (some u, none))
    (hDo : Do (outboundRequest req u) = .ok resp) :
    proxyRequestHandler Do rw req =
      .ok ({ header := rw.header, wroteHeader := true, status := 200, sentHeader := rw.header,
             body := rw.body ++ resp.Body }, [outboundRequest req u]) := by
  rw [proxyRequestHandler_of_dispatch Do rw req name port u hsplit hmake, hDo]
  simp only []
  rw [WriteHeader_fresh rw StatusOK hrw (by decide)]
  simp only []
  rw [Write_after_header _ _ rfl (by rfl)]
  rfl

set_option maxRecDepth 10000 in
theorem proxyRequestHandler_relays_witness :
    (ResponseWriter.new.wroteHeader = false ∧
        splitContainerNameAndPort
          (⟨str "GET", URL.zero, [], [], str "web-3000.example.com", str "/"⟩ : Request).Host =
            (str "web", str "3000", none) ∧
        makeContainerAccessURL (str "web") (str "3000") =
          (some { URL.zero with Scheme := str "http", Host := str "web:3000" }, none) ∧
        (fun _ => .ok ⟨503, [(str "X-Backend", [str "b1"])], str "down"⟩ :
            Request → Except GoString Response)
          (outboundRequest ⟨str "GET", URL.zero, [], [], str "web-3000.example.com", str "/"⟩
            { URL.zero with Scheme := str "http", Host := str "web:3000" }) =
          .ok ⟨503, [(str "X-Backend", [str "b1"])], str "down"⟩) ∧
      proxyRequestHandler (fun _ => .ok ⟨503, [(str "X-Backend", [str "b1"])], str "down"⟩)
          ResponseWriter.new
          ⟨str "GET", URL.zero, [], [], str "web-3000.example.com", str "/"⟩ =
        .ok ({ header := ResponseWriter.new.header, wroteHeader := true, status := 200,
               sentHeader := ResponseWriter.new.header,
               body := ResponseWriter.new.body ++
                 (⟨503, [(str "X-Backend", [str "b1"])], str "down"⟩ : Response).Body },
          [outboundRequest ⟨str "GET", URL.zero, [], [], str "web-3000.example.com", str "/"⟩
            { URL.zero with Scheme := str "http", Host := str "web:3000" }]) :=
  ⟨⟨by decide, by decide, by decide, rfl⟩,
    proxyRequestHandler_relays (fun _ => .ok ⟨503, [(str "X-Backend", [str "b1"])], str "down"⟩)
      ResponseWriter.new ⟨str "GET", URL.zero, [], [], str "web-3000.example.com", str "/"⟩
      (str "web") (str "3000") { URL.zero with Scheme := str "http", Host := str "web:3000" }
      ⟨503, [(str "X-Backend", [str "b1"])], str "down"⟩ (by decide) (by decide) (by decide) rfl⟩

/-! ## The error type -/

theorem MarshalJSON_eq (err : ProxyError) : err.MarshalJSON = jsonMarshalMap err.fieldMap := rfl

theorem mapGet_nil (k : GoString) : mapGet [] k = none := rfl

theorem mapGet_cons (x : GoString × GoString) (xs : ErrorFields) (k : GoString) :
    mapGet (x :: xs) k = if x.1 = k then some x.2 else mapGet xs k := by
  unfold mapGet
  rw [List.find?_cons]
  by_cases h : x.1 = k
  · have : (x.1 == k) = true := by simpa using h
    rw [this, if_pos h]; rfl
  · have : (x.1 == k) = false := by simpa using h
    rw [this, if_neg h]

theorem filter_ne_cons (x : GoString × GoString) (xs : ErrorFields) (k : GoString) :
    (x :: xs).filter (fun e => e.1 != k) =
      if x.1 = k then xs.filter (fun e => e.1 != k) else x :: xs.filter (fun e => e.1 != k) := by
  rw [List.filter_cons]
  by_cases h : x.1 = k
  · have : (x.1 != k) = false := by simpa using h
    rw [this, if_pos h]; rfl
  · have : (x.1 != k) = true := by simpa using h
    rw [this, if_neg h]; rfl

theorem mapGet_filter_ne (m : ErrorFields) (k k1 : GoString) (h : k1 ≠ k) :
    mapGet (m.filter (fun e => e.1 != k)) k1 = mapGet m k1 := by
  induction m with
  | nil => rfl
  | cons x xs ih =>
    rw [filter_ne_cons, mapGet_cons]
    by_cases hx : x.1 = k
    · rw [if_pos hx, ih, if_neg (fun e => h (e.symm.trans hx))]
    · rw [if_neg hx, mapGet_cons, ih]

theorem mapGet_filter_self (m : ErrorFields) (k : GoString) :
    mapGet (m.filter (fun e => e.1 != k)) k = none := by
  induction m with
  | nil => rfl
  | cons x xs ih =>
    rw [filter_ne_cons]
    by_cases hx : x.1 = k
    · rw [if_pos hx, ih]
    · rw [if_neg hx, mapGet_cons, if_neg hx, ih]

theorem mapGet_mapSet_self (m : ErrorFields) (k v : GoString) :
    mapGet (mapSet m k v) k = some v := by
  unfold mapSet
  rw [mapGet_cons, if_pos rfl]

theorem mapGet_mapSet_ne (m : ErrorFields) (k v k1 : GoString) (h : k1 ≠ k) :
    mapGet (mapSet m k v) k1 = mapGet m k1 := by
  unfold mapSet
  rw [mapGet_cons, if_neg (fun e => h e.symm), mapGet_filter_ne m k k1 h]

theorem mapGet_mapDelete_self (m : ErrorFields) (k : GoString) :
    mapGet (mapDelete m k) k = none :=
  mapGet_filter_self m k

theorem mapGet_mapDelete_ne (m : ErrorFields) (k k1 : GoString) (h : k1 ≠ k) :
    mapGet (mapDelete m k) k1 = mapGet m k1 :=
  mapGet_filter_ne m k k1 h

theorem mapGet_eq_none_iff (m : ErrorFields) (k : GoString) :
    mapGet m k = none ↔ ∀ e ∈ m, e.1 ≠ k := by
  induction m with
  | nil => simp [mapGet_nil]
  | cons x xs ih =>
    rw [mapGet_cons]
    by_cases hx : x.1 = k
    · rw [if_pos hx]
      simp only [reduceCtorEq, false_iff, not_forall]
      exact ⟨x, List.mem_cons_self _ _, fun h => h hx⟩
    · rw [if_neg hx, ih]
      constructor
      · intro h e he
        rcases List.mem_cons.1 he with e1 | e1
        · rw [e1]; exact hx
        · exact h e e1
      · intro h e he
        exact h e (List.mem_cons_of_mem _ he)

theorem mapGet_mem (m : ErrorFields) (k v : GoString) (h : mapGet m k = some v) :
    (k, v) ∈ m := by
  induction m with
  | nil => simp [mapGet_nil] at h
  | cons x xs ih =>
    rw [mapGet_cons] at h
    by_cases hx : x.1 = k
    · rw [if_pos hx] at h
      simp only [Option.some.injEq] at h
      have : x = (k, v) := Prod.ext hx h
      rw [this]; exact List.mem_cons_self _ _
    · rw [if_neg hx] at h
      exact List.mem_cons_of_mem _ (ih h)

theorem mapGet_isSome_iff (m : ErrorFields) (k : GoString) :
    (mapGet m k).isSome = true ↔ k ∈ m.map Prod.fst := by
  rw [← Option.ne_none_iff_isSome, Ne, mapGet_eq_none_iff]
  simp only [not_forall, List.mem_map]
  constructor
  · rintro ⟨e, he, h⟩
    exact ⟨e, he, not_not.1 h⟩
  · rintro ⟨e, he, h⟩
    exact ⟨e, he, not_not.2 h⟩

theorem mapDelete_of_absent (m : ErrorFields) (k : GoString) (h : mapGet m k = none) :
    mapDelete m k = m := by
  rw [mapGet_eq_none_iff] at h
  unfold mapDelete
  rw [List.filter_eq_self]
  intro e he
  simpa using h e he

/-- With one entry per key, the lookup finds the value of every entry. -/
theorem mapGet_of_mem (m : ErrorFields) (k v : GoString) (hu : (m.map Prod.fst).Nodup)
    (h : (k, v) ∈ m) : mapGet m k = some v := by
  induction m with
  | nil => simp at h
  | cons x xs ih =>
    rw [List.map_cons, List.nodup_cons] at hu
    rw [mapGet_cons]
    rcases List.mem_cons.1 h with e | e
    · rw [← e, if_pos rfl]
    · have hx : x.1 ≠ k := by
        intro hx
        apply hu.1
        rw [hx]
        exact List.mem_map.2 ⟨(k, v), e, rfl⟩
      rw [if_neg hx]
      exact ih hu.2 e

/-- After the extra fields have been copied into a map, a key that is none of theirs holds
what it held before. -/
theorem mapGet_foldl_of_absent (l : ErrorFields) (m0 : ErrorFields) (k : GoString)
    (h : ∀ e ∈ l, e.1 ≠ k) :
    mapGet (l.foldl (fun m e => mapSet m e.1 e.2) m0) k = mapGet m0 k := by
  induction l generalizing m0 with
  | nil => rfl
  | cons x xs ih =>
    rw [List.foldl_cons, ih _ (fun e he => h e (List.mem_cons_of_mem _ he)),
      mapGet_mapSet_ne _ _ _ _ (fun e => h x (List.mem_cons_self _ _) e.symm)]

/-- After the extra fields have been copied into a map, each of them is in the map, when
there is one entry per key. -/
theorem mapGet_foldl_of_mem (l : ErrorFields) (m0 : ErrorFields) (k v : GoString)
    (hu : (l.map Prod.fst).Nodup) (h : (k, v) ∈ l) :
    mapGet (l.foldl (fun m e => mapSet m e.1 e.2) m0) k = some v := by
  induction l generalizing m0 with
  | nil => simp at h
  | cons x xs ih =>
    rw [List.map_cons, List.nodup_cons] at hu
    rw [List.foldl_cons]
    rcases List.mem_cons.1 h with e | e
    · rw [← e]
      rw [mapGet_foldl_of_absent xs _ k, mapGet_mapSet_self]
      intro y hy hk
      apply hu.1
      rw [← e]
      exact List.mem_map.2 ⟨y, hy, hk⟩
    · exact ih _ hu.2 e

/-- The keys of a map after the extra fields have been copied into it. -/
theorem mapGet_foldl_isSome (l : ErrorFields) (m0 : ErrorFields) (k : GoString) :
    (mapGet (l.foldl (fun m e => mapSet m e.1 e.2) m0) k).isSome = true ↔
      (mapGet m0 k).isSome = true ∨ k ∈ l.map Prod.fst := by
  induction l generalizing m0 with
  | nil => simp
  | cons x xs ih =>
    rw [List.foldl_cons, ih]
    by_cases hk : k = x.1
    · subst hk
      rw [mapGet_mapSet_self]
      simp
    · rw [mapGet_mapSet_ne _ _ _ _ hk]
      simp only [List.map_cons, List.mem_cons, hk, false_or]

theorem field_isSome_iff (e : ProxyError) (k : GoString) :
    (e.field k).isSome = true ↔ k ∈ (e.Data.getD []).map Prod.fst := by
  unfold ProxyError.field
  cases h : e.Data with
  | none => simp
  | some m => simp only [Option.getD_some]; exact mapGet_isSome_iff m k

theorem field_mem (e : ProxyError) (k v : GoString) (h : e.field k = some v) :
    (k, v) ∈ e.Data.getD [] := by
  unfold ProxyError.field at h
  cases hd : e.Data with
  | none => rw [hd] at h; simp at h
  | some m => rw [hd] at h; simp only [Option.getD_some]; exact mapGet_mem m k v h

theorem field_eq_none_iff (e : ProxyError) (k : GoString) :
    e.field k = none ↔ ∀ x ∈ e.Data.getD [], x.1 ≠ k := by
  unfold ProxyError.field
  cases hd : e.Data with
  | none => simp
  | some m => simp only [Option.getD_some]; exact mapGet_eq_none_iff m k

theorem str_message_ne_status : str "message" ≠ str "status" := by decide

/-- The key `message` of the map of `MarshalJSON` when no extra field has that name. -/
theorem fieldMap_message (e : ProxyError) (h : e.field (str "message") = none) :
    mapGet e.fieldMap (str "message") = some e.Msg := by
  unfold ProxyError.fieldMap
  rw [mapGet_foldl_of_absent _ _ _ ((field_eq_none_iff e _).1 h),
    mapGet_mapSet_ne _ _ _ _ str_message_ne_status, mapGet_mapSet_self]

/-- The key `status` of the map of `MarshalJSON` when no extra field has that name. -/
theorem fieldMap_status (e : ProxyError) (h : e.field (str "status") = none) :
    mapGet e.fieldMap (str "status") = some (formatInt e.Status) := by
  unfold ProxyError.fieldMap
  rw [mapGet_foldl_of_absent _ _ _ ((field_eq_none_iff e _).1 h), mapGet_mapSet_self]

/-- The extra fields in the map of `MarshalJSON`. -/
theorem fieldMap_field (e : ProxyError) (hu : e.keysUnique) (k v : GoString)
    (h : e.field k = some v) : mapGet e.fieldMap k = some v := by
  unfold ProxyError.fieldMap
  exact mapGet_foldl_of_mem _ _ k v hu (field_mem e k v h)

/-- The keys of the map of `MarshalJSON`. -/
theorem fieldMap_keys (e : ProxyError) (k : GoString) :
    (mapGet e.fieldMap k).isSome = true ↔
      k = str "message" ∨ k = str "status" ∨ (e.field k).isSome = true := by
  unfold ProxyError.fieldMap
  rw [mapGet_foldl_isSome, field_isSome_iff]
  have hbase : (mapGet (mapSet (mapSet [] (str "message") e.Msg) (str "status")
      (formatInt e.Status)) k).isSome = true ↔ k = str "message" ∨ k = str "status" := by
    by_cases hs : k = str "status"
    · subst hs; rw [mapGet_mapSet_self]; simp
    · rw [mapGet_mapSet_ne _ _ _ _ hs]
      by_cases hm : k = str "message"
      · subst hm; rw [mapGet_mapSet_self]; simp
      · rw [mapGet_mapSet_ne _ _ _ _ hm, mapGet_nil]; simp [hs, hm]
  rw [hbase, or_assoc]

/-! ## The serialised form -/

theorem mem_insertByKey (e y : GoString × GoString) (xs : ErrorFields) :
    y ∈ insertByKey e xs ↔ y = e ∨ y ∈ xs := by
  induction xs with
  | nil => simp [insertByKey]
  | cons x xs ih =>
    unfold insertByKey
    split_ifs
    · simp only [List.mem_cons, ih]
      tauto
    · simp only [List.mem_cons]

theorem mem_sortByKey (y : GoString × GoString) (m : ErrorFields) :
    y ∈ sortByKey m ↔ y ∈ m := by
  unfold sortByKey
  induction m with
  | nil => simp
  | cons x xs ih => rw [List.foldr_cons, mem_insertByKey, ih, List.mem_cons]

theorem ErrorNotFound_of_ne (reason : GoString) (h : reason ≠ []) :
    ErrorNotFound reason =
      { Msg := str "err: not found", Status := 404, Data := some [(str "reason", reason)] } := by
  unfold ErrorNotFound
  simp only [h, ne_eq, not_false_eq_true, if_true]
  rfl

theorem ErrorNotFound_nil :
    ErrorNotFound [] = { Msg := str "err: not found", Status := 404, Data := none } := by
  decide

theorem fieldMap_notFound (reason : GoString) (h : reason ≠ []) :
    (ErrorNotFound reason).fieldMap =
      [(str "reason", reason), (str "status", str "404"),
        (str "message", str "err: not found")] := by
  rw [ErrorNotFound_of_ne reason h]
  rfl

theorem sortByKey_notFound (reason : GoString) :
    sortByKey [(str "reason", reason), (str "status", str "404"),
        (str "message", str "err: not found")] =
      [(str "message", str "err: not found"), (str "reason", reason),
        (str "status", str "404")] := by
  rfl

/-- The serialised form of `ErrorNotFound("")`. -/
theorem SerializeJSON_notFound_nil :
    (ErrorNotFound []).SerializeJSON = str "\x7b\"message\":\"err: not found\",\"status\":\"404\"\x7d" := by
  decide

theorem fieldMap_notFound_nil :
    (ErrorNotFound []).fieldMap =
      [(str "status", str "404"), (str "message", str "err: not found")] := by
  decide

/-! ## The claims about the error type -/

theorem keysUnique_Error (msg : GoString) (status : Int) : (Error msg status).keysUnique := by
  simp [ProxyError.keysUnique, Error]

theorem keys_filter_nodup (m : ErrorFields) (k : GoString) (h : (m.map Prod.fst).Nodup) :
    ((m.filter (fun e => e.1 != k)).map Prod.fst).Nodup :=
  List.Nodup.sublist (List.Sublist.map _ (List.filter_sublist m)) h

theorem key_not_mem_filter (m : ErrorFields) (k : GoString) :
    k ∉ (m.filter (fun e => e.1 != k)).map Prod.fst := by
  intro hm
  obtain ⟨e, he, hk⟩ := List.mem_map.1 hm
  have := (List.mem_filter.1 he).2
  simp [hk] at this

/-- The method `AddErrField` keeps one entry per key. -/
theorem keysUnique_AddErrField (e : ProxyError) (k v : GoString) (h : e.keysUnique) :
    (e.AddErrField k v).keysUnique := by
  rcases e with ⟨msg, st, data⟩
  cases data with
  | none =>
    simp [ProxyError.keysUnique, ProxyError.AddErrField, mapSet]
  | some m =>
    have h1 : (m.map Prod.fst).Nodup := h
    show (((k, v) :: m.filter (fun e => e.1 != k)).map Prod.fst).Nodup
    rw [List.map_cons, List.nodup_cons]
    exact ⟨key_not_mem_filter m k, keys_filter_nodup m k h1⟩

/-- The method `RemoveErrField` keeps one entry per key. -/
theorem keysUnique_RemoveErrField (e : ProxyError) (k : GoString) (h : e.keysUnique) :
    (e.RemoveErrField k).keysUnique := by
  rcases e with ⟨msg, st, data⟩
  cases data with
  | none => exact h
  | some m =>
    have h1 : (m.map Prod.fst).Nodup := h
    exact keys_filter_nodup m k h1

/-! ## Reading back the serialised form -/

theorem jsonUnquoteFrom_quote (F : Nat) (X : GoString) :
    jsonUnquoteFrom (F + 1) (0x22 :: X) = some ([], X) := by
  unfold jsonUnquoteFrom
  rw [if_pos rfl]

/-- A byte that is no quote, no backslash and no control character stands for itself. -/
theorem jsonUnquoteFrom_plain (F : Nat) (b : UInt8) (X : GoString) (h1 : b ≠ 0x22)
    (h2 : b ≠ 0x5C) (h3 : ¬ b.toNat < 0x20) :
    jsonUnquoteFrom (F + 1) (b :: X) =
      (jsonUnquoteFrom F X).map (fun r => (b :: r.1, r.2)) := by
  conv_lhs => unfold jsonUnquoteFrom
  rw [if_neg h1, if_neg h2, if_neg h3]

theorem htmlSafe_spec (b : UInt8) (h : htmlSafe b = true) :
    b ≠ 0x22 ∧ b ≠ 0x5C ∧ ¬ b.toNat < 0x20 := by
  unfold htmlSafe at h
  simp only [Bool.and_eq_true, decide_eq_true_eq, bne_iff_ne, ne_eq] at h
  exact ⟨h.1.1.1.1.2, h.1.1.1.2, by omega⟩

theorem high_spec (b : UInt8) (h : 128 ≤ b.toNat) :
    b ≠ 0x22 ∧ b ≠ 0x5C ∧ ¬ b.toNat < 0x20 := by
  refine ⟨?_, ?_, by omega⟩ <;>
  · intro e; subst e; revert h; decide

/-- Bytes outside ASCII stand for themselves. -/
theorem jsonUnquoteFrom_high (p : GoString) (hp : ∀ b ∈ p, 128 ≤ b.toNat) (F : Nat)
    (X : GoString) :
    jsonUnquoteFrom (F + p.length) (p ++ X) =
      (jsonUnquoteFrom F X).map (fun r => (p ++ r.1, r.2)) := by
  induction p with
  | nil => simp
  | cons b p ih =>
    obtain ⟨h1, h2, h3⟩ := high_spec b (hp b (List.mem_cons_self _ _))
    rw [List.length_cons, ← Nat.add_assoc, List.cons_append,
      jsonUnquoteFrom_plain _ b _ h1 h2 h3, ih (fun c hc => hp c (List.mem_cons_of_mem _ hc))]
    cases jsonUnquoteFrom F X <;> simp


/-- An escape `\uXXXX` that is no surrogate stands for the encoding of its code point. -/
theorem jsonUnquoteFrom_u (F : Nat) (h1 h2 h3 h4 : UInt8) (X : GoString)
    (hh : ishex h1 = true ∧ ishex h2 = true ∧ ishex h3 = true ∧ ishex h4 = true)
    (hs : ¬ (0xD800 ≤ ((unhex h1 * 16 + unhex h2) * 16 + unhex h3) * 16 + unhex h4 ∧
      ((unhex h1 * 16 + unhex h2) * 16 + unhex h3) * 16 + unhex h4 ≤ 0xDFFF)) :
    jsonUnquoteFrom (F + 1) (0x5C :: 0x75 :: h1 :: h2 :: h3 :: h4 :: X) =
      (jsonUnquoteFrom F X).map (fun r =>
        (EncodeRune (((unhex h1 * 16 + unhex h2) * 16 + unhex h3) * 16 + unhex h4) ++ r.1,
          r.2)) := by
  conv_lhs => unfold jsonUnquoteFrom
  rw [if_neg (by decide), if_pos rfl]
  simp only [if_true]
  have hg : getu4 (0x5C :: 0x75 :: h1 :: h2 :: h3 :: h4 :: X) =
      some (((unhex h1 * 16 + unhex h2) * 16 + unhex h3) * 16 + unhex h4) := by
    unfold getu4
    simp only [true_and]
    rw [if_pos ⟨hh.1, hh.2.1, hh.2.2.1, hh.2.2.2⟩]
  rw [hg]
  simp only []
  rw [if_neg hs]
  rfl

theorem jsonUnquoteFrom_simple (F : Nat) (e x : UInt8) (X : GoString) (he : e ≠ 0x75)
    (hx : jsonSimpleEscape e = some x) :
    jsonUnquoteFrom (F + 1) (0x5C :: e :: X) =
      (jsonUnquoteFrom F X).map (fun r => (x :: r.1, r.2)) := by
  conv_lhs => unfold jsonUnquoteFrom
  rw [if_neg (by decide), if_pos rfl]
  simp only []
  rw [if_neg he, hx]

theorem hexDigit_spec : ∀ k < 16, ishex (hexDigit k) = true ∧ unhex (hexDigit k) = k := by
  decide

theorem EncodeRune_ascii (b : UInt8) (h : b.toNat < 128) : EncodeRune b.toNat = [b] := by
  unfold EncodeRune
  rw [if_pos (by omega)]
  congr 1
  apply UInt8.ext
  show (UInt8.ofNat b.toNat).toNat = b.toNat
  simp [UInt8.ofNat, UInt8.toNat]

set_option maxRecDepth 100000 in
theorem jsonEscapeByte_cases : ∀ n < 128, htmlSafe (UInt8.ofNat n) = false →
    (jsonEscapeByte (UInt8.ofNat n) = [0x5C, 0x75, 0x30, 0x30, hexDigit (n / 16), hexDigit (n % 16)]) ∨
    (jsonEscapeByte (UInt8.ofNat n) = [0x5C, (jsonEscapeByte (UInt8.ofNat n)).getD 1 0] ∧
      (jsonEscapeByte (UInt8.ofNat n)).getD 1 0 ≠ 0x75 ∧
      jsonSimpleEscape ((jsonEscapeByte (UInt8.ofNat n)).getD 1 0) = some (UInt8.ofNat n)) := by
  decide

theorem UInt8_ofNat_toNat (b : UInt8) : UInt8.ofNat b.toNat = b := by
  apply UInt8.ext
  show (UInt8.ofNat b.toNat).toNat = b.toNat
  simp [UInt8.ofNat, UInt8.toNat]

/-- The escape of an ASCII byte that a JSON string does not hold as it is stands for the
byte. -/
theorem jsonUnquoteFrom_escape (F : Nat) (b : UInt8) (X : GoString) (hb : b.toNat < 128)
    (hs : htmlSafe b = false) :
    jsonUnquoteFrom (F + 1) (jsonEscapeByte b ++ X) =
      (jsonUnquoteFrom F X).map (fun r => (b :: r.1, r.2)) := by
  have h := jsonEscapeByte_cases b.toNat hb (by rw [UInt8_ofNat_toNat]; exact hs)
  rw [UInt8_ofNat_toNat] at h
  rcases h with h | ⟨h1, h2, h3⟩
  · rw [h]
    have k1 := hexDigit_spec (b.toNat / 16) (by omega)
    have k2 := hexDigit_spec (b.toNat % 16) (by omega)
    have k0 : ishex 0x30 = true ∧ unhex 0x30 = 0 := by decide
    show jsonUnquoteFrom (F + 1) (0x5C :: 0x75 :: 0x30 :: 0x30 :: hexDigit (b.toNat / 16) ::
      hexDigit (b.toNat % 16) :: X) = _
    rw [jsonUnquoteFrom_u F _ _ _ _ X ⟨k0.1, k0.1, k1.1, k2.1⟩
      (by rw [k0.2, k1.2, k2.2]; omega)]
    have : ((unhex 0x30 * 16 + unhex 0x30) * 16 + unhex (hexDigit (b.toNat / 16))) * 16 +
        unhex (hexDigit (b.toNat % 16)) = b.toNat := by
      rw [k0.2, k1.2, k2.2]; omega
    rw [this, EncodeRune_ascii b hb]
    rfl
  · rw [h1]
    exact jsonUnquoteFrom_simple F _ b X h2 h3


theorem UInt8_eq_of_toNat (b : UInt8) (n : Nat) (hn : n < 256) (h : b.toNat = n) :
    b = UInt8.ofNat n := by
  apply UInt8.ext
  rw [h]
  show n = (UInt8.ofNat n).toNat
  simp [UInt8.ofNat, UInt8.toNat, Nat.mod_eq_of_lt hn]

/-- The rune U+2028 or U+2029 is decoded from its three bytes only. -/
theorem DecodeRune_lineSep (b : UInt8) (tl : GoString) (r : Nat)
    (hr : r = 0x2028 ∨ r = 0x2029) (h : (DecodeRune (b :: tl)).1 = r) :
    (DecodeRune (b :: tl)).2 = 3 ∧ (b :: tl).take 3 = EncodeRune r := by
  have hb := b.toNat_lt
  by_cases c00 : b.toNat < 0x80
  · rw [DecodeRune_ascii b tl c00] at h
    simp only at h
    omega
  by_cases c0 : b.toNat < 0xC2 ∨ 0xF4 < b.toNat
  · have : DecodeRune (b :: tl) = (RuneError, 1) := by
      simp only [DecodeRune]
      rw [if_neg c00, if_pos c0]
    rw [this] at h
    simp only [RuneError] at h
    omega
  by_cases c1 : tl.length + 1 < (if b.toNat < 0xE0 then 2 else if b.toNat < 0xF0 then 3 else 4)
  · have : DecodeRune (b :: tl) = (RuneError, 1) := by
      simp only [DecodeRune]
      rw [if_neg c00, if_neg c0, if_pos c1]
    rw [this] at h
    simp only [RuneError] at h
    omega
  have hd : DecodeRune (b :: tl) = decodeRest b.toNat
      (if b.toNat < 0xE0 then 2 else if b.toNat < 0xF0 then 3 else 4)
      (if b.toNat = 0xE0 then 0xA0 else if b.toNat = 0xF0 then 0x90 else 0x80)
      (if b.toNat = 0xED then 0x9F else if b.toNat = 0xF4 then 0x8F else 0xBF) tl := by
    simp only [DecodeRune]
    rw [if_neg c00, if_neg c0, if_neg c1]
  rw [hd] at h ⊢
  generalize hsz : (if b.toNat < 0xE0 then 2 else if b.toNat < 0xF0 then 3 else 4) = sz at h ⊢
  generalize hlo : (if b.toNat = 0xE0 then 0xA0 else if b.toNat = 0xF0 then 0x90 else 0x80) = lo
    at h ⊢
  generalize hhi : (if b.toNat = 0xED then 0x9F else if b.toNat = 0xF4 then 0x8F else 0xBF) = hi
    at h ⊢
  have hlo1 : 128 ≤ lo ∧ (b.toNat = 0xE0 → 0xA0 ≤ lo) ∧ (b.toNat = 0xF0 → 0x90 ≤ lo) := by
    rw [← hlo]; split_ifs <;> omega
  have hhi1 : hi ≤ 191 := by rw [← hhi]; split_ifs <;> omega
  have hsz1 : (sz = 2 ∧ b.toNat < 0xE0) ∨ (sz = 3 ∧ 0xE0 ≤ b.toNat ∧ b.toNat < 0xF0) ∨
      (sz = 4 ∧ 0xF0 ≤ b.toNat) := by
    rw [← hsz]; split_ifs <;> omega
  clear hsz hlo hhi hd c1
  rcases tl with _ | ⟨s1, tl1⟩
  · simp only [decodeRest, RuneError] at h; omega
  have hs1 := s1.toNat_lt
  by_cases d1 : s1.toNat < lo ∨ hi < s1.toNat
  · simp only [decodeRest, d1, if_true, RuneError] at h; omega
  by_cases d2 : sz ≤ 2
  · simp only [decodeRest, d1, d2, if_true, if_false] at h; omega
  rcases tl1 with _ | ⟨s2, tl2⟩
  · simp only [decodeRest, d1, d2, if_false, RuneError] at h; omega
  have hs2 := s2.toNat_lt
  by_cases d3 : s2.toNat < 0x80 ∨ 0xBF < s2.toNat
  · simp only [decodeRest, d1, d2, d3, if_true, if_false, RuneError] at h; omega
  by_cases d4 : sz ≤ 3
  · simp only [decodeRest, d1, d2, d3, d4, if_true, if_false] at h ⊢
    refine ⟨trivial, ?_⟩
    have e0 : b = UInt8.ofNat 0xE2 := UInt8_eq_of_toNat b _ (by decide) (by omega)
    have e1 : s1 = UInt8.ofNat 0x80 := UInt8_eq_of_toNat s1 _ (by decide) (by omega)
    rcases hr with hr | hr
    · have e2 : s2 = UInt8.ofNat 0xA8 := UInt8_eq_of_toNat s2 _ (by decide) (by omega)
      rw [e0, e1, e2, hr]
      exact (by decide : ([0xE2, 0x80, 0xA8] : GoString) = EncodeRune 0x2028 ∧ ([0xE2, 0x80, 0xA9] : GoString) = EncodeRune 0x2029).1
    · have e2 : s2 = UInt8.ofNat 0xA9 := UInt8_eq_of_toNat s2 _ (by decide) (by omega)
      rw [e0, e1, e2, hr]
      exact (by decide : ([0xE2, 0x80, 0xA8] : GoString) = EncodeRune 0x2028 ∧ ([0xE2, 0x80, 0xA9] : GoString) = EncodeRune 0x2029).2
  rcases tl2 with _ | ⟨s3, tl3⟩
  · simp only [decodeRest, d1, d2, d3, d4, if_false, RuneError] at h; omega
  by_cases d5 : s3.toNat < 0x80 ∨ 0xBF < s3.toNat
  · simp only [decodeRest, d1, d2, d3, d4, d5, if_true, if_false, RuneError] at h; omega
  · simp only [decodeRest, d1, d2, d3, d4, d5, if_false] at h
    omega


theorem jsonUnquoteFrom_lineSep (F : Nat) (r : Nat) (X : GoString)
    (hr : r = 0x2028 ∨ r = 0x2029) :
    jsonUnquoteFrom (F + 1) (str "\\u202" ++ [hexDigit (r % 16)] ++ X) =
      (jsonUnquoteFrom F X).map (fun p => (EncodeRune r ++ p.1, p.2)) := by
  rcases hr with hr | hr <;> subst hr
  · show jsonUnquoteFrom (F + 1) (0x5C :: 0x75 :: 0x32 :: 0x30 :: 0x32 :: 0x38 :: X) = _
    rw [jsonUnquoteFrom_u F _ _ _ _ X (by decide) (by decide)]
    rfl
  · show jsonUnquoteFrom (F + 1) (0x5C :: 0x75 :: 0x32 :: 0x30 :: 0x32 :: 0x39 :: X) = _
    rw [jsonUnquoteFrom_u F _ _ _ _ X (by decide) (by decide)]
    rfl

/-- Reading back what `encoding/json` writes for a string gives the string with its invalid
bytes replaced. -/
theorem jsonUnquoteFrom_jsonStringFrom (n : Nat) : ∀ (s X : GoString) (F : Nat),
    (jsonStringFrom n s).length < F →
      jsonUnquoteFrom F (jsonStringFrom n s ++ 0x22 :: X) = some (coerceUTF8From n s, X) := by
  induction n with
  | zero =>
    intro s X F hF
    obtain ⟨F1, rfl⟩ : ∃ F1, F = F1 + 1 := ⟨F - 1, by omega⟩
    simp only [jsonStringFrom, coerceUTF8From, List.nil_append]
    exact jsonUnquoteFrom_quote F1 X
  | succ n ih =>
    intro s X F hF
    rcases s with _ | ⟨b, tl⟩
    · obtain ⟨F1, rfl⟩ : ∃ F1, F = F1 + 1 := ⟨F - 1, by omega⟩
      simp only [jsonStringFrom, coerceUTF8From, List.nil_append]
      exact jsonUnquoteFrom_quote F1 X
    · by_cases c0 : b.toNat < 0x80
      · have hd := DecodeRune_ascii b tl c0
        have hj : jsonStringFrom (n + 1) (b :: tl) =
            (if htmlSafe b then [b] else jsonEscapeByte b) ++ jsonStringFrom n tl := by
          conv_lhs => unfold jsonStringFrom
          rw [if_pos c0]
        have hc : coerceUTF8From (n + 1) (b :: tl) = b :: coerceUTF8From n tl := by
          conv_lhs => unfold coerceUTF8From
          rw [hd, if_neg (by simp only [RuneError]; omega)]
          rfl
        rw [hj] at hF ⊢
        rw [hc, List.append_assoc]
        by_cases hs : htmlSafe b = true
        · rw [if_pos hs] at hF ⊢
          obtain ⟨F1, rfl⟩ : ∃ F1, F = F1 + 1 := ⟨F - 1, by simp at hF; omega⟩
          obtain ⟨h1, h2, h3⟩ := htmlSafe_spec b hs
          rw [List.singleton_append, jsonUnquoteFrom_plain _ _ _ h1 h2 h3,
            ih tl X F1 (by simp at hF; omega)]
          rfl
        · rw [if_neg hs] at hF ⊢
          have hlen : 1 ≤ (jsonEscapeByte b).length := by
            have h := jsonEscapeByte_cases b.toNat c0 (by
              rw [UInt8_ofNat_toNat]; simpa using hs)
            rw [UInt8_ofNat_toNat] at h
            rcases h with h | ⟨h, -, -⟩ <;> rw [h] <;> simp
          obtain ⟨F1, rfl⟩ : ∃ F1, F = F1 + 1 := ⟨F - 1, by simp at hF; omega⟩
          rw [jsonUnquoteFrom_escape _ _ _ c0 (by simpa using hs),
            ih tl X F1 (by simp at hF; omega)]
          rfl
      · obtain ⟨k1, k2, k3, k4⟩ := DecodeRune_high b tl (by omega)
        by_cases c1 : (DecodeRune (b :: tl)).1 = RuneError ∧ (DecodeRune (b :: tl)).2 = 1
        · have hj : jsonStringFrom (n + 1) (b :: tl) =
              [0xEF, 0xBF, 0xBD] ++ jsonStringFrom n tl := by
            conv_lhs => unfold jsonStringFrom
            rw [if_neg c0, if_pos c1]
          have hc : coerceUTF8From (n + 1) (b :: tl) =
              [0xEF, 0xBF, 0xBD] ++ coerceUTF8From n tl := by
            conv_lhs => unfold coerceUTF8From
            rw [if_pos c1]
          rw [hj] at hF ⊢
          rw [hc, List.append_assoc]
          obtain ⟨F1, rfl⟩ : ∃ F1, F = F1 + ([0xEF, 0xBF, 0xBD] : GoString).length :=
            ⟨F - 3, by simp at hF ⊢; omega⟩
          rw [jsonUnquoteFrom_high _ (by decide) F1, ih tl X F1 (by simp at hF; omega)]
          rfl
        · have hc : coerceUTF8From (n + 1) (b :: tl) =
              (b :: tl).take (DecodeRune (b :: tl)).2 ++
                coerceUTF8From n ((b :: tl).drop (DecodeRune (b :: tl)).2) := by
            conv_lhs => unfold coerceUTF8From
            rw [if_neg c1]
          rw [hc]
          by_cases c2 : (DecodeRune (b :: tl)).1 = 0x2028 ∨ (DecodeRune (b :: tl)).1 = 0x2029
          · have hj : jsonStringFrom (n + 1) (b :: tl) =
                str "\\u202" ++ [hexDigit ((DecodeRune (b :: tl)).1 % 16)] ++
                  jsonStringFrom n ((b :: tl).drop (DecodeRune (b :: tl)).2) := by
              conv_lhs => unfold jsonStringFrom
              rw [if_neg c0, if_neg c1, if_pos c2]
            obtain ⟨w3, t3⟩ := DecodeRune_lineSep b tl _ (by
              rcases c2 with c2 | c2
              · exact Or.inl c2
              · exact Or.inr c2) rfl
            rw [hj] at hF ⊢
            rw [w3] at hF ⊢
            rw [List.append_assoc]
            simp only [List.length_append] at hF
            obtain ⟨F1, rfl⟩ : ∃ F1, F = F1 + 1 := ⟨F - 1, by omega⟩
            rw [jsonUnquoteFrom_lineSep F1 _ _ c2, ih _ X F1 (by
              simp only [List.length_singleton] at hF; omega), t3]
            rfl
          · have hj : jsonStringFrom (n + 1) (b :: tl) =
                (b :: tl).take (DecodeRune (b :: tl)).2 ++
                  jsonStringFrom n ((b :: tl).drop (DecodeRune (b :: tl)).2) := by
              conv_lhs => unfold jsonStringFrom
              rw [if_neg c0, if_neg c1, if_neg c2]
            rw [hj] at hF ⊢
            rw [List.append_assoc]
            have hp : ∀ x ∈ (b :: tl).take (DecodeRune (b :: tl)).2, 128 ≤ x.toNat := by
              obtain ⟨w, hw⟩ : ∃ w, (DecodeRune (b :: tl)).2 = w + 1 :=
                ⟨(DecodeRune (b :: tl)).2 - 1, by omega⟩
              rw [hw] at k4 ⊢
              intro x hx
              rw [List.take_succ_cons] at hx
              rcases List.mem_cons.1 hx with e | e
              · rw [e]; omega
              · exact k4 x (by simpa using e)
            obtain ⟨F1, rfl⟩ : ∃ F1,
                F = F1 + ((b :: tl).take (DecodeRune (b :: tl)).2).length :=
              ⟨F - ((b :: tl).take (DecodeRune (b :: tl)).2).length, by
                rw [List.length_append] at hF; omega⟩
            rw [jsonUnquoteFrom_high _ hp F1,
              ih _ X F1 (by rw [List.length_append] at hF; omega)]
            rfl


/-- Reading back the JSON string that `encoding/json` writes for a Go string. -/
theorem jsonUnquote_jsonString (s X : GoString) :
    jsonUnquote (jsonString s ++ X) = some (coerceUTF8 s, X) := by
  unfold jsonString jsonUnquote coerceUTF8
  simp only [List.singleton_append, List.cons_append, if_true, List.append_assoc]
  exact jsonUnquoteFrom_jsonStringFrom _ _ _ _ (by simp)

theorem coerceUTF8From_of_valid (n : Nat) : ∀ s : GoString, validStringFrom n s = true →
    coerceUTF8From n s = s := by
  induction n with
  | zero =>
    intro s h
    rcases s with _ | ⟨b, tl⟩
    · rfl
    · simp [validStringFrom] at h
  | succ n ih =>
    intro s h
    rcases s with _ | ⟨b, tl⟩
    · rfl
    · unfold validStringFrom at h
      unfold coerceUTF8From
      by_cases c : (DecodeRune (b :: tl)).1 = RuneError ∧ (DecodeRune (b :: tl)).2 = 1
      · rw [if_pos c] at h; simp at h
      · rw [if_neg c] at h
        rw [if_neg c, ih _ h, List.take_append_drop]

/-- A valid UTF-8 string is written as it is. -/
theorem coerceUTF8_of_valid (s : GoString) (h : ValidString s = true) : coerceUTF8 s = s :=
  coerceUTF8From_of_valid _ s h

theorem coerceUTF8From_of_ascii (n : Nat) : ∀ s : GoString, s.length ≤ n →
    (∀ b ∈ s, b.toNat < 128) → coerceUTF8From n s = s := by
  induction n with
  | zero =>
    intro s hl _
    rcases s with _ | ⟨b, tl⟩
    · rfl
    · simp at hl
  | succ n ih =>
    intro s hl ha
    rcases s with _ | ⟨b, tl⟩
    · rfl
    · have hb := ha b (List.mem_cons_self _ _)
      unfold coerceUTF8From
      rw [DecodeRune_ascii b tl hb, if_neg (by simp only [RuneError]; omega)]
      simp only [List.take_succ_cons, List.take_zero, List.drop_succ_cons, List.drop_zero,
        List.singleton_append]
      rw [ih tl (by simpa using hl) (fun c hc => ha c (List.mem_cons_of_mem _ hc))]

/-- An ASCII string is written as it is. -/
theorem coerceUTF8_of_ascii (s : GoString) (h : ∀ b ∈ s, b.toNat < 128) : coerceUTF8 s = s :=
  coerceUTF8From_of_ascii _ s (le_refl _) h

theorem coerceUTF8From_eq_of_ascii (n : Nat) : ∀ s : GoString, s.length ≤ n →
    (∀ b ∈ coerceUTF8From n s, b.toNat < 128) → coerceUTF8From n s = s := by
  induction n with
  | zero =>
    intro s hl _
    rcases s with _ | ⟨b, tl⟩
    · rfl
    · simp at hl
  | succ n ih =>
    intro s hl ha
    rcases s with _ | ⟨b, tl⟩
    · rfl
    · by_cases hb : b.toNat < 128
      · have e : coerceUTF8From (n + 1) (b :: tl) = b :: coerceUTF8From n tl := by
          conv_lhs => unfold coerceUTF8From
          rw [DecodeRune_ascii b tl hb, if_neg (by simp only [RuneError]; omega)]
          rfl
        rw [e] at ha ⊢
        rw [ih tl (by simpa using hl) (fun c hc => ha c (List.mem_cons_of_mem _ hc))]
      · exfalso
        obtain ⟨k1, k2, k3, k4⟩ := DecodeRune_high b tl (by omega)
        unfold coerceUTF8From at ha
        by_cases c : (DecodeRune (b :: tl)).1 = RuneError ∧ (DecodeRune (b :: tl)).2 = 1
        · rw [if_pos c] at ha
          have := ha 0xEF (by simp)
          revert this; decide
        · rw [if_neg c] at ha
          obtain ⟨w, hw⟩ : ∃ w, (DecodeRune (b :: tl)).2 = w + 1 :=
            ⟨(DecodeRune (b :: tl)).2 - 1, by omega⟩
          rw [hw, List.take_succ_cons] at ha
          exact hb (ha b (by simp))

/-- A string that is written as an ASCII string is that string. -/
theorem coerceUTF8_eq_ascii (s q : GoString) (hq : ∀ b ∈ q, b.toNat < 128)
    (h : coerceUTF8 s = q) : s = q := by
  rw [← h]
  exact (coerceUTF8From_eq_of_ascii _ s (le_refl _) (by
    intro b hb
    have : coerceUTF8From s.length s = q := h
    rw [this] at hb
    exact hq b hb)).symm


theorem jsonMarshalMap_eq (m : ErrorFields) :
    jsonMarshalMap m = [0x7B] ++ jsonMembers (sortByKey m) ++ [0x7D] := rfl

theorem jsonMembers_cons (x : GoString × GoString) (l : ErrorFields) :
    jsonMembers (x :: l) = jsonString x.1 ++ [0x3A] ++ jsonString x.2 ++
      (if jsonMembers l = [] then [] else [0x2C] ++ jsonMembers l) := rfl

theorem jsonMembers_cons_length (x : GoString × GoString) (l : ErrorFields) :
    1 ≤ (jsonMembers (x :: l)).length := by
  rw [jsonMembers_cons]
  simp only [List.length_append, List.length_singleton]
  omega

theorem jsonMembers_cons_ne_nil (x : GoString × GoString) (l : ErrorFields) :
    jsonMembers (x :: l) ≠ [] := by
  intro e
  have := jsonMembers_cons_length x l
  rw [e] at this
  simp at this

theorem jsonMembers_length (l : ErrorFields) : l.length ≤ (jsonMembers l).length := by
  induction l with
  | nil => simp
  | cons x l ih =>
    rw [jsonMembers_cons]
    rcases l with _ | ⟨y, l⟩
    · simp only [List.length_append, List.length_singleton, List.length_cons, List.length_nil]
      omega
    · rw [if_neg (jsonMembers_cons_ne_nil y l)]
      simp only [List.length_append, List.length_singleton, List.length_cons] at ih ⊢
      omega

/-- One member of an object, read back. -/
theorem jsonMembersFrom_step (F : Nat) (k v : GoString) (sep : UInt8) (t4 : GoString) :
    jsonMembersFrom (F + 1) (jsonString k ++ [0x3A] ++ jsonString v ++ sep :: t4) =
      if sep = 0x7D ∧ t4 = [] then some [(coerceUTF8 k, coerceUTF8 v)]
      else if sep = 0x2C then
        (jsonMembersFrom F t4).map (fun ms => (coerceUTF8 k, coerceUTF8 v) :: ms)
      else none := by
  conv_lhs => unfold jsonMembersFrom
  rw [List.append_assoc, List.append_assoc, jsonUnquote_jsonString]
  simp only [List.singleton_append, if_true]
  rw [jsonUnquote_jsonString]

/-- The members of an object as `json.Marshal` writes them, read back. -/
theorem jsonMembersFrom_members (l : ErrorFields) (x : GoString × GoString) :
    ∀ F, l.length < F →
      jsonMembersFrom F (jsonMembers (x :: l) ++ [0x7D]) =
        some ((x :: l).map (fun e => (coerceUTF8 e.1, coerceUTF8 e.2))) := by
  induction l generalizing x with
  | nil =>
    intro F hF
    obtain ⟨F1, rfl⟩ : ∃ F1, F = F1 + 1 := ⟨F - 1, by omega⟩
    rw [jsonMembers_cons]
    have : jsonMembers [] = [] := rfl
    rw [if_pos this, List.append_nil, jsonMembersFrom_step, if_pos ⟨rfl, rfl⟩]
    rfl
  | cons y l ih =>
    intro F hF
    obtain ⟨F1, rfl⟩ : ∃ F1, F = F1 + 1 := ⟨F - 1, by omega⟩
    have e : ∀ A M : GoString, (A ++ ([0x2C] ++ M)) ++ [0x7D] = A ++ 0x2C :: (M ++ [0x7D]) := by
      intro A M; simp
    rw [jsonMembers_cons, if_neg (jsonMembers_cons_ne_nil y l), e, jsonMembersFrom_step,
      if_neg (fun h => absurd h.1 (by decide)), if_pos rfl, ih y F1 (by simp at hF ⊢; omega)]
    rfl

/-- The object that `json.Marshal` writes for a map, read back: the entries in the order of
their keys, each string with its invalid bytes replaced. -/
theorem jsonObject_jsonMarshalMap (m : ErrorFields) :
    jsonObject (jsonMarshalMap m) =
      some ((sortByKey m).map (fun e => (coerceUTF8 e.1, coerceUTF8 e.2))) := by
  rw [jsonMarshalMap_eq]
  unfold jsonObject
  rw [List.append_assoc, List.singleton_append]
  simp only [if_true]
  rcases sortByKey m with _ | ⟨x, l⟩
  · rfl
  · have h1 := jsonMembers_cons_length x l
    rw [if_neg (by
      intro e
      have := congrArg List.length e
      rw [List.length_append] at this
      simp only [List.length_singleton] at this
      omega)]
    apply jsonMembersFrom_members
    have := jsonMembers_length (x :: l)
    rw [List.length_append]
    simp only [List.length_cons, List.length_singleton] at this ⊢
    omega


theorem digitChar_ascii : ∀ k < 10, (Nat.digitChar k).toNat < 128 := by decide

theorem toDigitsCore_ascii (fuel : Nat) : ∀ (n : Nat) (ds : List Char),
    (∀ c ∈ ds, c.toNat < 128) → ∀ c ∈ Nat.toDigitsCore 10 fuel n ds, c.toNat < 128 := by
  induction fuel with
  | zero => intro n ds h; simpa [Nat.toDigitsCore] using h
  | succ fuel ih =>
    intro n ds h
    unfold Nat.toDigitsCore
    simp only []
    have hd : ∀ c ∈ Nat.digitChar (n % 10) :: ds, c.toNat < 128 := by
      intro c hc
      rcases List.mem_cons.1 hc with e | e
      · rw [e]; exact digitChar_ascii _ (Nat.mod_lt _ (by decide))
      · exact h c e
    split_ifs
    · exact hd
    · exact ih _ _ hd

theorem utf8EncodeChar_ascii (c : Char) (h : c.toNat < 128) :
    ∀ b ∈ String.utf8EncodeChar c, b.toNat < 128 := by
  intro b hb
  unfold String.utf8EncodeChar at hb
  have h0 : c.val.toNat ≤ 127 := by
    have : c.toNat = c.val.toNat := rfl
    omega
  have h1 : c.val ≤ 127 := by
    show c.val.toNat ≤ 127
    exact h0
  simp only [h1, if_true, List.mem_singleton] at hb
  rw [hb]
  show (c.val.toNat.toUInt8).toNat < 128
  simp [Nat.toUInt8, UInt8.ofNat, UInt8.toNat]
  omega

theorem str_ascii (s : String) (h : ∀ c ∈ s.data, c.toNat < 128) : ∀ b ∈ str s, b.toNat < 128 := by
  intro b hb
  unfold str at hb
  obtain ⟨c, hc, hbc⟩ := List.mem_flatMap.1 hb
  exact utf8EncodeChar_ascii c (h c hc) b hbc

/-- The decimal digits of an integer are ASCII. -/
theorem formatInt_ascii (i : Int) : ∀ b ∈ formatInt i, b.toNat < 128 := by
  unfold formatInt
  apply str_ascii
  have hn : ∀ n : Nat, ∀ c ∈ (toString n).data, c.toNat < 128 := by
    intro n c hc
    exact toDigitsCore_ascii _ _ _ (by simp) c hc
  cases i with
  | ofNat n => exact hn n
  | negSucc n =>
    intro c hc
    have : (toString (Int.negSucc n)).data = '-' :: (toString (n + 1)).data := rfl
    rw [this] at hc
    rcases List.mem_cons.1 hc with e | e
    · rw [e]; decide
    · exact hn _ c e


theorem insertByKey_perm (e : GoString × GoString) (xs : ErrorFields) :
    (insertByKey e xs).Perm (e :: xs) := by
  induction xs with
  | nil => exact List.Perm.refl _
  | cons x xs ih =>
    unfold insertByKey
    split_ifs
    · exact (List.Perm.cons x ih).trans (List.Perm.swap e x xs)
    · exact List.Perm.refl _

theorem sortByKey_perm (m : ErrorFields) : (sortByKey m).Perm m := by
  unfold sortByKey
  induction m with
  | nil => exact List.Perm.refl _
  | cons x xs ih =>
    rw [List.foldr_cons]
    exact (insertByKey_perm x _).trans (List.Perm.cons x ih)

theorem sortByKey_nodup (m : ErrorFields) (h : (m.map Prod.fst).Nodup) :
    ((sortByKey m).map Prod.fst).Nodup :=
  ((sortByKey_perm m).map Prod.fst).nodup_iff.2 h

/-- Sorting a map by its keys keeps what each key holds. -/
theorem mapGet_sortByKey (m : ErrorFields) (h : (m.map Prod.fst).Nodup) (k : GoString) :
    mapGet (sortByKey m) k = mapGet m k := by
  cases hk : mapGet m k with
  | none =>
    rw [mapGet_eq_none_iff] at hk ⊢
    intro x hx
    exact hk x ((mem_sortByKey x m).1 hx)
  | some v =>
    exact mapGet_of_mem _ k v (sortByKey_nodup m h) ((mem_sortByKey _ m).2 (mapGet_mem m k v hk))

theorem mapSet_nodup (m : ErrorFields) (k v : GoString) (h : (m.map Prod.fst).Nodup) :
    ((mapSet m k v).map Prod.fst).Nodup := by
  unfold mapSet
  rw [List.map_cons, List.nodup_cons]
  exact ⟨key_not_mem_filter m k, keys_filter_nodup m k h⟩

theorem foldl_mapSet_nodup (l : ErrorFields) : ∀ m : ErrorFields, (m.map Prod.fst).Nodup →
    ((l.foldl (fun m e => mapSet m e.1 e.2) m).map Prod.fst).Nodup := by
  induction l with
  | nil => intro m h; exact h
  | cons x l ih => intro m h; exact ih _ (mapSet_nodup m x.1 x.2 h)

/-- The map of `MarshalJSON` has one entry per key. -/
theorem fieldMap_nodup (e : ProxyError) : (e.fieldMap.map Prod.fst).Nodup := by
  unfold ProxyError.fieldMap
  exact foldl_mapSet_nodup _ _ (mapSet_nodup _ _ _ (mapSet_nodup _ _ _ List.nodup_nil))

theorem mem_mapSet (m : ErrorFields) (k v : GoString) (x : GoString × GoString)
    (h : x ∈ mapSet m k v) : x = (k, v) ∨ x ∈ m := by
  unfold mapSet at h
  rcases List.mem_cons.1 h with e | e
  · exact Or.inl e
  · exact Or.inr (List.mem_filter.1 e).1

theorem mem_foldl_mapSet (l : ErrorFields) : ∀ (m : ErrorFields) (x : GoString × GoString),
    x ∈ l.foldl (fun m e => mapSet m e.1 e.2) m → x ∈ m ∨ x ∈ l := by
  induction l with
  | nil => intro m x h; exact Or.inl h
  | cons y l ih =>
    intro m x h
    rcases ih _ x h with h1 | h1
    · rcases mem_mapSet m y.1 y.2 x h1 with e | e
      · exact Or.inr (by rw [e]; exact List.mem_cons_self _ _)
      · exact Or.inl e
    · exact Or.inr (List.mem_cons_of_mem _ h1)

/-- The entries of the map of `MarshalJSON`. -/
theorem mem_fieldMap (e : ProxyError) (x : GoString × GoString) (h : x ∈ e.fieldMap) :
    x = (str "message", e.Msg) ∨ x = (str "status", formatInt e.Status) ∨
      x ∈ e.Data.getD [] := by
  unfold ProxyError.fieldMap at h
  rcases mem_foldl_mapSet _ _ x h with h1 | h1
  · rcases mem_mapSet _ _ _ x h1 with e1 | e1
    · exact Or.inr (Or.inl e1)
    · rcases mem_mapSet _ _ _ x e1 with e2 | e2
      · exact Or.inl e2
      · simp at e2
  · exact Or.inr (Or.inr h1)

/-- The JSON object that `MarshalJSON` writes, read back. -/
theorem jsonObject_MarshalJSON (e : ProxyError) :
    jsonObject e.MarshalJSON =
      some ((sortByKey e.fieldMap).map (fun x => (coerceUTF8 x.1, coerceUTF8 x.2))) :=
  jsonObject_jsonMarshalMap e.fieldMap

/-- The members with a given name in the object that `MarshalJSON` writes, when the name is
written as itself and no other key of the map is written as that name. -/
theorem mem_object (e : ProxyError) (q : GoString)
    (h : ∀ x ∈ e.fieldMap, (coerceUTF8 x.1 = q ↔ x.1 = q)) (v : GoString) :
    (q, v) ∈ (sortByKey e.fieldMap).map (fun x => (coerceUTF8 x.1, coerceUTF8 x.2)) ↔
      ∃ w, mapGet e.fieldMap q = some w ∧ v = coerceUTF8 w := by
  constructor
  · intro hm
    obtain ⟨x, hx, hxe⟩ := List.mem_map.1 hm
    simp only [Prod.mk.injEq] at hxe
    have hx1 := (mem_sortByKey x _).1 hx
    have hk := (h x hx1).1 hxe.1
    refine ⟨x.2, ?_, hxe.2.symm⟩
    exact mapGet_of_mem _ q x.2 (fieldMap_nodup e) (by rw [← hk]; exact hx1)
  · rintro ⟨w, hw, rfl⟩
    have hm := mapGet_mem _ q w hw
    refine List.mem_map.2 ⟨(q, w), (mem_sortByKey _ _).2 hm, ?_⟩
    simp only [Prod.mk.injEq, and_true]
    exact (h (q, w) hm).2 rfl

theorem mem_object_ascii (e : ProxyError) (q : GoString) (hq : ∀ b ∈ q, b.toNat < 128)
    (v : GoString) :
    (q, v) ∈ (sortByKey e.fieldMap).map (fun x => (coerceUTF8 x.1, coerceUTF8 x.2)) ↔
      ∃ w, mapGet e.fieldMap q = some w ∧ v = coerceUTF8 w :=
  mem_object e q (fun x _ => ⟨fun hx => coerceUTF8_eq_ascii x.1 q hq hx,
    fun hx => by rw [hx]; exact coerceUTF8_of_ascii q hq⟩) v

theorem mem_object_valid (e : ProxyError) (hk : ∀ x ∈ e.Data.getD [], ValidString x.1 = true)
    (q v : GoString) :
    (q, v) ∈ (sortByKey e.fieldMap).map (fun x => (coerceUTF8 x.1, coerceUTF8 x.2)) ↔
      ∃ w, mapGet e.fieldMap q = some w ∧ v = coerceUTF8 w := by
  apply mem_object
  intro x hx
  have : coerceUTF8 x.1 = x.1 := by
    rcases mem_fieldMap e x hx with h | h | h
    · rw [h]; exact (by decide : coerceUTF8 (str "message") = str "message")
    · rw [h]; exact (by decide : coerceUTF8 (str "status") = str "status")
    · exact coerceUTF8_of_valid _ (hk x h)
  rw [this]

theorem str_message_ascii : ∀ b ∈ str "message", b.toNat < 128 := by decide

theorem str_status_ascii : ∀ b ∈ str "status", b.toNat < 128 := by decide

/-! ## The claims about the serialised form -/

/-- C13 (amended): `SerializeJSON` writes a JSON object. For every structured error whose
message is valid UTF-8 and whose extra fields do not use the key `message`, the object has
one member `message`, and its value is the message of the error; for every structured error
whose extra fields do not use the key `status`, the object has one member `status`, and its
value is the status code as a decimal string. -/
theorem SerializeJSON_message_status (e : ProxyError) :
    ∃ obj, jsonObject e.SerializeJSON = some obj ∧
      (ValidString e.Msg = true → e.field (str "message") = none →
        ∀ v, (str "message", v) ∈ obj ↔ v = e.Msg) ∧
      (e.field (str "status") = none →
        ∀ v, (str "status", v) ∈ obj ↔ v = formatInt e.Status) := by
  refine ⟨_, jsonObject_MarshalJSON e, ?_, ?_⟩
  · intro hv h v
    rw [mem_object_ascii e _ str_message_ascii, fieldMap_message e h]
    simp only [Option.some.injEq, exists_eq_left']
    rw [coerceUTF8_of_valid _ hv]
  · intro h v
    rw [mem_object_ascii e _ str_status_ascii, fieldMap_status e h]
    simp only [Option.some.injEq, exists_eq_left']
    rw [coerceUTF8_of_ascii _ (formatInt_ascii e.Status)]

theorem SerializeJSON_message_status_witness :
    ∃ obj, jsonObject (ErrorNotFound (str "bad format")).SerializeJSON = some obj ∧
      (∀ v, (str "message", v) ∈ obj ↔ v = (ErrorNotFound (str "bad format")).Msg) ∧
      (∀ v, (str "status", v) ∈ obj ↔
        v = formatInt (ErrorNotFound (str "bad format")).Status) := by
  obtain ⟨obj, h1, h2, h3⟩ := SerializeJSON_message_status (ErrorNotFound (str "bad format"))
  exact ⟨obj, h1, h2 (by decide) (by decide), h3 (by decide)⟩

set_option maxRecDepth 100000 in
/-- C13 (counterexample): an error with the message `boom`, the status 500 and the extra
fields `message` and `status` is serialised with the values of the extra fields; and an
error whose message is the byte `FF`, which is not valid UTF-8, is serialised with the
message U+FFFD, as is the error whose message is the byte `FE`. -/
theorem SerializeJSON_message_status_counterexample :
    (((Error (str "boom") 500).AddErrField (str "message") (str "shadow")).AddErrField
        (str "status") (str "teapot")).Msg = str "boom" ∧
      (((Error (str "boom") 500).AddErrField (str "message") (str "shadow")).AddErrField
        (str "status") (str "teapot")).Status = 500 ∧
      (((Error (str "boom") 500).AddErrField (str "message") (str "shadow")).AddErrField
        (str "status") (str "teapot")).SerializeJSON =
        str "\x7b\"message\":\"shadow\",\"status\":\"teapot\"\x7d" ∧
      jsonObject (((Error (str "boom") 500).AddErrField (str "message")
        (str "shadow")).AddErrField (str "status") (str "teapot")).SerializeJSON =
        some [(str "message", str "shadow"), (str "status", str "teapot")] ∧
      (Error [0xFF] 500).field (str "message") = none ∧
      jsonObject (Error [0xFF] 500).SerializeJSON =
        some [(str "message", [0xEF, 0xBF, 0xBD]), (str "status", str "500")] ∧
      (Error [0xFF] 500).SerializeJSON = (Error [0xFE] 500).SerializeJSON := by
  decide

/-- C16: after `e.AddErrField(k, v)` the field `k` holds `v`, every field with another key
holds what it held before, and the message and the status code are unchanged; the field map
may be nil before the call. -/
theorem AddErrField_frame (e : ProxyError) (k v : GoString) :
    (e.AddErrField k v).field k = some v ∧
      (∀ k1, k1 ≠ k → (e.AddErrField k v).field k1 = e.field k1) ∧
      (e.AddErrField k v).Msg = e.Msg ∧ (e.AddErrField k v).Status = e.Status := by
  unfold ProxyError.AddErrField ProxyError.field
  cases hd : e.Data with
  | none =>
    refine ⟨?_, ?_, rfl, rfl⟩
    · simp only [if_true, Option.map_some']
      exact mapGet_mapSet_self _ _ _
    · intro k1 hk
      simp only [if_true, Option.map_some']
      rw [mapGet_mapSet_ne _ _ _ _ hk]
      rfl
  | some m =>
    refine ⟨?_, ?_, ?_, ?_⟩
    · simp only [reduceCtorEq, if_false, hd, Option.map_some']
      exact mapGet_mapSet_self _ _ _
    · intro k1 hk
      simp only [reduceCtorEq, if_false, hd, Option.map_some']
      exact mapGet_mapSet_ne _ _ _ _ hk
    · simp only [reduceCtorEq, if_false]
    · simp only [reduceCtorEq, if_false]

/-- C17: after `e.RemoveErrField(k)` the field `k` is absent and every other field, the
message and the status code are unchanged; when `k` was not a field of `e`, also when the
field map is nil, `e` is left exactly as it was. -/
theorem RemoveErrField_frame (e : ProxyError) (k : GoString) :
    (e.RemoveErrField k).field k = none ∧
      (∀ k1, k1 ≠ k → (e.RemoveErrField k).field k1 = e.field k1) ∧
      (e.RemoveErrField k).Msg = e.Msg ∧ (e.RemoveErrField k).Status = e.Status ∧
      (e.field k = none → e.RemoveErrField k = e) ∧
      (e.Data = none → e.RemoveErrField k = e) := by
  unfold ProxyError.RemoveErrField ProxyError.field
  cases hd : e.Data with
  | none =>
    refine ⟨rfl, fun _ _ => rfl, rfl, rfl, fun _ => ?_, fun _ => ?_⟩ <;>
    · cases e
      simp only at hd
      subst hd
      rfl
  | some m =>
    refine ⟨mapGet_mapDelete_self m k, fun k1 hk => mapGet_mapDelete_ne m k k1 hk, rfl, rfl,
      fun h => ?_, fun h => by simp at h⟩
    simp only at h
    cases e
    simp only at hd
    subst hd
    simp only [Option.map_some', mapDelete_of_absent m k h]

/-- C18 (amended): for every structured error whose extra fields have keys and values that
are valid UTF-8, with one entry per key in its field map as in every Go map, `MarshalJSON`
writes a JSON object whose member names are `message`, `status` and the keys of the extra
fields, and for every extra field the object has one member of that name, with the value of
the field, also under the name `message` or `status`, where it replaces the message or the
status code of the error. -/
theorem MarshalJSON_keys (e : ProxyError) (hu : e.keysUnique) (hv : e.fieldsValidUTF8) :
    ∃ obj, jsonObject e.MarshalJSON = some obj ∧
      (∀ k, (∃ v, (k, v) ∈ obj) ↔
        (k = str "message" ∨ k = str "status" ∨ (e.field k).isSome = true)) ∧
      (∀ k v, e.field k = some v → ∀ v1, (k, v1) ∈ obj ↔ v1 = v) := by
  have hk : ∀ x ∈ e.Data.getD [], ValidString x.1 = true := fun x hx => (hv x hx).1
  refine ⟨_, jsonObject_MarshalJSON e, ?_, ?_⟩
  · intro k
    rw [← fieldMap_keys e k]
    constructor
    · rintro ⟨v, h⟩
      obtain ⟨w, hw, -⟩ := (mem_object_valid e hk k v).1 h
      rw [hw]; rfl
    · intro h
      obtain ⟨w, hw⟩ := Option.isSome_iff_exists.1 h
      exact ⟨coerceUTF8 w, (mem_object_valid e hk k _).2 ⟨w, hw, rfl⟩⟩
  · intro k v h v1
    rw [mem_object_valid e hk, fieldMap_field e hu k v h]
    simp only [Option.some.injEq, exists_eq_left']
    rw [coerceUTF8_of_valid _ (hv (k, v) (field_mem e k v h)).2]

theorem MarshalJSON_keys_witness :
    (((Error (str "boom") 500).AddErrField (str "message") (str "shadow")).keysUnique ∧
      ((Error (str "boom") 500).AddErrField (str "message") (str "shadow")).fieldsValidUTF8 ∧
      ((Error (str "boom") 500).AddErrField (str "message") (str "shadow")).field
        (str "message") = some (str "shadow")) ∧
      ((Error (str "boom") 500).AddErrField (str "message") (str "shadow")).MarshalJSON =
        str "\x7b\"message\":\"shadow\",\"status\":\"500\"\x7d" ∧
      ∃ obj, jsonObject
          ((Error (str "boom") 500).AddErrField (str "message") (str "shadow")).MarshalJSON =
          some obj ∧
        ∀ v1, (str "message", v1) ∈ obj ↔ v1 = str "shadow" := by
  refine ⟨⟨by decide, by decide, by decide⟩, by decide, ?_⟩
  obtain ⟨obj, h1, -, h3⟩ := MarshalJSON_keys
    ((Error (str "boom") 500).AddErrField (str "message") (str "shadow")) (by decide) (by decide)
  exact ⟨obj, h1, h3 (str "message") (str "shadow") (by decide)⟩

set_option maxRecDepth 100000 in
/-- C18 (counterexample): an error with the extra field `FF`, a key of one byte that is not
valid UTF-8, is written as an object with a member of the name U+FFFD, which is no key of
the error, and none of the name `FF`; the error with the extra field `FE` instead is
written as the same text. And an extra field `k` with the value `FF` is written with the
value U+FFFD. -/
theorem MarshalJSON_keys_counterexample :
    ((Error (str "boom") 500).AddErrField [0xFF] (str "a")).keysUnique ∧
      ((Error (str "boom") 500).AddErrField [0xFF] (str "a")).field [0xFF] = some (str "a") ∧
      jsonObject ((Error (str "boom") 500).AddErrField [0xFF] (str "a")).MarshalJSON =
        some [(str "message", str "boom"), (str "status", str "500"),
          ([0xEF, 0xBF, 0xBD], str "a")] ∧
      ((Error (str "boom") 500).AddErrField [0xFF] (str "a")).field [0xEF, 0xBF, 0xBD] = none ∧
      ((Error (str "boom") 500).AddErrField [0xFF] (str "a")).MarshalJSON =
        ((Error (str "boom") 500).AddErrField [0xFE] (str "a")).MarshalJSON ∧
      ((Error (str "boom") 500).AddErrField (str "k") [0xFF]).field (str "k") = some [0xFF] ∧
      jsonObject ((Error (str "boom") 500).AddErrField (str "k") [0xFF]).MarshalJSON =
        some [(str "k", [0xEF, 0xBF, 0xBD]), (str "message", str "boom"),
          (str "status", str "500")] := by
  decide

theorem AddErrField_frame_witness :
    ((Error (str "boom") 500).AddErrField (str "reason") (str "r1")).field (str "reason") =
        some (str "r1") ∧
      ((ErrorNotFound (str "r0")).AddErrField (str "reason") (str "r1")).field (str "reason") =
        some (str "r1") ∧
      ((ErrorNotFound (str "r0")).AddErrField (str "detail") (str "d")).field (str "reason") =
        (ErrorNotFound (str "r0")).field (str "reason") :=
  ⟨(AddErrField_frame (Error (str "boom") 500) (str "reason") (str "r1")).1,
    (AddErrField_frame (ErrorNotFound (str "r0")) (str "reason") (str "r1")).1,
    (AddErrField_frame (ErrorNotFound (str "r0")) (str "detail") (str "d")).2.1 (str "reason")
      (by decide)⟩

theorem RemoveErrField_frame_witness :
    ((ErrorNotFound (str "r0")).RemoveErrField (str "reason")).field (str "reason") = none ∧
      (ErrorNotFound (str "r0")).RemoveErrField (str "detail") = ErrorNotFound (str "r0") ∧
      (Error (str "boom") 500).RemoveErrField (str "reason") = Error (str "boom") 500 :=
  ⟨(RemoveErrField_frame (ErrorNotFound (str "r0")) (str "reason")).1,
    (RemoveErrField_frame (ErrorNotFound (str "r0")) (str "detail")).2.2.2.2.1 (by decide),
    (RemoveErrField_frame (Error (str "boom") 500) (str "reason")).2.2.2.2.2 (by decide)⟩

/-- C14 (amended): `ErrorNotFound(reason)` has the status 404 and the message
`err: not found`; for every reason that is valid UTF-8 its serialisation is a JSON object
whose members are `message`, `reason` with the reason as its value, and `status` with the
value `404`, when the reason is non-empty, and `message` and `status` when it is empty. -/
theorem ErrorNotFound_serialised (reason : GoString) :
    (ErrorNotFound reason).Status = 404 ∧ (ErrorNotFound reason).Msg = str "err: not found" ∧
      (ValidString reason = true →
        jsonObject (ErrorNotFound reason).SerializeJSON =
          some (if reason = [] then
              [(str "message", str "err: not found"), (str "status", str "404")]
            else
              [(str "message", str "err: not found"), (str "reason", reason),
                (str "status", str "404")])) := by
  by_cases h : reason = []
  · subst h
    exact ⟨by decide, by decide, fun _ => by decide⟩
  · refine ⟨by rw [ErrorNotFound_of_ne reason h], by rw [ErrorNotFound_of_ne reason h], ?_⟩
    intro hv
    rw [if_neg h]
    show jsonObject (ErrorNotFound reason).MarshalJSON = _
    rw [jsonObject_MarshalJSON, fieldMap_notFound reason h, sortByKey_notFound]
    simp only [List.map_cons, List.map_nil]
    rw [coerceUTF8_of_valid _ hv]
    rfl

theorem ErrorNotFound_serialised_witness :
    ValidString (str "bad format") = true ∧
      (ErrorNotFound (str "bad format")).Status = 404 ∧
      jsonObject (ErrorNotFound (str "bad format")).SerializeJSON =
        some [(str "message", str "err: not found"), (str "reason", str "bad format"),
          (str "status", str "404")] ∧
      (ErrorNotFound (str "bad format")).SerializeJSON =
        str "\x7b\"message\":\"err: not found\",\"reason\":\"bad format\",\"status\":\"404\"\x7d" :=
  ⟨by decide, (ErrorNotFound_serialised (str "bad format")).1,
    ((ErrorNotFound_serialised (str "bad format")).2.2 (by decide)).trans (by decide),
    by decide⟩

set_option maxRecDepth 100000 in
/-- C14 (counterexample): the reason of one byte `FF` is not valid UTF-8; the object that
`ErrorNotFound` of it is serialised as has the reason U+FFFD, three other bytes, and is the
object of the reason of one byte `FE` as well. -/
theorem ErrorNotFound_serialised_counterexample :
    ValidString [0xFF] = false ∧
      jsonObject (ErrorNotFound [0xFF]).SerializeJSON =
        some [(str "message", str "err: not found"), (str "reason", [0xEF, 0xBF, 0xBD]),
          (str "status", str "404")] ∧
      ([0xEF, 0xBF, 0xBD] : GoString) ≠ [0xFF] ∧
      (ErrorNotFound [0xFF]).SerializeJSON = (ErrorNotFound [0xFE]).SerializeJSON := by
  decide

/-! ## The claims about the error responses -/

theorem Header_Get_Add_nil (v : GoString) :
    Header.Get (Header.Add [] (str "content-type") v) (str "Content-Type") = v := by
  rfl

/-- The error response for an error that is not a structured error. -/
theorem SendErrorResponse_other (rw : ResponseWriter) (text : GoString)
    (hrw : rw.wroteHeader = false) :
    SendErrorResponse rw (.other text) =
      .ok { header := rw.header.Add (str "content-type") (str "text/plain"),
            wroteHeader := true, status := 500,
            sentHeader := rw.header.Add (str "content-type") (str "text/plain"),
            body := rw.body ++ text } := by
  unfold SendErrorResponse
  simp only []
  rw [WriteHeader_fresh
    { rw with header := rw.header.Add (str "content-type") (str "text/plain") }
    StatusInternalServerError hrw (by decide)]
  simp only []
  rw [Write_after_header _ _ rfl (by rfl)]
  rfl

/-- The error of a host that the host router refuses. -/
theorem split_error_shape (host name port : GoString) (e : ProxyError)
    (h : splitContainerNameAndPort host = (name, port, some e)) :
    name = [] ∧ port = [] ∧
      (e = ErrorNotFound (str "proxy: url without subdomain is not allowed") ∨
        e = ErrorNotFound (str "proxy: invalid subdomain format")) := by
  by_cases hdot : (0x2E : UInt8) ∈ host
  · obtain ⟨label, rest, hhost, hl⟩ := exists_first_label host hdot
    subst hhost
    by_cases hv : ∃ name g2, label = name ++ g2 ∧ name ≠ [] ∧ (0x2D : UInt8) ∉ name ∧
        (g2 = [] ∨ ∃ d, g2 = 0x2D :: d ∧ IsFourDigits d)
    · obtain ⟨name1, g2, hlabel, hne, hdash, hg⟩ := hv
      subst hlabel
      rw [split_of_valid name1 g2 rest hl hne hdash hg] at h
      simp at h
    · rw [split_of_invalid label rest hl hv] at h
      simp only [Prod.mk.injEq, Option.some.injEq] at h
      exact ⟨h.1.symm, h.2.1.symm, Or.inr h.2.2.symm⟩
  · rw [split_of_no_dot host hdot] at h
    simp only [Prod.mk.injEq, Option.some.injEq] at h
    exact ⟨h.1.symm, h.2.1.symm, Or.inl h.2.2.symm⟩

theorem split_error_status (host name port : GoString) (e : ProxyError)
    (h : splitContainerNameAndPort host = (name, port, some e)) : e.Status = 404 := by
  obtain ⟨-, -, he | he⟩ := split_error_shape host name port e h <;>
  · rw [he]; decide

/-- C12: for every inbound request whose host `splitContainerNameAndPort` rejects, the
handler writes the status of the error, which is 404, with the header `Content-Type:
application/json` and the serialised error as the body, and hands no request to the client.
The response writer is one on which no status has been written, as the server hands it to a
handler. -/
theorem proxyRequestHandler_rejects (Do : Request → Except GoString Response)
    (rw : ResponseWriter) (req : Request) (name port : GoString) (e : ProxyError)
    (hrw : rw.wroteHeader = false)
    (h : splitContainerNameAndPort req.Host = (name, port, some e)) :
    e.Status = 404 ∧
      proxyRequestHandler Do rw req =
        .ok ({ header := rw.header.Add (str "content-type") (str "application/json"),
               wroteHeader := true, status := 404,
               sentHeader := rw.header.Add (str "content-type") (str "application/json"),
               body := rw.body ++ e.SerializeJSON }, []) ∧
      (rw.header = [] →
        Header.Get (rw.header.Add (str "content-type") (str "application/json"))
          (str "Content-Type") = str "application/json") := by
  have hs := split_error_status req.Host name port e h
  refine ⟨hs, ?_, ?_⟩
  · rw [proxyRequestHandler_of_split_error Do rw req name port e h,
      SendErrorResponse_proxy rw e hrw (by rw [hs]; decide), hs]
  · intro hh
    rw [hh]
    exact Header_Get_Add_nil _

set_option maxRecDepth 10000 in
theorem proxyRequestHandler_rejects_witness :
    (ResponseWriter.new.wroteHeader = false ∧
        splitContainerNameAndPort
            (⟨str "GET", URL.zero, [], [], str "a-b-1234.example.com", str "/"⟩ : Request).Host =
          ([], [], some (ErrorNotFound (str "proxy: invalid subdomain format")))) ∧
      (ErrorNotFound (str "proxy: invalid subdomain format")).Status = 404 ∧
      proxyRequestHandler (fun _ => .ok ⟨200, [], str "ok"⟩) ResponseWriter.new
          ⟨str "GET", URL.zero, [], [], str "a-b-1234.example.com", str "/"⟩ =
        .ok ({ header := ResponseWriter.new.header.Add (str "content-type")
                 (str "application/json"),
               wroteHeader := true, status := 404,
               sentHeader := ResponseWriter.new.header.Add (str "content-type")
                 (str "application/json"),
               body := ResponseWriter.new.body ++
                 (ErrorNotFound (str "proxy: invalid subdomain format")).SerializeJSON }, []) ∧
      (ResponseWriter.new.header = [] →
        Header.Get (ResponseWriter.new.header.Add (str "content-type") (str "application/json"))
          (str "Content-Type") = str "application/json") :=
  ⟨⟨by decide, by decide⟩,
    proxyRequestHandler_rejects (fun _ => .ok ⟨200, [], str "ok"⟩) ResponseWriter.new
      ⟨str "GET", URL.zero, [], [], str "a-b-1234.example.com", str "/"⟩ [] []
      (ErrorNotFound (str "proxy: invalid subdomain format")) (by decide) (by decide)⟩

/-- C15 (amended): on a response writer on which no status has been written,
`SendErrorResponse` adds `Content-Type: application/json`, writes the status code and writes
the serialised JSON as the body for every structured error whose status code lies in
`200..999` and is neither 204 nor 304, and adds `Content-Type: text/plain`, writes status
500 and writes the raw description as the body for every error that is not a structured
error. -/
theorem SendErrorResponse_spec (rw : ResponseWriter) (hrw : rw.wroteHeader = false) :
    (∀ e : ProxyError, 200 ≤ e.Status → e.Status ≤ 999 → e.Status ≠ 204 → e.Status ≠ 304 →
      SendErrorResponse rw (.proxy e) =
        .ok { header := rw.header.Add (str "content-type") (str "application/json"),
              wroteHeader := true, status := e.Status,
              sentHeader := rw.header.Add (str "content-type") (str "application/json"),
              body := rw.body ++ e.SerializeJSON }) ∧
      (∀ text : GoString,
        SendErrorResponse rw (.other text) =
          .ok { header := rw.header.Add (str "content-type") (str "text/plain"),
                wroteHeader := true, status := 500,
                sentHeader := rw.header.Add (str "content-type") (str "text/plain"),
                body := rw.body ++ text }) :=
  ⟨fun e h1 h2 h3 h4 => SendErrorResponse_proxy rw e hrw ⟨h1, h2, h3, h4⟩,
    fun text => SendErrorResponse_other rw text hrw⟩

set_option maxRecDepth 10000 in
theorem SendErrorResponse_spec_witness :
    ResponseWriter.new.wroteHeader = false ∧
      SendErrorResponse ResponseWriter.new (.proxy (ErrorNotFound (str "bad format"))) =
        .ok ⟨[(str "Content-Type", [str "application/json"])], true, 404,
          [(str "Content-Type", [str "application/json"])],
          str "\x7b\"message\":\"err: not found\",\"reason\":\"bad format\",\"status\":\"404\"\x7d"⟩ ∧
      SendErrorResponse ResponseWriter.new (.other (str "connection refused")) =
        .ok ⟨[(str "Content-Type", [str "text/plain"])], true, 500,
          [(str "Content-Type", [str "text/plain"])], str "connection refused"⟩ :=
  ⟨by decide,
    ((SendErrorResponse_spec ResponseWriter.new (by decide)).1
      (ErrorNotFound (str "bad format")) (by decide) (by decide) (by decide)
      (by decide)).trans (by decide),
    ((SendErrorResponse_spec ResponseWriter.new (by decide)).2
      (str "connection refused")).trans (by decide)⟩

set_option maxRecDepth 10000 in
/-- C15 (counterexample): for the structured errors `Error("boom", 0)` and
`Error("boom", 1000)` the status code is not one that `WriteHeader` takes: the call panics,
no status and no body are written. For `Error("boom", 204)`, `Error("boom", 304)` and
`Error("boom", 101)` the status is written and the body is not. For `Error("boom", 100)`
the code goes out as an informational response and the body is written under the status
200. -/
theorem SendErrorResponse_spec_counterexample :
    SendErrorResponse ResponseWriter.new (.proxy (Error (str "boom") 0)) =
        .error (str "invalid WriteHeader code 0") ∧
      SendErrorResponse ResponseWriter.new (.proxy (Error (str "boom") 1000)) =
        .error (str "invalid WriteHeader code 1000") ∧
      SendErrorResponse ResponseWriter.new (.proxy (Error (str "boom") 204)) =
        .ok ⟨[(str "Content-Type", [str "application/json"])], true, 204,
          [(str "Content-Type", [str "application/json"])], []⟩ ∧
      SendErrorResponse ResponseWriter.new (.proxy (Error (str "boom") 304)) =
        .ok ⟨[(str "Content-Type", [str "application/json"])], true, 304,
          [(str "Content-Type", [str "application/json"])], []⟩ ∧
      SendErrorResponse ResponseWriter.new (.proxy (Error (str "boom") 101)) =
        .ok ⟨[(str "Content-Type", [str "application/json"])], true, 101,
          [(str "Content-Type", [str "application/json"])], []⟩ ∧
      SendErrorResponse ResponseWriter.new (.proxy (Error (str "boom") 100)) =
        .ok ⟨[(str "Content-Type", [str "application/json"])], true, 200,
          [(str "Content-Type", [str "application/json"])],
          str "\x7b\"message\":\"boom\",\"status\":\"100\"\x7d"⟩ ∧
      (Error (str "boom") 204).SerializeJSON ≠ [] := by
  decide

/-- The handler when the client answers the dispatched request with a transport error. -/
theorem proxyRequestHandler_transport_error (Do : Request → Except GoString Response)
    (rw : ResponseWriter) (req : Request) (name port : GoString) (u : URL) (err : GoString)
    (hrw : rw.wroteHeader = false)
    (hsplit : splitContainerNameAndPort req.Host = (name, port, none))
    (hmake : makeContainerAccessURL name port = (some u, none))
    (hDo : Do (outboundRequest req u) = .error err) :
    proxyRequestHandler Do rw req =
      .ok ({ header := rw.header, wroteHeader := true, status := 500, sentHeader := rw.header,
             body := rw.body ++ err }, [outboundRequest req u]) := by
  rw [proxyRequestHandler_of_dispatch Do rw req name port u hsplit hmake, hDo]
  simp only []
  rw [WriteHeader_fresh rw StatusInternalServerError hrw (by decide)]
  simp only []
  rw [Write_after_header _ _ rfl (by rfl)]
  rfl

/-- The `Content-Type` that the caller gets on the transport-error path when the handler
starts on a fresh response writer: none for an empty description, else the type that the
server finds in the description by sniffing. -/
theorem transport_error_sentContentType (err : GoString) :
    ResponseWriter.sentContentType
        { header := [], wroteHeader := true, status := 500, sentHeader := [], body := err } =
      if err = [] then [] else [DetectContentType err] := by
  unfold ResponseWriter.sentContentType
  rw [if_pos (by rfl)]
  simp only [List.find?_nil]
  by_cases h : err = []
  · rw [if_neg (by simp [h]), if_pos h]
  · rw [if_pos ⟨by decide, by decide, h⟩, if_neg h]

set_option maxRecDepth 100000 in
/-- C11 (the code at the failing input): for `GET /aaaaaaaaaaaaaLP` on the host
`web-3000.example.com` and a client that fails with the error of the unreachable backend,
the handler dispatches once and writes status 500 and the description without setting a
`Content-Type`; the server sniffs the description, which has `LP` at the offset 34, and
sends `Content-Type: application/vnd.ms-fontobject`. For a request with the method `ttcf`
it sends `font/collection`. A description of plain words, as `connection refused`, is sent
as `text/plain; charset=utf-8`. `SendErrorResponse` on the same errors sets
`Content-Type: text/plain` itself, which is then what the server sends. -/
theorem proxyRequestHandler_transport_error_sniffed :
    proxyRequestHandler
        (fun _ => .error (str
          "Get \"http://web:3000/aaaaaaaaaaaaaLP\": dial tcp: lookup web: no such host"))
        ResponseWriter.new
        ⟨str "GET", { URL.zero with Path := str "/aaaaaaaaaaaaaLP" }, [], [],
          str "web-3000.example.com", str "/aaaaaaaaaaaaaLP"⟩ =
      .ok (⟨[], true, 500, [],
          str "Get \"http://web:3000/aaaaaaaaaaaaaLP\": dial tcp: lookup web: no such host"⟩,
        [⟨str "GET",
          { URL.zero with
            Scheme := str "http", Host := str "web:3000", Path := str "/aaaaaaaaaaaaaLP" },
          [], [], str "web:3000", []⟩]) ∧
    ResponseWriter.sentContentType ⟨[], true, 500, [],
        str "Get \"http://web:3000/aaaaaaaaaaaaaLP\": dial tcp: lookup web: no such host"⟩ =
      [str "application/vnd.ms-fontobject"] ∧
    proxyRequestHandler
        (fun _ => .error (str "ttcf \"http://web:3000/\": dial tcp: lookup web: no such host"))
        ResponseWriter.new
        ⟨str "ttcf", { URL.zero with Path := str "/" }, [], [], str "web-3000.example.com",
          str "/"⟩ =
      .ok (⟨[], true, 500, [],
          str "ttcf \"http://web:3000/\": dial tcp: lookup web: no such host"⟩,
        [⟨str "ttcf",
          { URL.zero with Scheme := str "http", Host := str "web:3000", Path := str "/" },
          [], [], str "web:3000", []⟩]) ∧
    ResponseWriter.sentContentType ⟨[], true, 500, [],
        str "ttcf \"http://web:3000/\": dial tcp: lookup web: no such host"⟩ =
      [str "font/collection"] ∧
    ResponseWriter.sentContentType ⟨[], true, 500, [], str "connection refused"⟩ =
      [str "text/plain; charset=utf-8"] ∧
    SendErrorResponse ResponseWriter.new (.other (str
        "Get \"http://web:3000/aaaaaaaaaaaaaLP\": dial tcp: lookup web: no such host")) =
      .ok ⟨[(str "Content-Type", [str "text/plain"])], true, 500,
        [(str "Content-Type", [str "text/plain"])],
        str "Get \"http://web:3000/aaaaaaaaaaaaaLP\": dial tcp: lookup web: no such host"⟩ ∧
    ResponseWriter.sentContentType ⟨[(str "Content-Type", [str "text/plain"])], true, 500,
        [(str "Content-Type", [str "text/plain"])],
        str "Get \"http://web:3000/aaaaaaaaaaaaaLP\": dial tcp: lookup web: no such host"⟩ =
      [str "text/plain"] := by
  decide

/-! ## The claims about what the host router reads -/

theorem takeWhile_first_label (label rest : GoString) (h : (0x2E : UInt8) ∉ label) :
    (label ++ 0x2E :: rest).takeWhile (fun b => b != 0x2E) = label := by
  induction label with
  | nil => simp
  | cons b tl ih =>
    have hb : b ≠ 0x2E := fun e => h (by simp [e])
    have hb1 : (b != 0x2E) = true := by simpa using hb
    have := ih (fun hm => h (List.mem_cons_of_mem _ hm))
    simp [List.takeWhile_cons, hb1, this]

/-- C19: for all hosts `h1` and `h2` that each contain a `.` and have the same text before
their first `.`, `splitContainerNameAndPort` returns the same result: the same name and
port, or the same error. -/
theorem splitContainerNameAndPort_first_label_only (h1 h2 : GoString)
    (hd1 : (0x2E : UInt8) ∈ h1) (hd2 : (0x2E : UInt8) ∈ h2)
    (heq : h1.takeWhile (fun b => b != 0x2E) = h2.takeWhile (fun b => b != 0x2E)) :
    splitContainerNameAndPort h1 = splitContainerNameAndPort h2 := by
  obtain ⟨l1, r1, e1, n1⟩ := exists_first_label h1 hd1
  obtain ⟨l2, r2, e2, n2⟩ := exists_first_label h2 hd2
  subst e1
  subst e2
  rw [takeWhile_first_label l1 r1 n1, takeWhile_first_label l2 r2 n2] at heq
  subst heq
  rw [split_of_label l1 r1 n1, split_of_label l1 r2 n1]

theorem splitContainerNameAndPort_first_label_only_witness :
    ((0x2E : UInt8) ∈ str "web-3000.example.com" ∧
        (0x2E : UInt8) ∈ str "web-3000.internal.test:8443" ∧
        (str "web-3000.example.com").takeWhile (fun b => b != 0x2E) =
          (str "web-3000.internal.test:8443").takeWhile (fun b => b != 0x2E)) ∧
      splitContainerNameAndPort (str "web-3000.example.com") =
        splitContainerNameAndPort (str "web-3000.internal.test:8443") :=
  ⟨⟨by decide, by decide, by decide⟩,
    splitContainerNameAndPort_first_label_only (str "web-3000.example.com")
      (str "web-3000.internal.test:8443") (by decide) (by decide) (by decide)⟩

/-- C20: for every host on which `splitContainerNameAndPort` succeeds with `(name, port)`,
the first label of the host is `name` when the port is empty and `name ++ "-" ++ port`
otherwise. -/
theorem splitContainerNameAndPort_lossless (host name port : GoString)
    (h : splitContainerNameAndPort host = (name, port, none)) :
    (Split host 0x2E).getD 0 [] = (if port = [] then name else name ++ str "-" ++ port) ∧
      host.takeWhile (fun b => b != 0x2E) =
        (if port = [] then name else name ++ str "-" ++ port) := by
  by_cases hdot : (0x2E : UInt8) ∈ host
  · obtain ⟨label, rest, hhost, hl⟩ := exists_first_label host hdot
    subst hhost
    rw [Split_append label rest _ hl, takeWhile_first_label label rest hl]
    simp only [List.getD_cons_zero, and_self]
    by_cases hv : ∃ name g2, label = name ++ g2 ∧ name ≠ [] ∧ (0x2D : UInt8) ∉ name ∧
        (g2 = [] ∨ ∃ d, g2 = 0x2D :: d ∧ IsFourDigits d)
    · obtain ⟨name1, g2, hlabel, hne, hdash, hg⟩ := hv
      subst hlabel
      rw [split_of_valid name1 g2 rest hl hne hdash hg] at h
      simp only [Prod.mk.injEq, and_true] at h
      obtain ⟨h1, h2⟩ := h
      subst h1
      rcases hg with hg | ⟨d, hg, hd⟩
      · subst hg
        have : port = [] := by rw [← h2]; simp [TrimLeft]
        subst this
        simp
      · subst hg
        rw [TrimLeft_port d hd] at h2
        subst h2
        have hd0 : d ≠ [] := by
          intro e
          have := hd.1
          rw [e] at this
          simp at this
        rw [if_neg hd0, str_dash]
        simp
    · rw [split_of_invalid label rest hl hv] at h
      simp at h
  · rw [split_of_no_dot host hdot] at h
    simp at h

theorem splitContainerNameAndPort_lossless_witness :
    splitContainerNameAndPort (str "web-3000.example.com") = (str "web", str "3000", none) ∧
      ((Split (str "web-3000.example.com") 0x2E).getD 0 [] =
          (if str "3000" = [] then str "web" else str "web" ++ str "-" ++ str "3000") ∧
        (str "web-3000.example.com").takeWhile (fun b => b != 0x2E) =
          (if str "3000" = [] then str "web" else str "web" ++ str "-" ++ str "3000")) :=
  ⟨by decide, splitContainerNameAndPort_lossless (str "web-3000.example.com") (str "web")
    (str "3000") (by decide)⟩

end Prevue
